import Mathlib

/-!
Verification of the Move binary-format deserializer
(`language/move-binary-format/src/deserializer.rs`).

The deserializer is embedded shallowly: byte streams are `List Nat`
(each element one byte), fallible readers return
`Except DErr (α × List Nat)` pairing the parsed value with the remaining
input, and each `while` loop of the source is translated to structural
recursion (on an explicit record count where the source counts records,
or on a fuel argument initialised to more than the length of the input
where the source loops until a cursor is exhausted; every loop iteration
consumes at least one byte, so such fuel never runs out — a fact proved
where needed).

Items referenced by the source but defined outside of
`deserializer.rs` (the `VersionedCursor`, the constants of
`file_format_common.rs`, the data types of `file_format.rs`) are
modelled from the specification; each such definition carries a
doc comment saying so.
-/

/-- Error taxonomy of the deserializer: the subset of `StatusCode`
values produced by `deserializer.rs`, with the optional message of
`PartialVMError::with_message` attached to the `MALFORMED` variant
(the only one the source ever attaches a distinguishing message to on
paths this development reasons about).  `invariantViolation` stands for
`VERIFIER_INVARIANT_VIOLATION` / host panics: it is produced by no
intentional decode path, and is also used for the (provably
unreachable) fuel-exhaustion branches of the loop translations. -/
inductive DErr where
  | badMagic
  | unknownVersion
  | unknownTableType
  | badHeaderTable
  | duplicateTable
  | malformed (msg : String)
  | badU16
  | badU32
  | badU64
  | badU128
  | badU256
  | unknownSerializedType
  | unknownOpcode
  | unknownAbility
  | unknownNativeStructFlag
  | invalidFlagBits
  | invariantViolation
  deriving DecidableEq, Repr

/-- Modelled from the spec: the ULEB128 decoder of
`file_format_common.rs` (not under `src/`): little-endian base-128
groups of 7 bits, at most 10 bytes, rejecting over-long (non-canonical)
encodings and values that do not fit in a `u64`.  Any failure is later
mapped to the single message `Bad Uleb` by `read_uleb_internal`, so the
decoder itself returns `Option`. -/
def ulebDecodeAux : List Nat → Nat → Nat → Option (Nat × List Nat)
  | [], _, _ => none
  | b :: rest, acc, shift =>
    let cur := b % 128
    if 2 ^ 64 ≤ cur * 2 ^ shift then none
    else
      let acc2 := acc + cur * 2 ^ shift
      if b % 256 < 128 then
        if 0 < shift ∧ cur = 0 then none else some (acc2, rest)
      else if 63 < shift + 7 then none
      else ulebDecodeAux rest acc2 (shift + 7)

/-- Decode one ULEB128 integer from the front of the input. -/
def ulebDecode (input : List Nat) : Option (Nat × List Nat) :=
  ulebDecodeAux input 0 0

/-- Canonical ULEB128 encoder (the inverse used to build concrete and
symbolic inputs; the serializer is outside the deserializer's source).
The first argument is fuel (taking the value itself is always enough
since the value shrinks by a factor 128 each step). -/
def ulebEncodeAux : Nat → Nat → List Nat
  | 0, n => [n % 128]
  | fuel + 1, n => if n < 128 then [n] else (128 + n % 128) :: ulebEncodeAux fuel (n / 128)

/-- Canonical ULEB128 encoding of `n`. -/
def ulebEncode (n : Nat) : List Nat :=
  ulebEncodeAux n n

/-- Source `read_uleb_internal`: decode a ULEB128 value and check it
against a per-field maximum.  Decode failures become
`Malformed ("Bad Uleb")`, out-of-range values
`Malformed ("Uleb greater than max requested")`. -/
def read_uleb_internal (max : Nat) (input : List Nat) : Except DErr (Nat × List Nat) :=
  match ulebDecode input with
  | none => .error (.malformed ("Bad Uleb"))
  | some (x, rest) =>
    if max < x then .error (.malformed ("Uleb greater than max requested"))
    else .ok (x, rest)

/-- Modelled from the spec: the per-field maxima of
`file_format_common.rs` (not under `src/`).  `u32`-valued fields are
bounded by the `u32` range, table indices by the `u16` range, small
counts by 255. -/
def U32_MAX : Nat := 4294967295

/-- Modelled from the spec: `TABLE_COUNT_MAX` (a `u8` upper bound). -/
def TABLE_COUNT_MAX : Nat := 255

/-- Modelled from the spec: table offsets are `u32`. -/
def TABLE_OFFSET_MAX : Nat := U32_MAX

/-- Modelled from the spec: table sizes are `u32`. -/
def TABLE_SIZE_MAX : Nat := U32_MAX

/-- Modelled from the spec: indices into tables are `u16`. -/
def TABLE_INDEX_MAX : Nat := 65535

def SIGNATURE_INDEX_MAX : Nat := TABLE_INDEX_MAX
def MODULE_HANDLE_INDEX_MAX : Nat := TABLE_INDEX_MAX
def IDENTIFIER_INDEX_MAX : Nat := TABLE_INDEX_MAX
def ADDRESS_INDEX_MAX : Nat := TABLE_INDEX_MAX
def STRUCT_HANDLE_INDEX_MAX : Nat := TABLE_INDEX_MAX
def STRUCT_DEF_INDEX_MAX : Nat := TABLE_INDEX_MAX
def FUNCTION_HANDLE_INDEX_MAX : Nat := TABLE_INDEX_MAX
def FIELD_HANDLE_INDEX_MAX : Nat := TABLE_INDEX_MAX
def FIELD_INST_INDEX_MAX : Nat := TABLE_INDEX_MAX
def FUNCTION_INST_INDEX_MAX : Nat := TABLE_INDEX_MAX
def STRUCT_DEF_INST_INDEX_MAX : Nat := TABLE_INDEX_MAX
def CONSTANT_INDEX_MAX : Nat := TABLE_INDEX_MAX

def BYTECODE_COUNT_MAX : Nat := 65535
def BYTECODE_INDEX_MAX : Nat := 65535
def ACQUIRES_COUNT_MAX : Nat := 255
def FIELD_COUNT_MAX : Nat := 255
def TYPE_PARAMETER_COUNT_MAX : Nat := 255
def TYPE_PARAMETER_INDEX_MAX : Nat := 65536
def SIGNATURE_SIZE_MAX : Nat := 255
def CONSTANT_SIZE_MAX : Nat := 65535
def METADATA_KEY_SIZE_MAX : Nat := 1023
def METADATA_VALUE_SIZE_MAX : Nat := 65535
def IDENTIFIER_SIZE_MAX : Nat := 65535
def FIELD_OFFSET_MAX : Nat := 65535
def LOCAL_INDEX_MAX : Nat := 255

/-- Modelled from the spec: format version constants; supported
versions run from 1 through 6. -/
def VERSION_1 : Nat := 1
def VERSION_2 : Nat := 2
def VERSION_3 : Nat := 3
def VERSION_4 : Nat := 4
def VERSION_5 : Nat := 5
def VERSION_6 : Nat := 6
def VERSION_MAX : Nat := 6

/-- Modelled from the spec: the account-address byte length (a fixed
width; addresses are fixed-length byte arrays). -/
def ADDRESS_LENGTH : Nat := 32

/-- Table kinds (source `TableType`). -/
inductive TableType where
  | MODULE_HANDLES
  | STRUCT_HANDLES
  | FUNCTION_HANDLES
  | FUNCTION_INST
  | SIGNATURES
  | CONSTANT_POOL
  | IDENTIFIERS
  | ADDRESS_IDENTIFIERS
  | STRUCT_DEFS
  | STRUCT_DEF_INST
  | FUNCTION_DEFS
  | FIELD_HANDLE
  | FIELD_INST
  | FRIEND_DECLS
  | METADATA
  deriving DecidableEq, Repr

/-- Source `TableType::from_u8`. -/
def TableType.from_u8 (value : Nat) : Except DErr TableType :=
  match value with
  | 0x1 => .ok .MODULE_HANDLES
  | 0x2 => .ok .STRUCT_HANDLES
  | 0x3 => .ok .FUNCTION_HANDLES
  | 0x4 => .ok .FUNCTION_INST
  | 0x5 => .ok .SIGNATURES
  | 0x6 => .ok .CONSTANT_POOL
  | 0x7 => .ok .IDENTIFIERS
  | 0x8 => .ok .ADDRESS_IDENTIFIERS
  | 0xA => .ok .STRUCT_DEFS
  | 0xB => .ok .STRUCT_DEF_INST
  | 0xC => .ok .FUNCTION_DEFS
  | 0xD => .ok .FIELD_HANDLE
  | 0xE => .ok .FIELD_INST
  | 0xF => .ok .FRIEND_DECLS
  | 0x10 => .ok .METADATA
  | _ => .error .unknownTableType

/-- Byte value of a table kind (inverse of `TableType.from_u8`,
used to build directory bytes). -/
def TableType.to_u8 : TableType → Nat
  | .MODULE_HANDLES => 0x1
  | .STRUCT_HANDLES => 0x2
  | .FUNCTION_HANDLES => 0x3
  | .FUNCTION_INST => 0x4
  | .SIGNATURES => 0x5
  | .CONSTANT_POOL => 0x6
  | .IDENTIFIERS => 0x7
  | .ADDRESS_IDENTIFIERS => 0x8
  | .STRUCT_DEFS => 0xA
  | .STRUCT_DEF_INST => 0xB
  | .FUNCTION_DEFS => 0xC
  | .FIELD_HANDLE => 0xD
  | .FIELD_INST => 0xE
  | .FRIEND_DECLS => 0xF
  | .METADATA => 0x10

/-- Source `Table`: kind, content offset, content byte count. -/
structure Table where
  kind : TableType
  offset : Nat
  count : Nat
  deriving DecidableEq, Repr

/-- The sort performed at the top of `check_tables`:
`tables.sort_by(|t1, t2| t1.offset.cmp(&t2.offset))` — a stable sort
by offset (insertion sort is stable, like Rust's `sort_by`). -/
def sort_tables (tables : List Table) : List Table :=
  List.insertionSort (fun t1 t2 => t1.offset ≤ t2.offset) tables

/-- The per-entry loop of `check_tables`, with the running offset, the
set of kinds seen so far (the `HashSet`), and the total input length. -/
def check_tables_loop : List Table → Nat → List TableType → Nat → Except DErr Nat
  | [], current_offset, _, _ => .ok current_offset
  | table :: rest, current_offset, table_types, binary_len =>
    if table.offset ≠ current_offset then .error .badHeaderTable
    else if table.count = 0 then .error .badHeaderTable
    else if U32_MAX < current_offset + table.count then .error .badHeaderTable
    else
      if table.kind ∈ table_types then .error .duplicateTable
      else if binary_len < current_offset + table.count then .error .badHeaderTable
      else check_tables_loop rest (current_offset + table.count) (table.kind :: table_types) binary_len

/-- Source `check_tables`: sort the directory by offset, then require
each entry to start at the running offset, have nonzero size, not
overflow `u32` when accumulated, not repeat a kind, and stay within
`binary_len` (the length of the whole input).  Returns the total
content length. -/
def check_tables (tables : List Table) (binary_len : Nat) : Except DErr Nat :=
  check_tables_loop (sort_tables tables) 0 [] binary_len

/-- The layout predicate of the sorted directory: contiguous from the
given offset, nonzero sizes, no `u32` overflow. -/
def contig_from : Nat → List Table → Bool
  | _, [] => true
  | c, t :: rest =>
    decide (t.offset = c) && decide (0 < t.count) && decide (c + t.count ≤ U32_MAX) &&
      contig_from (c + t.count) rest

/-- Sum of the declared table sizes. -/
def total_size (tables : List Table) : Nat :=
  (tables.map Table.count).sum

/-- Bind for parsers returning a value and the remaining input. -/
def pbind (x : Except DErr (α × List Nat)) (f : α → List Nat → Except DErr β) : Except DErr β :=
  match x with
  | .error e => .error e
  | .ok (a, rest) => f a rest

def load_signature_index : List Nat → Except DErr (Nat × List Nat) :=
  read_uleb_internal SIGNATURE_INDEX_MAX

def load_module_handle_index : List Nat → Except DErr (Nat × List Nat) :=
  read_uleb_internal MODULE_HANDLE_INDEX_MAX

def load_identifier_index : List Nat → Except DErr (Nat × List Nat) :=
  read_uleb_internal IDENTIFIER_INDEX_MAX

def load_struct_handle_index : List Nat → Except DErr (Nat × List Nat) :=
  read_uleb_internal STRUCT_HANDLE_INDEX_MAX

def load_address_identifier_index : List Nat → Except DErr (Nat × List Nat) :=
  read_uleb_internal ADDRESS_INDEX_MAX

def load_struct_def_index : List Nat → Except DErr (Nat × List Nat) :=
  read_uleb_internal STRUCT_DEF_INDEX_MAX

def load_function_handle_index : List Nat → Except DErr (Nat × List Nat) :=
  read_uleb_internal FUNCTION_HANDLE_INDEX_MAX

def load_field_handle_index : List Nat → Except DErr (Nat × List Nat) :=
  read_uleb_internal FIELD_HANDLE_INDEX_MAX

def load_field_inst_index : List Nat → Except DErr (Nat × List Nat) :=
  read_uleb_internal FIELD_INST_INDEX_MAX

def load_function_inst_index : List Nat → Except DErr (Nat × List Nat) :=
  read_uleb_internal FUNCTION_INST_INDEX_MAX

def load_struct_def_inst_index : List Nat → Except DErr (Nat × List Nat) :=
  read_uleb_internal STRUCT_DEF_INST_INDEX_MAX

def load_constant_pool_index : List Nat → Except DErr (Nat × List Nat) :=
  read_uleb_internal CONSTANT_INDEX_MAX

def load_bytecode_count : List Nat → Except DErr (Nat × List Nat) :=
  read_uleb_internal BYTECODE_COUNT_MAX

def load_bytecode_index : List Nat → Except DErr (Nat × List Nat) :=
  read_uleb_internal BYTECODE_INDEX_MAX

def load_acquires_count : List Nat → Except DErr (Nat × List Nat) :=
  read_uleb_internal ACQUIRES_COUNT_MAX

def load_field_count : List Nat → Except DErr (Nat × List Nat) :=
  read_uleb_internal FIELD_COUNT_MAX

def load_type_parameter_count : List Nat → Except DErr (Nat × List Nat) :=
  read_uleb_internal TYPE_PARAMETER_COUNT_MAX

def load_signature_size : List Nat → Except DErr (Nat × List Nat) :=
  read_uleb_internal SIGNATURE_SIZE_MAX

def load_constant_size : List Nat → Except DErr (Nat × List Nat) :=
  read_uleb_internal CONSTANT_SIZE_MAX

def load_metadata_key_size : List Nat → Except DErr (Nat × List Nat) :=
  read_uleb_internal METADATA_KEY_SIZE_MAX

def load_metadata_value_size : List Nat → Except DErr (Nat × List Nat) :=
  read_uleb_internal METADATA_VALUE_SIZE_MAX

def load_identifier_size : List Nat → Except DErr (Nat × List Nat) :=
  read_uleb_internal IDENTIFIER_SIZE_MAX

def load_type_parameter_index : List Nat → Except DErr (Nat × List Nat) :=
  read_uleb_internal TYPE_PARAMETER_INDEX_MAX

def load_field_offset : List Nat → Except DErr (Nat × List Nat) :=
  read_uleb_internal FIELD_OFFSET_MAX

def load_table_count : List Nat → Except DErr (Nat × List Nat) :=
  read_uleb_internal TABLE_COUNT_MAX

def load_table_offset : List Nat → Except DErr (Nat × List Nat) :=
  read_uleb_internal TABLE_OFFSET_MAX

def load_table_size : List Nat → Except DErr (Nat × List Nat) :=
  read_uleb_internal TABLE_SIZE_MAX

def load_local_index : List Nat → Except DErr (Nat × List Nat) :=
  read_uleb_internal LOCAL_INDEX_MAX

/-- Modelled from the spec: `SignatureToken` of `file_format.rs` (not
under `src/`): the recursive type algebra.  Indices are `Nat` in place
of the typed `u16` wrappers. -/
inductive SignatureToken where
  | bool
  | u8
  | u16
  | u32
  | u64
  | u128
  | u256
  | address
  | signer
  | vector (t : SignatureToken)
  | reference (t : SignatureToken)
  | mutableReference (t : SignatureToken)
  | struct (sh_idx : Nat)
  | structInstantiation (sh_idx : Nat) (ty_args : List SignatureToken)
  | typeParameter (idx : Nat)

/-- Source `SerializedType` tag values. -/
inductive SerializedType where
  | BOOL
  | U8
  | U64
  | U128
  | ADDRESS
  | REFERENCE
  | MUTABLE_REFERENCE
  | STRUCT
  | TYPE_PARAMETER
  | VECTOR
  | STRUCT_INST
  | SIGNER
  | U16
  | U32
  | U256
  deriving DecidableEq, Repr

/-- Source `SerializedType::from_u8`. -/
def SerializedType.from_u8 (value : Nat) : Except DErr SerializedType :=
  match value with
  | 0x1 => .ok .BOOL
  | 0x2 => .ok .U8
  | 0x3 => .ok .U64
  | 0x4 => .ok .U128
  | 0x5 => .ok .ADDRESS
  | 0x6 => .ok .REFERENCE
  | 0x7 => .ok .MUTABLE_REFERENCE
  | 0x8 => .ok .STRUCT
  | 0x9 => .ok .TYPE_PARAMETER
  | 0xA => .ok .VECTOR
  | 0xB => .ok .STRUCT_INST
  | 0xC => .ok .SIGNER
  | 0xD => .ok .U16
  | 0xE => .ok .U32
  | 0xF => .ok .U256
  | _ => .error .unknownSerializedType

/-- Source `TypeBuilder` (local to `load_signature_token`): the
explicit stack of partially constructed types. -/
inductive TypeBuilder where
  | saturated (tok : SignatureToken)
  | vector
  | reference
  | mutableReference
  | structInst (sh_idx : Nat) (arity : Nat) (ty_args : List SignatureToken)

/-- Source `TypeBuilder::apply`: feed a finished token to the builder
below it.  The `unreachable!` arm (applying to a saturated builder) is
modelled as the `invariantViolation` sentinel. -/
def TypeBuilder.apply : TypeBuilder → SignatureToken → Except DErr TypeBuilder
  | .vector, tok => .ok (.saturated (.vector tok))
  | .reference, tok => .ok (.saturated (.reference tok))
  | .mutableReference, tok => .ok (.saturated (.mutableReference tok))
  | .structInst sh_idx arity ty_args, tok =>
    if arity ≤ (ty_args ++ [tok]).length then
      .ok (.saturated (.structInstantiation sh_idx (ty_args ++ [tok])))
    else .ok (.structInst sh_idx arity (ty_args ++ [tok]))
  | .saturated _, _ => .error .invariantViolation

/-- Source `TypeBuilder::is_saturated`. -/
def TypeBuilder.is_saturated : TypeBuilder → Bool
  | .saturated _ => true
  | _ => false

/-- The `read_next` closure of `load_signature_token`: read one byte,
gate `U16`/`U32`/`U256` behind version 6, dispatch on the serialized
type, reading the operands of `Struct`, `StructInst` (rejecting arity
0) and `TypeParameter`. -/
def read_next (version : Nat) (input : List Nat) : Except DErr (TypeBuilder × List Nat) :=
  match input with
  | [] => .error (.malformed ("Unexpected EOF"))
  | byte :: rest =>
    match SerializedType.from_u8 byte with
    | .error e => .error e
    | .ok s =>
      if (s = .U16 ∨ s = .U32 ∨ s = .U256) ∧ version < VERSION_6 then
        .error (.malformed (("u16, u32, u256 integers not supported in bytecode version ") ++ toString version))
      else
        match s with
        | .BOOL => .ok (.saturated .bool, rest)
        | .U8 => .ok (.saturated .u8, rest)
        | .U16 => .ok (.saturated .u16, rest)
        | .U32 => .ok (.saturated .u32, rest)
        | .U64 => .ok (.saturated .u64, rest)
        | .U128 => .ok (.saturated .u128, rest)
        | .U256 => .ok (.saturated .u256, rest)
        | .ADDRESS => .ok (.saturated .address, rest)
        | .SIGNER => .ok (.saturated .signer, rest)
        | .VECTOR => .ok (.vector, rest)
        | .REFERENCE => .ok (.reference, rest)
        | .MUTABLE_REFERENCE => .ok (.mutableReference, rest)
        | .STRUCT =>
          pbind (load_struct_handle_index rest) fun sh_idx rest2 =>
            .ok (.saturated (.struct sh_idx), rest2)
        | .STRUCT_INST =>
          pbind (load_struct_handle_index rest) fun sh_idx rest2 =>
          pbind (load_type_parameter_count rest2) fun arity rest3 =>
          if arity = 0 then .error (.malformed ("Struct inst with arity 0"))
          else .ok (.structInst sh_idx arity [], rest3)
        | .TYPE_PARAMETER =>
          pbind (load_type_parameter_index rest) fun idx rest2 =>
            .ok (.saturated (.typeParameter idx), rest2)

/-- The main loop of `load_signature_token`: before each step the stack
length is checked against the depth maximum; a saturated top is popped
and fed to the builder below (or returned when the stack empties); an
unsaturated top makes the loop read the next builder.  The loop is
translated with fuel (first argument); each iteration either pops the
stack or consumes input, so `2 * |input| + |stack|` bounds the number
of iterations, and the fuel-exhaustion sentinel is unreachable for the
fuel chosen by `load_signature_token_d`. -/
def sigLoopAux (depth_max version : Nat) : Nat → List TypeBuilder → List Nat → Except DErr (SignatureToken × List Nat)
  | 0, _, _ => .error .invariantViolation
  | fuel + 1, stack, input =>
    if depth_max < stack.length then .error (.malformed ("Maximum recursion depth reached"))
    else
      match stack with
      | [] => .error .invariantViolation
      | .saturated tok :: rest =>
        match rest with
        | [] => .ok (tok, input)
        | t :: rest2 =>
          match TypeBuilder.apply t tok with
          | .error e => .error e
          | .ok tb => sigLoopAux depth_max version fuel (tb :: rest2) input
      | tb :: rest =>
        match read_next version input with
        | .error e => .error e
        | .ok (nb, input2) => sigLoopAux depth_max version fuel (nb :: tb :: rest) input2

/-- Source `load_signature_token`, parameterized by the depth maximum
(`SIGNATURE_TOKEN_DEPTH_MAX` lives in `file_format_common.rs`, outside
`src/`): read the first builder; a saturated one is the whole token,
otherwise run the builder-stack loop. -/
def load_signature_token_d (depth_max version : Nat) (input : List Nat) : Except DErr (SignatureToken × List Nat) :=
  match read_next version input with
  | .error e => .error e
  | .ok (.saturated tok, rest) => .ok (tok, rest)
  | .ok (t, rest) => sigLoopAux depth_max version (2 * rest.length + 2) [t] rest

/-- Modelled from the spec: `SIGNATURE_TOKEN_DEPTH_MAX` of
`file_format_common.rs` (not under `src/`); the spec fixes no numeric
value ("a configured maximum"), theorems about the depth guard are
proved for every positive value of the parameter. -/
def SIGNATURE_TOKEN_DEPTH_MAX : Nat := 256

/-- Source `load_signature_token` with the configured depth maximum. -/
def load_signature_token (version : Nat) (input : List Nat) : Except DErr (SignatureToken × List Nat) :=
  load_signature_token_d SIGNATURE_TOKEN_DEPTH_MAX version input

mutual

/-- Nesting depth of a signature token (atomic tokens have depth 1;
`Vector`, references and `StructInstantiation` add one level). -/
def tokenDepth : SignatureToken → Nat
  | .vector t => 1 + tokenDepth t
  | .reference t => 1 + tokenDepth t
  | .mutableReference t => 1 + tokenDepth t
  | .structInstantiation _ args => 1 + tokenDepthList args
  | _ => 1

/-- Maximum depth over a list of tokens. -/
def tokenDepthList : List SignatureToken → Nat
  | [] => 0
  | t :: ts => Nat.max (tokenDepth t) (tokenDepthList ts)

end

mutual

/-- Well-formedness of a token as producible by the wire format at
version 6: indices within their per-field maxima and every
struct-instantiation arity between 1 and `TYPE_PARAMETER_COUNT_MAX`. -/
def wfTok : SignatureToken → Bool
  | .vector t => wfTok t
  | .reference t => wfTok t
  | .mutableReference t => wfTok t
  | .struct sh_idx => decide (sh_idx ≤ STRUCT_HANDLE_INDEX_MAX)
  | .typeParameter idx => decide (idx ≤ TYPE_PARAMETER_INDEX_MAX)
  | .structInstantiation sh_idx args =>
    decide (sh_idx ≤ STRUCT_HANDLE_INDEX_MAX) && decide (0 < args.length) &&
      decide (args.length ≤ TYPE_PARAMETER_COUNT_MAX) && wfTokList args
  | _ => true

/-- Well-formedness of every token in a list. -/
def wfTokList : List SignatureToken → Bool
  | [] => true
  | t :: ts => wfTok t && wfTokList ts

end

mutual

/-- Every struct-instantiation inside the token has at least one type
argument. -/
def arityPos : SignatureToken → Bool
  | .vector t => arityPos t
  | .reference t => arityPos t
  | .mutableReference t => arityPos t
  | .structInstantiation _ args => decide (0 < args.length) && arityPosList args
  | _ => true

/-- `arityPos` over a list of tokens. -/
def arityPosList : List SignatureToken → Bool
  | [] => true
  | t :: ts => arityPos t && arityPosList ts

end

mutual

/-- Wire encoding of a signature token, following the serialized-type
tag table of the format (the serializer itself is outside the
deserializer source; this encoder is the device used to quantify over
byte streams that encode a given token). -/
def encodeTok : SignatureToken → List Nat
  | .bool => [0x1]
  | .u8 => [0x2]
  | .u64 => [0x3]
  | .u128 => [0x4]
  | .address => [0x5]
  | .reference t => 0x6 :: encodeTok t
  | .mutableReference t => 0x7 :: encodeTok t
  | .struct sh_idx => 0x8 :: ulebEncode sh_idx
  | .typeParameter idx => 0x9 :: ulebEncode idx
  | .vector t => 0xA :: encodeTok t
  | .structInstantiation sh_idx args =>
    0xB :: (ulebEncode sh_idx ++ (ulebEncode args.length ++ encodeTokList args))
  | .signer => [0xC]
  | .u16 => [0xD]
  | .u32 => [0xE]
  | .u256 => [0xF]

/-- Concatenated encodings of a list of tokens. -/
def encodeTokList : List SignatureToken → List Nat
  | [] => []
  | t :: ts => encodeTok t ++ encodeTokList ts

end

/-- Modelled from the spec: `AbilitySet` of `file_format.rs` (not under
`src/`) — a bitfield over Copy (0x1), Drop (0x2), Store (0x4),
Key (0x8), represented as four flags. -/
structure AbilitySet where
  copy : Bool
  drop : Bool
  store : Bool
  key : Bool
  deriving DecidableEq, Repr

/-- Source `AbilitySet::EMPTY`. -/
def AbilitySet.EMPTY : AbilitySet :=
  ⟨false, false, false, false⟩

/-- Modelled from the spec: `AbilitySet::from_u8`, defined for any
bit pattern inside the full mask `0xF`. -/
def AbilitySet.from_u8 (u : Nat) : Option AbilitySet :=
  if u ≤ 0xF then
    some ⟨decide (u &&& 0x1 ≠ 0), decide (u &&& 0x2 ≠ 0), decide (u &&& 0x4 ≠ 0), decide (u &&& 0x8 ≠ 0)⟩
  else none

/-- Source `AbilitySetPosition`. -/
inductive AbilitySetPosition where
  | FunctionTypeParameters
  | StructTypeParameters
  | StructHandle
  deriving DecidableEq, Repr

/-- Source `DeprecatedNominalResourceFlag`. -/
inductive DeprecatedNominalResourceFlag where
  | NOMINAL_RESOURCE
  | NORMAL_STRUCT
  deriving DecidableEq, Repr

/-- Source `DeprecatedNominalResourceFlag::from_u8`. -/
def DeprecatedNominalResourceFlag.from_u8 (value : Nat) : Except DErr DeprecatedNominalResourceFlag :=
  match value with
  | 0x1 => .ok .NOMINAL_RESOURCE
  | 0x2 => .ok .NORMAL_STRUCT
  | _ => .error .unknownAbility

/-- Source `DeprecatedKind`. -/
inductive DeprecatedKind where
  | ALL
  | COPYABLE
  | RESOURCE
  deriving DecidableEq, Repr

/-- Source `DeprecatedKind::from_u8`. -/
def DeprecatedKind.from_u8 (value : Nat) : Except DErr DeprecatedKind :=
  match value with
  | 0x1 => .ok .ALL
  | 0x2 => .ok .COPYABLE
  | 0x3 => .ok .RESOURCE
  | _ => .error .unknownAbility

/-- Source `load_ability_set`: version 1 uses the deprecated kind
system (with position-dependent rewrites into modern ability sets);
version 2 onwards reads one ULEB byte bounded by the full mask.
The `unreachable!` arm of the inner position match is the
`invariantViolation` sentinel. -/
def load_ability_set (version : Nat) (pos : AbilitySetPosition) (input : List Nat) : Except DErr (AbilitySet × List Nat) :=
  if version < 2 then
    match input with
    | [] => .error (.malformed ("Unexpected EOF"))
    | byte :: rest =>
      match pos with
      | .StructHandle =>
        match DeprecatedNominalResourceFlag.from_u8 byte with
        | .error e => .error e
        | .ok .NOMINAL_RESOURCE => .ok (⟨false, false, true, true⟩, rest)
        | .ok .NORMAL_STRUCT => .ok (⟨true, true, true, false⟩, rest)
      | _ =>
        match DeprecatedKind.from_u8 byte with
        | .error e => .error e
        | .ok k =>
          let set : AbilitySet :=
            match k with
            | .ALL => AbilitySet.EMPTY
            | .COPYABLE => ⟨true, true, false, false⟩
            | .RESOURCE => ⟨false, false, false, true⟩
          match pos with
          | .StructHandle => .error .invariantViolation
          | .FunctionTypeParameters => .ok ({ set with store := true }, rest)
          | .StructTypeParameters => .ok (set, rest)
  else
    pbind (read_uleb_internal 0xF input) fun u rest =>
      match AbilitySet.from_u8 u with
      | some abilities => .ok (abilities, rest)
      | none => .error .unknownAbility

/-- The counted loop of `load_ability_sets`. -/
def load_ability_sets_n (version : Nat) (pos : AbilitySetPosition) : Nat → List Nat → Except DErr (List AbilitySet × List Nat)
  | 0, input => .ok ([], input)
  | n + 1, input =>
    pbind (load_ability_set version pos input) fun k rest =>
    pbind (load_ability_sets_n version pos n rest) fun ks rest2 =>
    .ok (k :: ks, rest2)

/-- Source `load_ability_sets`. -/
def load_ability_sets (version : Nat) (pos : AbilitySetPosition) (input : List Nat) : Except DErr (List AbilitySet × List Nat) :=
  pbind (load_type_parameter_count input) fun len rest =>
  load_ability_sets_n version pos len rest

/-- Source `StructTypeParameter`. -/
structure StructTypeParameter where
  constraints : AbilitySet
  is_phantom : Bool
  deriving DecidableEq, Repr

/-- Source `load_struct_type_parameter`: constraint ability set, then
(version ≥ 3 only) the phantom flag, one ULEB byte bounded by 1. -/
def load_struct_type_parameter (version : Nat) (input : List Nat) : Except DErr (StructTypeParameter × List Nat) :=
  pbind (load_ability_set version .StructTypeParameters input) fun constraints rest =>
  if version < VERSION_3 then .ok (⟨constraints, false⟩, rest)
  else
    pbind (read_uleb_internal 1 rest) fun byte rest2 =>
    .ok (⟨constraints, decide (byte ≠ 0)⟩, rest2)

/-- The counted loop of `load_struct_type_parameters`. -/
def load_struct_type_parameters_n (version : Nat) : Nat → List Nat → Except DErr (List StructTypeParameter × List Nat)
  | 0, input => .ok ([], input)
  | n + 1, input =>
    pbind (load_struct_type_parameter version input) fun p rest =>
    pbind (load_struct_type_parameters_n version n rest) fun ps rest2 =>
    .ok (p :: ps, rest2)

/-- Source `load_struct_type_parameters`. -/
def load_struct_type_parameters (version : Nat) (input : List Nat) : Except DErr (List StructTypeParameter × List Nat) :=
  pbind (load_type_parameter_count input) fun len rest =>
  load_struct_type_parameters_n version len rest

/-- Modelled from the spec: the `Visibility` enum of `file_format.rs`
(not under `src/`): Private (0x0), Public (0x1), Friend (0x3), with the
deprecated Script sentinel byte 0x2. -/
inductive Visibility where
  | Private
  | Public
  | Friend
  deriving DecidableEq, Repr

/-- Modelled from the spec: the deprecated script-visibility sentinel
byte. -/
def Visibility.DEPRECATED_SCRIPT : Nat := 0x2

/-- Modelled from the spec: `TryFrom<u8> for Visibility`. -/
def Visibility.from_u8 (value : Nat) : Option Visibility :=
  match value with
  | 0x0 => some .Private
  | 0x1 => some .Public
  | 0x3 => some .Friend
  | _ => none

/-- Modelled from the spec: `FunctionDefinition::DEPRECATED_PUBLIC_BIT`
(value 0b01). -/
def FunctionDefinition.DEPRECATED_PUBLIC_BIT : Nat := 0b01

/-- Modelled from the spec: `FunctionDefinition::NATIVE` (value 0b01 in
the remaining flags). -/
def FunctionDefinition.NATIVE : Nat := 0b01

/-- Modelled from the spec: `FunctionDefinition::ENTRY` (value 0b10 in
the remaining flags). -/
def FunctionDefinition.ENTRY : Nat := 0b10

/-- Take exactly `n` bytes off the front of the input
(source `read_exact`, failing when fewer are available). -/
def read_exact (n : Nat) (input : List Nat) : Option (List Nat × List Nat) :=
  if n ≤ input.length then some (input.take n, input.drop n) else none

/-- Value of a little-endian byte list. -/
def leValue : List Nat → Nat
  | [] => 0
  | b :: rest => b % 256 + 256 * leValue rest

/-- Source `read_u16_internal`: two little-endian bytes, else `BadU16`. -/
def read_u16_internal (input : List Nat) : Except DErr (Nat × List Nat) :=
  match read_exact 2 input with
  | none => .error .badU16
  | some (bs, rest) => .ok (leValue bs, rest)

/-- Source `read_u32_internal`. -/
def read_u32_internal (input : List Nat) : Except DErr (Nat × List Nat) :=
  match read_exact 4 input with
  | none => .error .badU32
  | some (bs, rest) => .ok (leValue bs, rest)

/-- Source `read_u64_internal`. -/
def read_u64_internal (input : List Nat) : Except DErr (Nat × List Nat) :=
  match read_exact 8 input with
  | none => .error .badU64
  | some (bs, rest) => .ok (leValue bs, rest)

/-- Source `read_u128_internal`. -/
def read_u128_internal (input : List Nat) : Except DErr (Nat × List Nat) :=
  match read_exact 16 input with
  | none => .error .badU128
  | some (bs, rest) => .ok (leValue bs, rest)

/-- Source `read_u256_internal`. -/
def read_u256_internal (input : List Nat) : Except DErr (Nat × List Nat) :=
  match read_exact 32 input with
  | none => .error .badU256
  | some (bs, rest) => .ok (leValue bs, rest)

/-- Source `Opcodes`. -/
inductive Opcodes where
  | POP
  | RET
  | BR_TRUE
  | BR_FALSE
  | BRANCH
  | LD_U64
  | LD_CONST
  | LD_TRUE
  | LD_FALSE
  | COPY_LOC
  | MOVE_LOC
  | ST_LOC
  | MUT_BORROW_LOC
  | IMM_BORROW_LOC
  | MUT_BORROW_FIELD
  | IMM_BORROW_FIELD
  | CALL
  | PACK
  | UNPACK
  | READ_REF
  | WRITE_REF
  | ADD
  | SUB
  | MUL
  | MOD
  | DIV
  | BIT_OR
  | BIT_AND
  | XOR
  | OR
  | AND
  | NOT
  | EQ
  | NEQ
  | LT
  | GT
  | LE
  | GE
  | ABORT
  | NOP
  | EXISTS
  | MUT_BORROW_GLOBAL
  | IMM_BORROW_GLOBAL
  | MOVE_FROM
  | MOVE_TO
  | FREEZE_REF
  | SHL
  | SHR
  | LD_U8
  | LD_U128
  | CAST_U8
  | CAST_U64
  | CAST_U128
  | MUT_BORROW_FIELD_GENERIC
  | IMM_BORROW_FIELD_GENERIC
  | CALL_GENERIC
  | PACK_GENERIC
  | UNPACK_GENERIC
  | EXISTS_GENERIC
  | MUT_BORROW_GLOBAL_GENERIC
  | IMM_BORROW_GLOBAL_GENERIC
  | MOVE_FROM_GENERIC
  | MOVE_TO_GENERIC
  | VEC_PACK
  | VEC_LEN
  | VEC_IMM_BORROW
  | VEC_MUT_BORROW
  | VEC_PUSH_BACK
  | VEC_POP_BACK
  | VEC_UNPACK
  | VEC_SWAP
  | LD_U16
  | LD_U32
  | LD_U256
  | CAST_U16
  | CAST_U32
  | CAST_U256
  deriving DecidableEq, Repr

/-- Source `Opcodes::from_u8`: the complete opcode byte table,
`0x01` POP through `0x4D` CAST_U256. -/
def Opcodes.from_u8 (value : Nat) : Except DErr Opcodes :=
  match value with
  | 0x01 => .ok .POP
  | 0x02 => .ok .RET
  | 0x03 => .ok .BR_TRUE
  | 0x04 => .ok .BR_FALSE
  | 0x05 => .ok .BRANCH
  | 0x06 => .ok .LD_U64
  | 0x07 => .ok .LD_CONST
  | 0x08 => .ok .LD_TRUE
  | 0x09 => .ok .LD_FALSE
  | 0x0A => .ok .COPY_LOC
  | 0x0B => .ok .MOVE_LOC
  | 0x0C => .ok .ST_LOC
  | 0x0D => .ok .MUT_BORROW_LOC
  | 0x0E => .ok .IMM_BORROW_LOC
  | 0x0F => .ok .MUT_BORROW_FIELD
  | 0x10 => .ok .IMM_BORROW_FIELD
  | 0x11 => .ok .CALL
  | 0x12 => .ok .PACK
  | 0x13 => .ok .UNPACK
  | 0x14 => .ok .READ_REF
  | 0x15 => .ok .WRITE_REF
  | 0x16 => .ok .ADD
  | 0x17 => .ok .SUB
  | 0x18 => .ok .MUL
  | 0x19 => .ok .MOD
  | 0x1A => .ok .DIV
  | 0x1B => .ok .BIT_OR
  | 0x1C => .ok .BIT_AND
  | 0x1D => .ok .XOR
  | 0x1E => .ok .OR
  | 0x1F => .ok .AND
  | 0x20 => .ok .NOT
  | 0x21 => .ok .EQ
  | 0x22 => .ok .NEQ
  | 0x23 => .ok .LT
  | 0x24 => .ok .GT
  | 0x25 => .ok .LE
  | 0x26 => .ok .GE
  | 0x27 => .ok .ABORT
  | 0x28 => .ok .NOP
  | 0x29 => .ok .EXISTS
  | 0x2A => .ok .MUT_BORROW_GLOBAL
  | 0x2B => .ok .IMM_BORROW_GLOBAL
  | 0x2C => .ok .MOVE_FROM
  | 0x2D => .ok .MOVE_TO
  | 0x2E => .ok .FREEZE_REF
  | 0x2F => .ok .SHL
  | 0x30 => .ok .SHR
  | 0x31 => .ok .LD_U8
  | 0x32 => .ok .LD_U128
  | 0x33 => .ok .CAST_U8
  | 0x34 => .ok .CAST_U64
  | 0x35 => .ok .CAST_U128
  | 0x36 => .ok .MUT_BORROW_FIELD_GENERIC
  | 0x37 => .ok .IMM_BORROW_FIELD_GENERIC
  | 0x38 => .ok .CALL_GENERIC
  | 0x39 => .ok .PACK_GENERIC
  | 0x3A => .ok .UNPACK_GENERIC
  | 0x3B => .ok .EXISTS_GENERIC
  | 0x3C => .ok .MUT_BORROW_GLOBAL_GENERIC
  | 0x3D => .ok .IMM_BORROW_GLOBAL_GENERIC
  | 0x3E => .ok .MOVE_FROM_GENERIC
  | 0x3F => .ok .MOVE_TO_GENERIC
  | 0x40 => .ok .VEC_PACK
  | 0x41 => .ok .VEC_LEN
  | 0x42 => .ok .VEC_IMM_BORROW
  | 0x43 => .ok .VEC_MUT_BORROW
  | 0x44 => .ok .VEC_PUSH_BACK
  | 0x45 => .ok .VEC_POP_BACK
  | 0x46 => .ok .VEC_UNPACK
  | 0x47 => .ok .VEC_SWAP
  | 0x48 => .ok .LD_U16
  | 0x49 => .ok .LD_U32
  | 0x4A => .ok .LD_U256
  | 0x4B => .ok .CAST_U16
  | 0x4C => .ok .CAST_U32
  | 0x4D => .ok .CAST_U256
  | _ => .error .unknownOpcode

/-- The vector-family opcodes gated behind version 4 in `load_code`. -/
def Opcodes.is_vec : Opcodes → Bool
  | .VEC_PACK | .VEC_LEN | .VEC_IMM_BORROW | .VEC_MUT_BORROW
  | .VEC_PUSH_BACK | .VEC_POP_BACK | .VEC_UNPACK | .VEC_SWAP => true
  | _ => false

/-- The 16/32/256-bit load and cast opcodes gated behind version 6 in
`load_code`. -/
def Opcodes.is_wide_int : Opcodes → Bool
  | .LD_U16 | .LD_U32 | .LD_U256 | .CAST_U16 | .CAST_U32 | .CAST_U256 => true
  | _ => false

/-- Source `Bytecode` (`file_format.rs`, mirrored for the decoded
instruction stream; operand indices are `Nat`). -/
inductive Bytecode where
  | Pop
  | Ret
  | BrTrue (off : Nat)
  | BrFalse (off : Nat)
  | Branch (off : Nat)
  | LdU8 (v : Nat)
  | LdU64 (v : Nat)
  | LdU128 (v : Nat)
  | CastU8
  | CastU64
  | CastU128
  | LdConst (idx : Nat)
  | LdTrue
  | LdFalse
  | CopyLoc (idx : Nat)
  | MoveLoc (idx : Nat)
  | StLoc (idx : Nat)
  | MutBorrowLoc (idx : Nat)
  | ImmBorrowLoc (idx : Nat)
  | MutBorrowField (idx : Nat)
  | MutBorrowFieldGeneric (idx : Nat)
  | ImmBorrowField (idx : Nat)
  | ImmBorrowFieldGeneric (idx : Nat)
  | Call (idx : Nat)
  | CallGeneric (idx : Nat)
  | Pack (idx : Nat)
  | PackGeneric (idx : Nat)
  | Unpack (idx : Nat)
  | UnpackGeneric (idx : Nat)
  | ReadRef
  | WriteRef
  | Add
  | Sub
  | Mul
  | Mod
  | Div
  | BitOr
  | BitAnd
  | Xor
  | Shl
  | Shr
  | Or
  | And
  | Not
  | Eq
  | Neq
  | Lt
  | Gt
  | Le
  | Ge
  | Abort
  | Nop
  | Exists (idx : Nat)
  | ExistsGeneric (idx : Nat)
  | MutBorrowGlobal (idx : Nat)
  | MutBorrowGlobalGeneric (idx : Nat)
  | ImmBorrowGlobal (idx : Nat)
  | ImmBorrowGlobalGeneric (idx : Nat)
  | MoveFrom (idx : Nat)
  | MoveFromGeneric (idx : Nat)
  | MoveTo (idx : Nat)
  | MoveToGeneric (idx : Nat)
  | FreezeRef
  | VecPack (idx : Nat) (n : Nat)
  | VecLen (idx : Nat)
  | VecImmBorrow (idx : Nat)
  | VecMutBorrow (idx : Nat)
  | VecPushBack (idx : Nat)
  | VecPopBack (idx : Nat)
  | VecUnpack (idx : Nat) (n : Nat)
  | VecSwap (idx : Nat)
  | LdU16 (v : Nat)
  | LdU32 (v : Nat)
  | LdU256 (v : Nat)
  | CastU16
  | CastU32
  | CastU256
  deriving Repr

/-- The conversion match of `load_code`: one opcode, reading its
operands from the input. -/
def load_instr_operands (opcode : Opcodes) (input : List Nat) : Except DErr (Bytecode × List Nat) :=
  match opcode with
  | .POP => .ok (.Pop, input)
  | .RET => .ok (.Ret, input)
  | .BR_TRUE => pbind (load_bytecode_index input) fun v r => .ok (.BrTrue v, r)
  | .BR_FALSE => pbind (load_bytecode_index input) fun v r => .ok (.BrFalse v, r)
  | .BRANCH => pbind (load_bytecode_index input) fun v r => .ok (.Branch v, r)
  | .LD_U8 =>
    match input with
    | [] => .error (.malformed ("Unexpected EOF"))
    | b :: rest => .ok (.LdU8 b, rest)
  | .LD_U64 => pbind (read_u64_internal input) fun v r => .ok (.LdU64 v, r)
  | .LD_U128 => pbind (read_u128_internal input) fun v r => .ok (.LdU128 v, r)
  | .CAST_U8 => .ok (.CastU8, input)
  | .CAST_U64 => .ok (.CastU64, input)
  | .CAST_U128 => .ok (.CastU128, input)
  | .LD_CONST => pbind (load_constant_pool_index input) fun v r => .ok (.LdConst v, r)
  | .LD_TRUE => .ok (.LdTrue, input)
  | .LD_FALSE => .ok (.LdFalse, input)
  | .COPY_LOC => pbind (load_local_index input) fun v r => .ok (.CopyLoc v, r)
  | .MOVE_LOC => pbind (load_local_index input) fun v r => .ok (.MoveLoc v, r)
  | .ST_LOC => pbind (load_local_index input) fun v r => .ok (.StLoc v, r)
  | .MUT_BORROW_LOC => pbind (load_local_index input) fun v r => .ok (.MutBorrowLoc v, r)
  | .IMM_BORROW_LOC => pbind (load_local_index input) fun v r => .ok (.ImmBorrowLoc v, r)
  | .MUT_BORROW_FIELD => pbind (load_field_handle_index input) fun v r => .ok (.MutBorrowField v, r)
  | .MUT_BORROW_FIELD_GENERIC => pbind (load_field_inst_index input) fun v r => .ok (.MutBorrowFieldGeneric v, r)
  | .IMM_BORROW_FIELD => pbind (load_field_handle_index input) fun v r => .ok (.ImmBorrowField v, r)
  | .IMM_BORROW_FIELD_GENERIC => pbind (load_field_inst_index input) fun v r => .ok (.ImmBorrowFieldGeneric v, r)
  | .CALL => pbind (load_function_handle_index input) fun v r => .ok (.Call v, r)
  | .CALL_GENERIC => pbind (load_function_inst_index input) fun v r => .ok (.CallGeneric v, r)
  | .PACK => pbind (load_struct_def_index input) fun v r => .ok (.Pack v, r)
  | .PACK_GENERIC => pbind (load_struct_def_inst_index input) fun v r => .ok (.PackGeneric v, r)
  | .UNPACK => pbind (load_struct_def_index input) fun v r => .ok (.Unpack v, r)
  | .UNPACK_GENERIC => pbind (load_struct_def_inst_index input) fun v r => .ok (.UnpackGeneric v, r)
  | .READ_REF => .ok (.ReadRef, input)
  | .WRITE_REF => .ok (.WriteRef, input)
  | .ADD => .ok (.Add, input)
  | .SUB => .ok (.Sub, input)
  | .MUL => .ok (.Mul, input)
  | .MOD => .ok (.Mod, input)
  | .DIV => .ok (.Div, input)
  | .BIT_OR => .ok (.BitOr, input)
  | .BIT_AND => .ok (.BitAnd, input)
  | .XOR => .ok (.Xor, input)
  | .SHL => .ok (.Shl, input)
  | .SHR => .ok (.Shr, input)
  | .OR => .ok (.Or, input)
  | .AND => .ok (.And, input)
  | .NOT => .ok (.Not, input)
  | .EQ => .ok (.Eq, input)
  | .NEQ => .ok (.Neq, input)
  | .LT => .ok (.Lt, input)
  | .GT => .ok (.Gt, input)
  | .LE => .ok (.Le, input)
  | .GE => .ok (.Ge, input)
  | .ABORT => .ok (.Abort, input)
  | .NOP => .ok (.Nop, input)
  | .EXISTS => pbind (load_struct_def_index input) fun v r => .ok (.Exists v, r)
  | .EXISTS_GENERIC => pbind (load_struct_def_inst_index input) fun v r => .ok (.ExistsGeneric v, r)
  | .MUT_BORROW_GLOBAL => pbind (load_struct_def_index input) fun v r => .ok (.MutBorrowGlobal v, r)
  | .MUT_BORROW_GLOBAL_GENERIC => pbind (load_struct_def_inst_index input) fun v r => .ok (.MutBorrowGlobalGeneric v, r)
  | .IMM_BORROW_GLOBAL => pbind (load_struct_def_index input) fun v r => .ok (.ImmBorrowGlobal v, r)
  | .IMM_BORROW_GLOBAL_GENERIC => pbind (load_struct_def_inst_index input) fun v r => .ok (.ImmBorrowGlobalGeneric v, r)
  | .MOVE_FROM => pbind (load_struct_def_index input) fun v r => .ok (.MoveFrom v, r)
  | .MOVE_FROM_GENERIC => pbind (load_struct_def_inst_index input) fun v r => .ok (.MoveFromGeneric v, r)
  | .MOVE_TO => pbind (load_struct_def_index input) fun v r => .ok (.MoveTo v, r)
  | .MOVE_TO_GENERIC => pbind (load_struct_def_inst_index input) fun v r => .ok (.MoveToGeneric v, r)
  | .FREEZE_REF => .ok (.FreezeRef, input)
  | .VEC_PACK =>
    pbind (load_signature_index input) fun v r =>
    pbind (read_u64_internal r) fun n r2 => .ok (.VecPack v n, r2)
  | .VEC_LEN => pbind (load_signature_index input) fun v r => .ok (.VecLen v, r)
  | .VEC_IMM_BORROW => pbind (load_signature_index input) fun v r => .ok (.VecImmBorrow v, r)
  | .VEC_MUT_BORROW => pbind (load_signature_index input) fun v r => .ok (.VecMutBorrow v, r)
  | .VEC_PUSH_BACK => pbind (load_signature_index input) fun v r => .ok (.VecPushBack v, r)
  | .VEC_POP_BACK => pbind (load_signature_index input) fun v r => .ok (.VecPopBack v, r)
  | .VEC_UNPACK =>
    pbind (load_signature_index input) fun v r =>
    pbind (read_u64_internal r) fun n r2 => .ok (.VecUnpack v n, r2)
  | .VEC_SWAP => pbind (load_signature_index input) fun v r => .ok (.VecSwap v, r)
  | .LD_U16 => pbind (read_u16_internal input) fun v r => .ok (.LdU16 v, r)
  | .LD_U32 => pbind (read_u32_internal input) fun v r => .ok (.LdU32 v, r)
  | .LD_U256 => pbind (read_u256_internal input) fun v r => .ok (.LdU256 v, r)
  | .CAST_U16 => .ok (.CastU16, input)
  | .CAST_U32 => .ok (.CastU32, input)
  | .CAST_U256 => .ok (.CastU256, input)

/-- The per-instruction body of the `load_code` loop: opcode byte,
opcode lookup, the version-4 vector gate, the version-6 wide-integer
gate, then operand conversion. -/
def load_one_instr (version : Nat) (input : List Nat) : Except DErr (Bytecode × List Nat) :=
  match input with
  | [] => .error (.malformed ("Unexpected EOF"))
  | byte :: rest =>
    match Opcodes.from_u8 byte with
    | .error e => .error e
    | .ok opcode =>
      if opcode.is_vec ∧ version < VERSION_4 then
        .error (.malformed ("Vector operations not available before bytecode version 4"))
      else if opcode.is_wide_int ∧ version < VERSION_6 then
        .error (.malformed (("Loading or casting u16, u32, u256 integers not supported in bytecode version ") ++ toString version))
      else load_instr_operands opcode rest

/-- The `while code.len() < bytecode_count` loop of `load_code`,
structurally on the number of instructions still to read. -/
def load_code_n (version : Nat) : Nat → List Nat → Except DErr (List Bytecode × List Nat)
  | 0, input => .ok ([], input)
  | n + 1, input =>
    pbind (load_one_instr version input) fun instr rest =>
    pbind (load_code_n version n rest) fun instrs rest2 =>
    .ok (instr :: instrs, rest2)

/-- Source `load_code`: bytecode count (bounded ULEB), then that many
instructions. -/
def load_code (version : Nat) (input : List Nat) : Except DErr (List Bytecode × List Nat) :=
  pbind (load_bytecode_count input) fun bytecode_count rest =>
  load_code_n version bytecode_count rest

/-- Source `CodeUnit`: locals signature index plus the instruction
stream. -/
structure CodeUnit where
  locals : Nat
  code : List Bytecode
  deriving Repr

/-- Source `load_code_unit`. -/
def load_code_unit (version : Nat) (input : List Nat) : Except DErr (CodeUnit × List Nat) :=
  pbind (load_signature_index input) fun locals rest =>
  pbind (load_code version rest) fun code rest2 =>
  .ok (⟨locals, code⟩, rest2)

/-- Source `SerializedNativeStructFlag`. -/
inductive SerializedNativeStructFlag where
  | NATIVE
  | DECLARED
  deriving DecidableEq, Repr

/-- Source `SerializedNativeStructFlag::from_u8`. -/
def SerializedNativeStructFlag.from_u8 (value : Nat) : Except DErr SerializedNativeStructFlag :=
  match value with
  | 0x1 => .ok .NATIVE
  | 0x2 => .ok .DECLARED
  | _ => .error .unknownNativeStructFlag

/-- Source `ModuleHandle`: address pool index and identifier index. -/
structure ModuleHandle where
  address : Nat
  name : Nat
  deriving DecidableEq, Repr

/-- Source `StructHandle`. -/
structure StructHandle where
  module : Nat
  name : Nat
  abilities : AbilitySet
  type_parameters : List StructTypeParameter
  deriving DecidableEq, Repr

/-- Source `FunctionHandle`. -/
structure FunctionHandle where
  module : Nat
  name : Nat
  parameters : Nat
  return_ : Nat
  type_parameters : List AbilitySet
  deriving DecidableEq, Repr

/-- Source `StructDefInstantiation` (the `def` field is `def_`). -/
structure StructDefInstantiation where
  def_ : Nat
  type_parameters : Nat
  deriving DecidableEq, Repr

/-- Source `FunctionInstantiation`. -/
structure FunctionInstantiation where
  handle : Nat
  type_parameters : Nat
  deriving DecidableEq, Repr

/-- Source `FieldHandle`. -/
structure FieldHandle where
  owner : Nat
  field : Nat
  deriving DecidableEq, Repr

/-- Source `FieldInstantiation`. -/
structure FieldInstantiation where
  handle : Nat
  type_parameters : Nat
  deriving DecidableEq, Repr

/-- Source `FieldDefinition` (the `TypeSignature` wrapper around the
token is flattened). -/
structure FieldDefinition where
  name : Nat
  signature : SignatureToken

/-- Source `StructFieldInformation`. -/
inductive StructFieldInformation where
  | Native
  | Declared (fields : List FieldDefinition)

/-- Source `StructDefinition`. -/
structure StructDefinition where
  struct_handle : Nat
  field_information : StructFieldInformation

/-- Source `FunctionDefinition`. -/
structure FunctionDefinition where
  function : Nat
  visibility : Visibility
  is_entry : Bool
  acquires_global_resources : List Nat
  code : Option CodeUnit
  deriving Repr

/-- Source `Constant`: a type token plus raw data bytes. -/
structure Constant where
  type_ : SignatureToken
  data : List Nat

/-- Source `Metadata`: key and value byte blobs. -/
structure Metadata where
  key : List Nat
  value : List Nat
  deriving DecidableEq, Repr

/-- Modelled from the spec: identifier validity
(`Identifier::from_utf8` of `move_core_types`, not under `src/`):
ASCII identifier grammar — a letter or underscore followed by letters,
digits or underscores. -/
def isValidIdentifier (bytes : List Nat) : Bool :=
  match bytes with
  | [] => false
  | c :: rest =>
    ((65 ≤ c && c ≤ 90) || (97 ≤ c && c ≤ 122) || c == 95) &&
      rest.all (fun c => (65 ≤ c && c ≤ 90) || (97 ≤ c && c ≤ 122) || c == 95 || (48 ≤ c && c ≤ 57))

/-- Modelled from the spec: `VersionedBinary` — a byte window tagged
with the resolved format version. -/
structure VersionedBinary where
  version : Nat
  bytes : List Nat
  deriving DecidableEq, Repr

/-- Modelled from the spec: `VersionedBinary::slice` over the window. -/
def VersionedBinary.slice (b : VersionedBinary) (s e : Nat) : List Nat :=
  (b.bytes.drop s).take (e - s)

/-- The sub-cursor of a table: the bytes of `[offset, offset+count)`. -/
def tableCursor (binary : VersionedBinary) (table : Table) : List Nat :=
  binary.slice table.offset (table.offset + table.count)

/-- The `while` loop of `load_module_handles`, on fuel (each record
consumes at least one byte). -/
def load_module_handles_f : Nat → List Nat → Except DErr (List ModuleHandle)
  | 0, _ => .error .invariantViolation
  | _ + 1, [] => .ok []
  | fuel + 1, input =>
    pbind (load_address_identifier_index input) fun address rest =>
    pbind (load_identifier_index rest) fun name rest2 =>
    match load_module_handles_f fuel rest2 with
    | .error e => .error e
    | .ok hs => .ok (⟨address, name⟩ :: hs)

/-- Source `load_module_handles` (also used for `FRIEND_DECLS`). -/
def load_module_handles (binary : VersionedBinary) (table : Table) : Except DErr (List ModuleHandle) :=
  let cur := tableCursor binary table
  load_module_handles_f (cur.length + 1) cur

/-- The `while` loop of `load_struct_handles`. -/
def load_struct_handles_f (version : Nat) : Nat → List Nat → Except DErr (List StructHandle)
  | 0, _ => .error .invariantViolation
  | _ + 1, [] => .ok []
  | fuel + 1, input =>
    pbind (load_module_handle_index input) fun module rest =>
    pbind (load_identifier_index rest) fun name rest2 =>
    pbind (load_ability_set version .StructHandle rest2) fun abilities rest3 =>
    pbind (load_struct_type_parameters version rest3) fun type_parameters rest4 =>
    match load_struct_handles_f version fuel rest4 with
    | .error e => .error e
    | .ok hs => .ok (⟨module, name, abilities, type_parameters⟩ :: hs)

/-- Source `load_struct_handles`. -/
def load_struct_handles (binary : VersionedBinary) (table : Table) : Except DErr (List StructHandle) :=
  let cur := tableCursor binary table
  load_struct_handles_f binary.version (cur.length + 1) cur

/-- The `while` loop of `load_function_handles`. -/
def load_function_handles_f (version : Nat) : Nat → List Nat → Except DErr (List FunctionHandle)
  | 0, _ => .error .invariantViolation
  | _ + 1, [] => .ok []
  | fuel + 1, input =>
    pbind (load_module_handle_index input) fun module rest =>
    pbind (load_identifier_index rest) fun name rest2 =>
    pbind (load_signature_index rest2) fun parameters rest3 =>
    pbind (load_signature_index rest3) fun return_ rest4 =>
    pbind (load_ability_sets version .FunctionTypeParameters rest4) fun type_parameters rest5 =>
    match load_function_handles_f version fuel rest5 with
    | .error e => .error e
    | .ok hs => .ok (⟨module, name, parameters, return_, type_parameters⟩ :: hs)

/-- Source `load_function_handles`. -/
def load_function_handles (binary : VersionedBinary) (table : Table) : Except DErr (List FunctionHandle) :=
  let cur := tableCursor binary table
  load_function_handles_f binary.version (cur.length + 1) cur

/-- The `while` loop of `load_struct_instantiations`. -/
def load_struct_instantiations_f : Nat → List Nat → Except DErr (List StructDefInstantiation)
  | 0, _ => .error .invariantViolation
  | _ + 1, [] => .ok []
  | fuel + 1, input =>
    pbind (load_struct_def_index input) fun def_ rest =>
    pbind (load_signature_index rest) fun type_parameters rest2 =>
    match load_struct_instantiations_f fuel rest2 with
    | .error e => .error e
    | .ok xs => .ok (⟨def_, type_parameters⟩ :: xs)

/-- Source `load_struct_instantiations`. -/
def load_struct_instantiations (binary : VersionedBinary) (table : Table) : Except DErr (List StructDefInstantiation) :=
  let cur := tableCursor binary table
  load_struct_instantiations_f (cur.length + 1) cur

/-- The `while` loop of `load_function_instantiations`. -/
def load_function_instantiations_f : Nat → List Nat → Except DErr (List FunctionInstantiation)
  | 0, _ => .error .invariantViolation
  | _ + 1, [] => .ok []
  | fuel + 1, input =>
    pbind (load_function_handle_index input) fun handle rest =>
    pbind (load_signature_index rest) fun type_parameters rest2 =>
    match load_function_instantiations_f fuel rest2 with
    | .error e => .error e
    | .ok xs => .ok (⟨handle, type_parameters⟩ :: xs)

/-- Source `load_function_instantiations`. -/
def load_function_instantiations (binary : VersionedBinary) (table : Table) : Except DErr (List FunctionInstantiation) :=
  let cur := tableCursor binary table
  load_function_instantiations_f (cur.length + 1) cur

/-- The `while` loop of `load_identifiers`: length-prefixed byte
strings checked against the identifier grammar. -/
def load_identifiers_f : Nat → List Nat → Except DErr (List (List Nat))
  | 0, _ => .error .invariantViolation
  | _ + 1, [] => .ok []
  | fuel + 1, input =>
    pbind (load_identifier_size input) fun size rest =>
    let buffer := rest.take size
    if buffer.length ≠ size then .error (.malformed ("Bad Identifier pool size"))
    else if isValidIdentifier buffer then
      match load_identifiers_f fuel (rest.drop size) with
      | .error e => .error e
      | .ok xs => .ok (buffer :: xs)
    else .error (.malformed ("Invalid Identifier"))

/-- Source `load_identifiers`. -/
def load_identifiers (binary : VersionedBinary) (table : Table) : Except DErr (List (List Nat)) :=
  let cur := tableCursor binary table
  load_identifiers_f (cur.length + 1) cur

/-- The counted loop of `load_address_identifiers`: fixed-width
addresses taken directly from the table window. -/
def load_address_identifiers_n (binary : VersionedBinary) : Nat → Nat → Except DErr (List (List Nat))
  | 0, _ => .ok []
  | n + 1, start =>
    let address := binary.slice start (start + ADDRESS_LENGTH)
    if address.length ≠ ADDRESS_LENGTH then .error (.malformed ("Invalid Address format"))
    else
      match load_address_identifiers_n binary n (start + ADDRESS_LENGTH) with
      | .error e => .error e
      | .ok xs => .ok (address :: xs)

/-- Source `load_address_identifiers`: the table size must be a
multiple of the address length; each chunk is one address. -/
def load_address_identifiers (binary : VersionedBinary) (table : Table) : Except DErr (List (List Nat)) :=
  if table.count % ADDRESS_LENGTH ≠ 0 then
    .error (.malformed ("Bad Address Identifier pool size"))
  else load_address_identifiers_n binary (table.count / ADDRESS_LENGTH) table.offset

/-- Source `load_byte_blob`: a size (by the given loader) then that
many bytes. -/
def load_byte_blob (size_loader : List Nat → Except DErr (Nat × List Nat)) (input : List Nat) : Except DErr (List Nat × List Nat) :=
  pbind (size_loader input) fun size rest =>
  let data := rest.take size
  if data.length ≠ size then .error (.malformed ("Bad byte blob size"))
  else .ok (data, rest.drop size)

/-- Source `load_constant`. -/
def load_constant (version : Nat) (input : List Nat) : Except DErr (Constant × List Nat) :=
  pbind (load_signature_token version input) fun type_ rest =>
  pbind (load_byte_blob load_constant_size rest) fun data rest2 =>
  .ok (⟨type_, data⟩, rest2)

/-- The `while` loop of `load_constant_pool`. -/
def load_constant_pool_f (version : Nat) : Nat → List Nat → Except DErr (List Constant)
  | 0, _ => .error .invariantViolation
  | _ + 1, [] => .ok []
  | fuel + 1, input =>
    pbind (load_constant version input) fun c rest =>
    match load_constant_pool_f version fuel rest with
    | .error e => .error e
    | .ok xs => .ok (c :: xs)

/-- Source `load_constant_pool`. -/
def load_constant_pool (binary : VersionedBinary) (table : Table) : Except DErr (List Constant) :=
  let cur := tableCursor binary table
  load_constant_pool_f binary.version (cur.length + 1) cur

/-- Source `load_metadata_entry`. -/
def load_metadata_entry (input : List Nat) : Except DErr (Metadata × List Nat) :=
  pbind (load_byte_blob load_metadata_key_size input) fun key rest =>
  pbind (load_byte_blob load_metadata_value_size rest) fun value rest2 =>
  .ok (⟨key, value⟩, rest2)

/-- The `while` loop of `load_metadata`. -/
def load_metadata_f : Nat → List Nat → Except DErr (List Metadata)
  | 0, _ => .error .invariantViolation
  | _ + 1, [] => .ok []
  | fuel + 1, input =>
    pbind (load_metadata_entry input) fun m rest =>
    match load_metadata_f fuel rest with
    | .error e => .error e
    | .ok xs => .ok (m :: xs)

/-- Source `load_metadata`. -/
def load_metadata (binary : VersionedBinary) (table : Table) : Except DErr (List Metadata) :=
  let cur := tableCursor binary table
  load_metadata_f (cur.length + 1) cur

/-- The counted loop of `load_signature_tokens`. -/
def load_signature_tokens_n (version : Nat) : Nat → List Nat → Except DErr (List SignatureToken × List Nat)
  | 0, input => .ok ([], input)
  | n + 1, input =>
    pbind (load_signature_token version input) fun t rest =>
    pbind (load_signature_tokens_n version n rest) fun ts rest2 =>
    .ok (t :: ts, rest2)

/-- Source `load_signature_tokens`: a bounded length then that many
tokens. -/
def load_signature_tokens (version : Nat) (input : List Nat) : Except DErr (List SignatureToken × List Nat) :=
  pbind (load_signature_size input) fun len rest =>
  load_signature_tokens_n version len rest

/-- The `while` loop of `load_signatures`. -/
def load_signatures_f (version : Nat) : Nat → List Nat → Except DErr (List (List SignatureToken))
  | 0, _ => .error .invariantViolation
  | _ + 1, [] => .ok []
  | fuel + 1, input =>
    pbind (load_signature_tokens version input) fun s rest =>
    match load_signatures_f version fuel rest with
    | .error e => .error e
    | .ok xs => .ok (s :: xs)

/-- Source `load_signatures`. -/
def load_signatures (binary : VersionedBinary) (table : Table) : Except DErr (List (List SignatureToken)) :=
  let cur := tableCursor binary table
  load_signatures_f binary.version (cur.length + 1) cur

/-- Source `load_field_def`. -/
def load_field_def (version : Nat) (input : List Nat) : Except DErr (FieldDefinition × List Nat) :=
  pbind (load_identifier_index input) fun name rest =>
  pbind (load_signature_token version rest) fun signature rest2 =>
  .ok (⟨name, signature⟩, rest2)

/-- The counted loop of `load_field_defs`. -/
def load_field_defs_n (version : Nat) : Nat → List Nat → Except DErr (List FieldDefinition × List Nat)
  | 0, input => .ok ([], input)
  | n + 1, input =>
    pbind (load_field_def version input) fun f rest =>
    pbind (load_field_defs_n version n rest) fun fs rest2 =>
    .ok (f :: fs, rest2)

/-- Source `load_field_defs`: field count then that many fields. -/
def load_field_defs (version : Nat) (input : List Nat) : Except DErr (List FieldDefinition × List Nat) :=
  pbind (load_field_count input) fun field_count rest =>
  load_field_defs_n version field_count rest

/-- The `while` loop of `load_struct_defs`: struct-handle index, field
information flag, then native or declared fields. -/
def load_struct_defs_f (version : Nat) : Nat → List Nat → Except DErr (List StructDefinition)
  | 0, _ => .error .invariantViolation
  | _ + 1, [] => .ok []
  | fuel + 1, input =>
    pbind (load_struct_handle_index input) fun struct_handle rest =>
    match rest with
    | [] => .error (.malformed ("Invalid field info in struct"))
    | byte :: rest2 =>
      match SerializedNativeStructFlag.from_u8 byte with
      | .error e => .error e
      | .ok .NATIVE =>
        match load_struct_defs_f version fuel rest2 with
        | .error e => .error e
        | .ok xs => .ok (⟨struct_handle, .Native⟩ :: xs)
      | .ok .DECLARED =>
        pbind (load_field_defs version rest2) fun fields rest3 =>
        match load_struct_defs_f version fuel rest3 with
        | .error e => .error e
        | .ok xs => .ok (⟨struct_handle, .Declared fields⟩ :: xs)

/-- Source `load_struct_defs`. -/
def load_struct_defs (binary : VersionedBinary) (table : Table) : Except DErr (List StructDefinition) :=
  let cur := tableCursor binary table
  load_struct_defs_f binary.version (cur.length + 1) cur

/-- The counted loop of `load_struct_definition_indices`. -/
def load_struct_definition_indices_n : Nat → List Nat → Except DErr (List Nat × List Nat)
  | 0, input => .ok ([], input)
  | n + 1, input =>
    pbind (load_struct_def_index input) fun idx rest =>
    pbind (load_struct_definition_indices_n n rest) fun idxs rest2 =>
    .ok (idx :: idxs, rest2)

/-- Source `load_struct_definition_indices` (the acquires list). -/
def load_struct_definition_indices (input : List Nat) : Except DErr (List Nat × List Nat) :=
  pbind (load_acquires_count input) fun len rest =>
  load_struct_definition_indices_n len rest

/-- The version dispatch of `load_function_def` computing
`(visibility, is_entry, extra_flags)` from the first flag byte (and,
for version 2 onwards, a second byte read from the input). -/
def load_vis_entry_flags (version : Nat) (flags : Nat) (input : List Nat) : Except DErr ((Visibility × Bool × Nat) × List Nat) :=
  if version = VERSION_1 then
    if flags &&& FunctionDefinition.DEPRECATED_PUBLIC_BIT ≠ 0 then
      .ok ((.Public, false, flags ^^^ FunctionDefinition.DEPRECATED_PUBLIC_BIT), input)
    else .ok ((.Private, false, flags), input)
  else if version < VERSION_5 then
    if flags = Visibility.DEPRECATED_SCRIPT then
      match input with
      | [] => .error (.malformed ("Unexpected EOF"))
      | extra :: rest => .ok ((.Public, true, extra), rest)
    else
      match Visibility.from_u8 flags with
      | none => .error (.malformed ("Invalid visibility byte"))
      | some vis =>
        match input with
        | [] => .error (.malformed ("Unexpected EOF"))
        | extra :: rest => .ok ((vis, false, extra), rest)
  else
    match Visibility.from_u8 flags with
    | none => .error (.malformed ("Invalid visibility byte"))
    | some vis =>
      match input with
      | [] => .error (.malformed ("Unexpected EOF"))
      | extra :: rest =>
        if extra &&& FunctionDefinition.ENTRY ≠ 0 then
          .ok ((vis, true, extra ^^^ FunctionDefinition.ENTRY), rest)
        else .ok ((vis, false, extra), rest)

/-- Source `load_function_def`: handle index, flag bytes (version
dependent), acquires list, then the code unit unless the NATIVE bit is
set; any remaining flag bits give `InvalidFlagBits`. -/
def load_function_def (version : Nat) (input : List Nat) : Except DErr (FunctionDefinition × List Nat) :=
  pbind (load_function_handle_index input) fun function rest =>
  match rest with
  | [] => .error (.malformed ("Unexpected EOF"))
  | flags :: rest2 =>
    pbind (load_vis_entry_flags version flags rest2) fun vef rest3 =>
    match vef with
    | (visibility, is_entry, extra_flags) =>
      pbind (load_struct_definition_indices rest3) fun acquires_global_resources rest4 =>
      if extra_flags &&& FunctionDefinition.NATIVE ≠ 0 then
        if extra_flags ^^^ FunctionDefinition.NATIVE ≠ 0 then .error .invalidFlagBits
        else .ok (⟨function, visibility, is_entry, acquires_global_resources, none⟩, rest4)
      else
        pbind (load_code_unit version rest4) fun code_unit rest5 =>
        if extra_flags ≠ 0 then .error .invalidFlagBits
        else .ok (⟨function, visibility, is_entry, acquires_global_resources, some code_unit⟩, rest5)

/-- The `while` loop of `load_function_defs`. -/
def load_function_defs_f (version : Nat) : Nat → List Nat → Except DErr (List FunctionDefinition)
  | 0, _ => .error .invariantViolation
  | _ + 1, [] => .ok []
  | fuel + 1, input =>
    pbind (load_function_def version input) fun d rest =>
    match load_function_defs_f version fuel rest with
    | .error e => .error e
    | .ok xs => .ok (d :: xs)

/-- Source `load_function_defs`. -/
def load_function_defs (binary : VersionedBinary) (table : Table) : Except DErr (List FunctionDefinition) :=
  let cur := tableCursor binary table
  load_function_defs_f binary.version (cur.length + 1) cur

/-- The `while` loop of `load_field_handles`. -/
def load_field_handles_f : Nat → List Nat → Except DErr (List FieldHandle)
  | 0, _ => .error .invariantViolation
  | _ + 1, [] => .ok []
  | fuel + 1, input =>
    pbind (load_struct_def_index input) fun struct_idx rest =>
    pbind (load_field_offset rest) fun offset rest2 =>
    match load_field_handles_f fuel rest2 with
    | .error e => .error e
    | .ok xs => .ok (⟨struct_idx, offset⟩ :: xs)

/-- Source `load_field_handles`. -/
def load_field_handles (binary : VersionedBinary) (table : Table) : Except DErr (List FieldHandle) :=
  let cur := tableCursor binary table
  load_field_handles_f (cur.length + 1) cur

/-- The `while` loop of `load_field_instantiations`. -/
def load_field_instantiations_f : Nat → List Nat → Except DErr (List FieldInstantiation)
  | 0, _ => .error .invariantViolation
  | _ + 1, [] => .ok []
  | fuel + 1, input =>
    pbind (load_field_handle_index input) fun handle rest =>
    pbind (load_signature_index rest) fun type_parameters rest2 =>
    match load_field_instantiations_f fuel rest2 with
    | .error e => .error e
    | .ok xs => .ok (⟨handle, type_parameters⟩ :: xs)

/-- Source `load_field_instantiations`. -/
def load_field_instantiations (binary : VersionedBinary) (table : Table) : Except DErr (List FieldInstantiation) :=
  let cur := tableCursor binary table
  load_field_instantiations_f (cur.length + 1) cur

/-- The common-table pools shared by `CompiledModule` and
`CompiledScript` (the `CommonTables` trait of the source, represented
as one record). -/
structure CommonTablesData where
  module_handles : List ModuleHandle := []
  struct_handles : List StructHandle := []
  function_handles : List FunctionHandle := []
  function_instantiations : List FunctionInstantiation := []
  signatures : List (List SignatureToken) := []
  identifiers : List (List Nat) := []
  address_identifiers : List (List Nat) := []
  constant_pool : List Constant := []
  metadata : List Metadata := []

/-- Source `CompiledModule` (the common pools are grouped in
`common`). -/
structure CompiledModule where
  version : Nat
  self_module_handle_idx : Nat
  common : CommonTablesData
  struct_defs : List StructDefinition := []
  struct_def_instantiations : List StructDefInstantiation := []
  function_defs : List FunctionDefinition := []
  field_handles : List FieldHandle := []
  field_instantiations : List FieldInstantiation := []
  friend_decls : List ModuleHandle := []

/-- Source `CompiledScript` (the common pools are grouped in
`common`). -/
structure CompiledScript where
  version : Nat
  type_parameters : List AbilitySet
  parameters : Nat
  code : CodeUnit
  common : CommonTablesData

/-- Source `build_common_tables`: dispatch on each table kind, loading
the common pools; `METADATA` is gated behind version 5 and
`FRIEND_DECLS` behind version 2; definition tables are skipped here. -/
def build_common_tables (binary : VersionedBinary) : List Table → CommonTablesData → Except DErr CommonTablesData
  | [], common => .ok common
  | table :: rest, common =>
    match table.kind with
    | .MODULE_HANDLES =>
      match load_module_handles binary table with
      | .error e => .error e
      | .ok xs => build_common_tables binary rest { common with module_handles := common.module_handles ++ xs }
    | .STRUCT_HANDLES =>
      match load_struct_handles binary table with
      | .error e => .error e
      | .ok xs => build_common_tables binary rest { common with struct_handles := common.struct_handles ++ xs }
    | .FUNCTION_HANDLES =>
      match load_function_handles binary table with
      | .error e => .error e
      | .ok xs => build_common_tables binary rest { common with function_handles := common.function_handles ++ xs }
    | .FUNCTION_INST =>
      match load_function_instantiations binary table with
      | .error e => .error e
      | .ok xs => build_common_tables binary rest { common with function_instantiations := common.function_instantiations ++ xs }
    | .SIGNATURES =>
      match load_signatures binary table with
      | .error e => .error e
      | .ok xs => build_common_tables binary rest { common with signatures := common.signatures ++ xs }
    | .CONSTANT_POOL =>
      match load_constant_pool binary table with
      | .error e => .error e
      | .ok xs => build_common_tables binary rest { common with constant_pool := common.constant_pool ++ xs }
    | .METADATA =>
      if binary.version < VERSION_5 then
        .error (.malformed (("metadata declarations not applicable in bytecode version ") ++ toString binary.version))
      else
        match load_metadata binary table with
        | .error e => .error e
        | .ok xs => build_common_tables binary rest { common with metadata := common.metadata ++ xs }
    | .IDENTIFIERS =>
      match load_identifiers binary table with
      | .error e => .error e
      | .ok xs => build_common_tables binary rest { common with identifiers := common.identifiers ++ xs }
    | .ADDRESS_IDENTIFIERS =>
      match load_address_identifiers binary table with
      | .error e => .error e
      | .ok xs => build_common_tables binary rest { common with address_identifiers := common.address_identifiers ++ xs }
    | .FUNCTION_DEFS => build_common_tables binary rest common
    | .STRUCT_DEFS => build_common_tables binary rest common
    | .STRUCT_DEF_INST => build_common_tables binary rest common
    | .FIELD_HANDLE => build_common_tables binary rest common
    | .FIELD_INST => build_common_tables binary rest common
    | .FRIEND_DECLS =>
      if binary.version < VERSION_2 then
        .error (.malformed ("Friend declarations not applicable in bytecode version 1"))
      else build_common_tables binary rest common

/-- Source `build_module_tables`: the module-only tables; common
tables are skipped here. -/
def build_module_tables (binary : VersionedBinary) : List Table → CompiledModule → Except DErr CompiledModule
  | [], module => .ok module
  | table :: rest, module =>
    match table.kind with
    | .STRUCT_DEFS =>
      match load_struct_defs binary table with
      | .error e => .error e
      | .ok xs => build_module_tables binary rest { module with struct_defs := module.struct_defs ++ xs }
    | .STRUCT_DEF_INST =>
      match load_struct_instantiations binary table with
      | .error e => .error e
      | .ok xs => build_module_tables binary rest { module with struct_def_instantiations := module.struct_def_instantiations ++ xs }
    | .FUNCTION_DEFS =>
      match load_function_defs binary table with
      | .error e => .error e
      | .ok xs => build_module_tables binary rest { module with function_defs := module.function_defs ++ xs }
    | .FIELD_HANDLE =>
      match load_field_handles binary table with
      | .error e => .error e
      | .ok xs => build_module_tables binary rest { module with field_handles := module.field_handles ++ xs }
    | .FIELD_INST =>
      match load_field_instantiations binary table with
      | .error e => .error e
      | .ok xs => build_module_tables binary rest { module with field_instantiations := module.field_instantiations ++ xs }
    | .FRIEND_DECLS =>
      match load_module_handles binary table with
      | .error e => .error e
      | .ok xs => build_module_tables binary rest { module with friend_decls := module.friend_decls ++ xs }
    | _ => build_module_tables binary rest module

/-- Source `build_script_tables`: common kinds are skipped (they were
handled by `build_common_tables`); any definition-side kind is
`Malformed ("Bad table in Script")`. -/
def build_script_tables : List Table → Except DErr Unit
  | [] => .ok ()
  | table :: rest =>
    match table.kind with
    | .MODULE_HANDLES => build_script_tables rest
    | .STRUCT_HANDLES => build_script_tables rest
    | .FUNCTION_HANDLES => build_script_tables rest
    | .FUNCTION_INST => build_script_tables rest
    | .SIGNATURES => build_script_tables rest
    | .IDENTIFIERS => build_script_tables rest
    | .ADDRESS_IDENTIFIERS => build_script_tables rest
    | .CONSTANT_POOL => build_script_tables rest
    | .METADATA => build_script_tables rest
    | _ => .error (.malformed ("Bad table in Script"))

/-- Source `build_compiled_module`. -/
def build_compiled_module (module : CompiledModule) (binary : VersionedBinary) (tables : List Table) : Except DErr CompiledModule :=
  match build_common_tables binary tables module.common with
  | .error e => .error e
  | .ok common => build_module_tables binary tables { module with common := common }

/-- Source `build_compiled_script`. -/
def build_compiled_script (script : CompiledScript) (binary : VersionedBinary) (tables : List Table) : Except DErr CompiledScript :=
  match build_common_tables binary tables script.common with
  | .error e => .error e
  | .ok common =>
    match build_script_tables tables with
    | .error e => .error e
    | .ok _ => .ok { script with common := common }

/-- Modelled from the spec: the fixed magic prefix of the format. -/
def MOVE_MAGIC : List Nat := [0xA1, 0x1C, 0xEB, 0x0B]

/-- Modelled from the spec: `VersionedCursor::new` (in `cursor.rs`,
not under `src/`): check the magic prefix, read the ULEB128 version,
reject version 0 and versions above `min(max_version, VERSION_MAX)`
with `UnknownVersion`. -/
def versioned_cursor_new (max_binary_format_version : Nat) (binary : List Nat) : Except DErr (Nat × List Nat) :=
  if binary.take 4 ≠ MOVE_MAGIC then .error .badMagic
  else
    match ulebDecode (binary.drop 4) with
    | none => .error .unknownVersion
    | some (version, rest) =>
      if version = 0 ∨ Nat.min max_binary_format_version VERSION_MAX < version then
        .error .unknownVersion
      else .ok (version, rest)

/-- Source `read_table`: kind byte, ULEB offset, ULEB size, then the
kind lookup. -/
def read_table (input : List Nat) : Except DErr (Table × List Nat) :=
  match input with
  | [] => .error (.malformed ("Error reading table"))
  | kind :: rest =>
    pbind (load_table_offset rest) fun table_offset rest2 =>
    pbind (load_table_size rest2) fun count rest3 =>
    match TableType.from_u8 kind with
    | .error e => .error e
    | .ok k => .ok (⟨k, table_offset, count⟩, rest3)

/-- Source `read_tables`: `table_count` directory entries in order. -/
def read_tables : Nat → List Nat → Except DErr (List Table × List Nat)
  | 0, input => .ok ([], input)
  | n + 1, input =>
    pbind (read_table input) fun t rest =>
    pbind (read_tables n rest) fun ts rest2 =>
    .ok (t :: ts, rest2)

/-- Modelled from the spec: `read_table_contents` /
`read_new_binary` — materialize a window of exactly the reported
content length, else `Malformed ("Error reading table contents")`. -/
def read_table_contents (version : Nat) (n : Nat) (input : List Nat) : Except DErr (VersionedBinary × List Nat) :=
  if n ≤ input.length then .ok (⟨version, input.take n⟩, input.drop n)
  else .error (.malformed ("Error reading table contents"))

/-- Source `deserialize_compiled_module`: header, directory,
`check_tables` (against the whole input length), table contents,
self-module-handle index, then the table builds on the sorted
directory (sorted in place by `check_tables`). -/
def deserialize_compiled_module (binary : List Nat) (max_binary_format_version : Nat) : Except DErr CompiledModule :=
  let binary_len := binary.length
  pbind (versioned_cursor_new max_binary_format_version binary) fun version rest =>
  pbind (load_table_count rest) fun table_count rest2 =>
  pbind (read_tables table_count rest2) fun tables rest3 =>
  match check_tables tables binary_len with
  | .error e => .error e
  | .ok content_len =>
    pbind (read_table_contents version content_len rest3) fun table_contents rest4 =>
    pbind (load_module_handle_index rest4) fun self_module_handle_idx _rest5 =>
    build_compiled_module { version := version, self_module_handle_idx := self_module_handle_idx, common := {} } table_contents (sort_tables tables)

/-- Source `deserialize_compiled_script`: header, directory,
`check_tables`, table contents, then the script trailer
(type-parameter ability sets, parameter signature index, code unit)
from the top-level cursor, then the table builds. -/
def deserialize_compiled_script (binary : List Nat) (max_binary_format_version : Nat) : Except DErr CompiledScript :=
  let binary_len := binary.length
  pbind (versioned_cursor_new max_binary_format_version binary) fun version rest =>
  pbind (load_table_count rest) fun table_count rest2 =>
  pbind (read_tables table_count rest2) fun tables rest3 =>
  match check_tables tables binary_len with
  | .error e => .error e
  | .ok content_len =>
    pbind (read_table_contents version content_len rest3) fun table_contents rest4 =>
    pbind (load_ability_sets version .FunctionTypeParameters rest4) fun type_parameters rest5 =>
    pbind (load_signature_index rest5) fun parameters rest6 =>
    pbind (load_code_unit version rest6) fun code _rest7 =>
    build_compiled_script ⟨version, type_parameters, parameters, code, {}⟩ table_contents (sort_tables tables)

/-- Counterexample input for C8: magic, version 6, one directory entry
(kind `0x1`, offset 0, size 5), then only 4 content bytes.  Full length
13; after the 9 header bytes only 4 bytes remain, fewer than the
declared 5. -/
def c8_input : List Nat := MOVE_MAGIC ++ [6, 1, 1, 0, 5] ++ [0, 0, 0, 0]

/-- Tokens inside a builder all satisfy `arityPos`, and a
struct-instantiation builder has arity at least 1. -/
def builderArityPos : TypeBuilder → Bool
  | .saturated tok => arityPos tok
  | .vector => true
  | .reference => true
  | .mutableReference => true
  | .structInst _ arity ty_args => decide (0 < arity) && arityPosList ty_args

/-- `builderArityPos` over a whole builder stack. -/
def stackArityPos : List TypeBuilder → Bool
  | [] => true
  | b :: rest => builderArityPos b && stackArityPos rest

/-- Wire bytes of one table-directory entry: kind byte, ULEB offset,
ULEB size. -/
def encodeTableEntry (t : Table) : List Nat :=
  t.kind.to_u8 :: (ulebEncode t.offset ++ ulebEncode t.count)

/-- Wire bytes of a whole table directory. -/
def encodeDirectory (tables : List Table) : List Nat :=
  tables.flatMap encodeTableEntry

/-- A whole binary input (module or script share this layout): magic,
ULEB version, ULEB table count, the directory, then the table contents
and trailer bytes. -/
def mkModuleInput (version : Nat) (tables : List Table) (tail : List Nat) : List Nat :=
  MOVE_MAGIC ++ ulebEncode version ++ ulebEncode tables.length ++ encodeDirectory tables ++ tail

/-- Entry bounds under which a directory entry survives
`read_table`'s bounded ULEB readers. -/
def tableInBounds (t : Table) : Prop :=
  t.offset ≤ TABLE_OFFSET_MAX ∧ t.count ≤ TABLE_SIZE_MAX

/-- The builder-stack loop run with its canonical sufficient fuel
(one more than the bound `2 * |input| + |stack|` on the number of
iterations); a proof device for reasoning about `sigLoopAux`. -/
def sigRun (dm v : Nat) (S : List TypeBuilder) (i : List Nat) : Except DErr (SignatureToken × List Nat) :=
  sigLoopAux dm v (2 * i.length + S.length + 1) S i

/-- A decode result is free of the `invariantViolation` sentinel: the
deserializer returned a value or one of its intentional typed errors,
reaching no `unreachable!` arm and exhausting no loop fuel. -/
def noIV {α : Type} (x : Except DErr α) : Prop :=
  x ≠ .error .invariantViolation

/-! Helper lemmas: ULEB128. -/

theorem ulebDecodeAux_consume : ∀ (input : List Nat) (acc shift v : Nat) (rest : List Nat),
    ulebDecodeAux input acc shift = some (v, rest) → rest.length < input.length := by
  intro input
  induction input with
  | nil => intro acc shift v rest h; simp [ulebDecodeAux] at h
  | cons b tl ih =>
    intro acc shift v rest h
    simp only [ulebDecodeAux] at h
    split_ifs at h with h1 h2 h3 h4
    · simp only [Option.some.injEq, Prod.mk.injEq] at h
      have : tl = rest := h.2
      subst this
      simp only [List.length_cons]
      omega
    · have := ih _ _ _ _ h
      simp only [List.length_cons]
      omega

theorem uleb_encode_decode_aux : ∀ (fuel n shift acc : Nat) (rest : List Nat),
    n ≤ fuel → n * 2 ^ shift < 2 ^ 64 → (0 < shift → 0 < n) →
    ulebDecodeAux (ulebEncodeAux fuel n ++ rest) acc shift = some (acc + n * 2 ^ shift, rest) := by
  intro fuel
  induction fuel with
  | zero =>
    intro n shift acc rest hn hfit hpos
    have hn0 : n = 0 := by omega
    subst hn0
    have hs0 : shift = 0 := by
      by_contra hs
      exact absurd (hpos (by omega)) (by omega)
    subst hs0
    simp [ulebEncodeAux, ulebDecodeAux]
  | succ fuel ih =>
    intro n shift acc rest hn hfit hpos
    by_cases h128 : n < 128
    · have hmod : n % 128 = n := Nat.mod_eq_of_lt h128
      have hmod256 : n % 256 = n := Nat.mod_eq_of_lt (by omega)
      simp only [ulebEncodeAux, if_pos h128, List.cons_append, List.nil_append, ulebDecodeAux]
      rw [hmod, hmod256]
      rw [if_neg (by omega), if_pos (by omega)]
      have hcanon : ¬(0 < shift ∧ n = 0) := by
        rintro ⟨hs, hz⟩
        exact absurd (hpos hs) (by omega)
      rw [if_neg hcanon]
    · push_neg at h128
      have hmod : (128 + n % 128) % 128 = n % 128 := by omega
      have hmod256 : (128 + n % 128) % 256 = 128 + n % 128 := by omega
      simp only [ulebEncodeAux, if_neg (by omega : ¬n < 128), List.cons_append, ulebDecodeAux]
      rw [hmod, hmod256]
      have hcur_le : n % 128 * 2 ^ shift ≤ n * 2 ^ shift :=
        Nat.mul_le_mul_right _ (Nat.mod_le _ _)
      rw [if_neg (by omega)]
      rw [if_neg (by omega)]
      have hshift7 : ¬63 < shift + 7 := by
        by_contra hs
        have h2 : 2 ^ 7 * 2 ^ shift ≤ n * 2 ^ shift :=
          Nat.mul_le_mul_right _ (by omega)
        rw [← pow_add] at h2
        have h3 : (2 : Nat) ^ 64 ≤ 2 ^ (7 + shift) :=
          Nat.pow_le_pow_right (by omega) (by omega)
        omega
      rw [if_neg hshift7]
      have hdivle : n / 128 ≤ fuel := by
        have := Nat.div_lt_self (by omega : 0 < n) (by omega : 1 < 128)
        omega
      have hdivfit : n / 128 * 2 ^ (shift + 7) < 2 ^ 64 := by
        have heq : n / 128 * 2 ^ (shift + 7) = n / 128 * 128 * 2 ^ shift := by
          rw [pow_add]
          ring
        rw [heq]
        have : n / 128 * 128 ≤ n := Nat.div_mul_le_self n 128
        calc n / 128 * 128 * 2 ^ shift ≤ n * 2 ^ shift := Nat.mul_le_mul_right _ this
          _ < 2 ^ 64 := hfit
      have hdivpos : 0 < shift + 7 → 0 < n / 128 := by
        intro _
        exact Nat.div_pos h128 (by omega)
      rw [ih (n / 128) (shift + 7) (acc + n % 128 * 2 ^ shift) rest hdivle hdivfit hdivpos]
      have harith : acc + n % 128 * 2 ^ shift + n / 128 * 2 ^ (shift + 7) = acc + n * 2 ^ shift := by
        calc acc + n % 128 * 2 ^ shift + n / 128 * 2 ^ (shift + 7)
            = acc + (n % 128 + 128 * (n / 128)) * 2 ^ shift := by
              rw [pow_add]
              ring
          _ = acc + n * 2 ^ shift := by
              congr 2
              omega
      rw [harith]

theorem ulebDecode_encode (n : Nat) (rest : List Nat) (h : n < 2 ^ 64) :
    ulebDecode (ulebEncode n ++ rest) = some (n, rest) := by
  have := uleb_encode_decode_aux n n 0 0 rest (le_refl n) (by simpa using h) (by omega)
  simpa [ulebDecode, ulebEncode] using this

theorem read_uleb_internal_encode (max n : Nat) (rest : List Nat) (h64 : n < 2 ^ 64)
    (hmax : n ≤ max) : read_uleb_internal max (ulebEncode n ++ rest) = .ok (n, rest) := by
  simp [read_uleb_internal, ulebDecode_encode n rest h64, Nat.not_lt.2 hmax]

theorem ulebEncode_small (n : Nat) (h : n < 128) : ulebEncode n = [n] := by
  cases n with
  | zero => simp [ulebEncode, ulebEncodeAux]
  | succ m => simp [ulebEncode, ulebEncodeAux, h]

theorem ulebDecode_single (b : Nat) (rest : List Nat) (h : b < 128) :
    ulebDecode (b :: rest) = some (b, rest) := by
  have := ulebDecode_encode b rest (by omega)
  rwa [ulebEncode_small b h] at this

/-! Helper lemmas: the `check_tables` loop. -/

theorem check_tables_loop_layout_fail : ∀ (l : List Table) (c : Nat) (seen : List TableType) (len : Nat),
    (l.map Table.kind).Nodup → (∀ t ∈ l, t.kind ∉ seen) → contig_from c l = false →
    check_tables_loop l c seen len = .error .badHeaderTable := by
  intro l
  induction l with
  | nil => intro c seen len _ _ hco; simp [contig_from] at hco
  | cons t rest ih =>
    intro c seen len hnd hdisj hco
    simp only [contig_from, Bool.and_eq_false_iff, decide_eq_false_iff_not] at hco
    simp only [check_tables_loop]
    by_cases h1 : t.offset ≠ c
    · rw [if_pos h1]
    rw [if_neg h1]
    push_neg at h1
    by_cases h2 : t.count = 0
    · rw [if_pos h2]
    rw [if_neg h2]
    by_cases h3 : U32_MAX < c + t.count
    · rw [if_pos h3]
    rw [if_neg h3]
    have hnotin : t.kind ∉ seen := hdisj t (by simp)
    rw [if_neg hnotin]
    by_cases h4 : len < c + t.count
    · rw [if_pos h4]
    rw [if_neg h4]
    apply ih
    · simp only [List.map_cons, List.nodup_cons] at hnd
      exact hnd.2
    · intro u hu
      simp only [List.mem_cons, not_or]
      constructor
      · intro hk
        simp only [List.map_cons, List.nodup_cons] at hnd
        exact hnd.1 (hk ▸ List.mem_map_of_mem Table.kind hu)
      · exact hdisj u (by simp [hu])
    · rcases hco with (((ha | hb) | hc) | hd)
      · exact absurd h1 ha
      · omega
      · omega
      · exact hd

theorem check_tables_loop_dup_fail : ∀ (l : List Table) (c : Nat) (seen : List TableType) (len : Nat),
    contig_from c l = true → c + total_size l ≤ len →
    (¬(l.map Table.kind).Nodup ∨ ∃ t ∈ l, t.kind ∈ seen) →
    check_tables_loop l c seen len = .error .duplicateTable := by
  intro l
  induction l with
  | nil =>
    intro c seen len _ _ hdup
    rcases hdup with h | ⟨t, ht, _⟩
    · simp at h
    · simp at ht
  | cons t rest ih =>
    intro c seen len hco hlen hdup
    simp only [contig_from, Bool.and_eq_true, decide_eq_true_eq] at hco
    obtain ⟨⟨⟨hoff, hcnt⟩, hovf⟩, hcorest⟩ := hco
    have htot : total_size (t :: rest) = t.count + total_size rest := by
      simp [total_size]
    simp only [check_tables_loop]
    rw [if_neg (by omega), if_neg (by omega), if_neg (by omega)]
    by_cases hin : t.kind ∈ seen
    · rw [if_pos hin]
    rw [if_neg hin]
    rw [if_neg (by omega)]
    apply ih (c + t.count) (t.kind :: seen) len hcorest (by omega)
    rcases hdup with hnd | ⟨u, hu, hus⟩
    · simp only [List.map_cons, List.nodup_cons, not_and_or] at hnd
      rcases hnd with hmem | hnd2
      · push_neg at hmem
        rcases List.mem_map.1 hmem with ⟨u, hu, huk⟩
        exact Or.inr ⟨u, hu, by simp [huk]⟩
      · exact Or.inl hnd2
    · rcases List.mem_cons.1 hu with rfl | hu2
      · exact absurd hus hin
      · exact Or.inr ⟨u, hu2, by simp [hus]⟩

theorem check_tables_loop_ok : ∀ (l : List Table) (c : Nat) (seen : List TableType) (len : Nat),
    contig_from c l = true → (l.map Table.kind).Nodup → (∀ t ∈ l, t.kind ∉ seen) →
    c + total_size l ≤ len →
    check_tables_loop l c seen len = .ok (c + total_size l) := by
  intro l
  induction l with
  | nil => intro c seen len _ _ _ _; simp [check_tables_loop, total_size]
  | cons t rest ih =>
    intro c seen len hco hnd hdisj hlen
    simp only [contig_from, Bool.and_eq_true, decide_eq_true_eq] at hco
    obtain ⟨⟨⟨hoff, hcnt⟩, hovf⟩, hcorest⟩ := hco
    have htot : total_size (t :: rest) = t.count + total_size rest := by
      simp [total_size]
    simp only [check_tables_loop]
    rw [if_neg (by omega), if_neg (by omega), if_neg (by omega)]
    rw [if_neg (hdisj t (by simp)), if_neg (by omega)]
    rw [ih (c + t.count) (t.kind :: seen) len hcorest]
    · congr 1
      omega
    · simp only [List.map_cons, List.nodup_cons] at hnd
      exact hnd.2
    · intro u hu
      simp only [List.mem_cons, not_or]
      refine ⟨fun hk => ?_, hdisj u (by simp [hu])⟩
      simp only [List.map_cons, List.nodup_cons] at hnd
      exact hnd.1 (hk ▸ List.mem_map_of_mem Table.kind hu)
    · omega

theorem check_tables_loop_ok_inv : ∀ (l : List Table) (c : Nat) (seen : List TableType) (len r : Nat),
    c ≤ len → check_tables_loop l c seen len = .ok r →
    r = c + total_size l ∧ r ≤ len := by
  intro l
  induction l with
  | nil =>
    intro c seen len r hc h
    simp only [check_tables_loop, Except.ok.injEq] at h
    subst h
    refine ⟨by simp [total_size], by omega⟩
  | cons t rest ih =>
    intro c seen len r hc h
    simp only [check_tables_loop] at h
    split_ifs at h with h1 h2 h3 h4 h5
    have := ih (c + t.count) (t.kind :: seen) len r (by omega) h
    have htot : total_size (t :: rest) = t.count + total_size rest := by
      simp [total_size]
    omega

theorem check_tables_loop_len_fail : ∀ (l : List Table) (c : Nat) (seen : List TableType) (len : Nat),
    c ≤ len →
    contig_from c l = true → (l.map Table.kind).Nodup → (∀ t ∈ l, t.kind ∉ seen) →
    len < c + total_size l →
    check_tables_loop l c seen len = .error .badHeaderTable := by
  intro l
  induction l with
  | nil =>
    intro c seen len hc _ _ _ hlen
    simp only [total_size, List.map_nil, List.sum_nil, Nat.add_zero] at hlen
    omega
  | cons t rest ih =>
    intro c seen len hc hco hnd hdisj hlen
    simp only [contig_from, Bool.and_eq_true, decide_eq_true_eq] at hco
    obtain ⟨⟨⟨hoff, hcnt⟩, hovf⟩, hcorest⟩ := hco
    have htot : total_size (t :: rest) = t.count + total_size rest := by
      simp [total_size]
    simp only [check_tables_loop]
    rw [if_neg (by omega), if_neg (by omega), if_neg (by omega)]
    rw [if_neg (hdisj t (by simp))]
    by_cases h4 : len < c + t.count
    · rw [if_pos h4]
    rw [if_neg h4]
    apply ih (c + t.count) (t.kind :: seen) len (by omega) hcorest
    · simp only [List.map_cons, List.nodup_cons] at hnd
      exact hnd.2
    · intro u hu
      simp only [List.mem_cons, not_or]
      refine ⟨fun hk => ?_, hdisj u (by simp [hu])⟩
      simp only [List.map_cons, List.nodup_cons] at hnd
      exact hnd.1 (hk ▸ List.mem_map_of_mem Table.kind hu)
    · omega

theorem total_size_sort (tables : List Table) : total_size (sort_tables tables) = total_size tables := by
  have hp : List.Perm (sort_tables tables) tables := List.perm_insertionSort _ tables
  exact (hp.map Table.count).sum_eq

/-- C1 (counterexample): the claim says any directory that is not
contiguous after sorting fails with `BadHeaderTable`; but a directory
whose duplicate kind occurs before the gap fails with `DuplicateTable`
instead.  Concretely `[(MODULE_HANDLES,0,1), (MODULE_HANDLES,1,1),
(STRUCT_HANDLES,5,1)]` is not contiguous (gap at byte 2) yet
`check_tables` returns `DuplicateTable`. -/
theorem C1_counterexample :
    contig_from 0 (sort_tables [⟨.MODULE_HANDLES, 0, 1⟩, ⟨.MODULE_HANDLES, 1, 1⟩, ⟨.STRUCT_HANDLES, 5, 1⟩]) = false ∧
    check_tables [⟨.MODULE_HANDLES, 0, 1⟩, ⟨.MODULE_HANDLES, 1, 1⟩, ⟨.STRUCT_HANDLES, 5, 1⟩] 100 = .error .duplicateTable ∧
    check_tables [⟨.MODULE_HANDLES, 0, 1⟩, ⟨.MODULE_HANDLES, 1, 1⟩, ⟨.STRUCT_HANDLES, 5, 1⟩] 100 ≠ .error .badHeaderTable := by
  refine ⟨by decide, by rfl, ?_⟩
  intro h
  have h1 : check_tables [⟨.MODULE_HANDLES, 0, 1⟩, ⟨.MODULE_HANDLES, 1, 1⟩, ⟨.STRUCT_HANDLES, 5, 1⟩] 100 = .error .duplicateTable := by rfl
  rw [h1] at h
  exact DErr.noConfusion (Except.error.inj h)

/-- C1 (amended): per entry of the offset-sorted directory the checks
run in order — contiguity, nonzero size, `u32` overflow
(`BadHeaderTable`), then duplicate kind (`DuplicateTable`), then the
length bound.  Hence: with pairwise-distinct kinds, a layout violation
gives `BadHeaderTable`; with a valid layout that fits in `binary_len`,
a duplicate kind gives `DuplicateTable`; and a directory passing all
checks is accepted with the sum of all table sizes. -/
theorem C1_amended_check_tables (tables : List Table) (binary_len : Nat) :
    (((sort_tables tables).map Table.kind).Nodup → contig_from 0 (sort_tables tables) = false →
      check_tables tables binary_len = .error .badHeaderTable) ∧
    (contig_from 0 (sort_tables tables) = true → total_size tables ≤ binary_len →
      ¬((sort_tables tables).map Table.kind).Nodup →
      check_tables tables binary_len = .error .duplicateTable) ∧
    (contig_from 0 (sort_tables tables) = true → ((sort_tables tables).map Table.kind).Nodup →
      total_size tables ≤ binary_len →
      check_tables tables binary_len = .ok (total_size tables)) := by
  refine ⟨?_, ?_, ?_⟩
  · intro hnd hco
    exact check_tables_loop_layout_fail (sort_tables tables) 0 [] binary_len hnd
      (by intro t _; simp) hco
  · intro hco hlen hnd
    apply check_tables_loop_dup_fail (sort_tables tables) 0 [] binary_len hco
    · rw [Nat.zero_add, total_size_sort]
      exact hlen
    · exact Or.inl hnd
  · intro hco hnd hlen
    have := check_tables_loop_ok (sort_tables tables) 0 [] binary_len hco hnd
      (by intro t _; simp) (by rw [Nat.zero_add, total_size_sort]; exact hlen)
    rw [check_tables, this, Nat.zero_add, total_size_sort]

/-- C1 (witness): the amended theorem applied at concrete directories:
a gap at offset 0 gives `BadHeaderTable`; a contiguous directory with a
repeated kind gives `DuplicateTable`; a contiguous duplicate-free
directory is accepted with the total size 5. -/
theorem C1_witness :
    check_tables [⟨.MODULE_HANDLES, 1, 1⟩] 10 = .error .badHeaderTable ∧
    check_tables [⟨.MODULE_HANDLES, 0, 1⟩, ⟨.MODULE_HANDLES, 1, 1⟩] 10 = .error .duplicateTable ∧
    check_tables [⟨.IDENTIFIERS, 0, 2⟩, ⟨.MODULE_HANDLES, 2, 3⟩] 10 = .ok (total_size [⟨.IDENTIFIERS, 0, 2⟩, ⟨.MODULE_HANDLES, 2, 3⟩]) :=
  ⟨(C1_amended_check_tables [⟨.MODULE_HANDLES, 1, 1⟩] 10).1 (by decide) (by decide),
   (C1_amended_check_tables [⟨.MODULE_HANDLES, 0, 1⟩, ⟨.MODULE_HANDLES, 1, 1⟩] 10).2.1 (by decide) (by decide) (by decide),
   (C1_amended_check_tables [⟨.IDENTIFIERS, 0, 2⟩, ⟨.MODULE_HANDLES, 2, 3⟩] 10).2.2 (by decide) (by decide) (by decide)⟩

/-- C8 (counterexample): the claim says `check_tables` rejects with
`BadHeaderTable` whenever the running offset exceeds the bytes
remaining after the header; but the code compares against the length
of the whole input.  On `c8_input` (13 bytes, 9 of them header, table
size 5 > 4 remaining) the decode fails later, in
`read_table_contents`, with a `Malformed` error — not
`BadHeaderTable`. -/
theorem C8_counterexample :
    deserialize_compiled_module c8_input 6 = .error (.malformed ("Error reading table contents")) ∧
    deserialize_compiled_module c8_input 6 ≠ .error .badHeaderTable ∧
    c8_input.length = 13 ∧ (c8_input.length - 9 < 5) := by
  have h1 : deserialize_compiled_module c8_input 6 = .error (.malformed ("Error reading table contents")) := by rfl
  refine ⟨h1, ?_, by decide, by decide⟩
  intro h
  rw [h1] at h
  exact DErr.noConfusion (Except.error.inj h)

/-- C8 (amended): `check_tables` bounds the running offset by the
length of the whole input (not by the bytes remaining after the
header): a successful validation returns a total not exceeding
`binary_len` and equal to the sum of table sizes, and a directory
whose (otherwise valid) total exceeds `binary_len` is rejected with
`BadHeaderTable`. -/
theorem C8_amended_remaining_bytes (tables : List Table) (binary_len : Nat) :
    (∀ total, check_tables tables binary_len = .ok total →
      total ≤ binary_len ∧ total = total_size tables) ∧
    (contig_from 0 (sort_tables tables) = true → ((sort_tables tables).map Table.kind).Nodup →
      binary_len < total_size tables →
      check_tables tables binary_len = .error .badHeaderTable) := by
  constructor
  · intro total h
    have := check_tables_loop_ok_inv (sort_tables tables) 0 [] binary_len total
      (Nat.zero_le _) h
    rw [Nat.zero_add, total_size_sort] at this
    exact ⟨this.2, this.1⟩
  · intro hco hnd hlen
    apply check_tables_loop_len_fail (sort_tables tables) 0 [] binary_len (Nat.zero_le _) hco hnd
      (by intro t _; simp)
    rw [Nat.zero_add, total_size_sort]
    exact hlen

/-- C8 (witness): the amended theorem applied at a concrete directory:
a single table of size 5 is accepted against length 5 (total 5 ≤ 5)
and rejected with `BadHeaderTable` against length 4. -/
theorem C8_witness :
    ((5 : Nat) ≤ 5 ∧ (5 : Nat) = total_size [⟨.MODULE_HANDLES, 0, 5⟩]) ∧
    check_tables [⟨.MODULE_HANDLES, 0, 5⟩] 4 = .error .badHeaderTable :=
  ⟨(C8_amended_remaining_bytes [⟨.MODULE_HANDLES, 0, 5⟩] 5).1 5 (by rfl),
   (C8_amended_remaining_bytes [⟨.MODULE_HANDLES, 0, 5⟩] 4).2 (by decide) (by decide) (by decide)⟩

/-- C4: the version-1 deprecated-kind shim of `load_ability_set`.  At
struct-handle position byte `0x1` gives `{Store, Key}`, byte `0x2`
gives `{Store, Copy, Drop}`, any other byte `UnknownAbility`.  At
function-type-parameter position `0x1`/`0x2`/`0x3` give `{Store}`,
`{Store, Copy, Drop}`, `{Store, Key}`.  At struct-type-parameter
position they give `{}`, `{Copy, Drop}`, `{Key}`.  (Ability sets are
records `⟨copy, drop, store, key⟩`.) -/
theorem C4_version1_kind_shim (b : Nat) (rest : List Nat) :
    load_ability_set 1 .StructHandle (0x1 :: rest) = .ok (⟨false, false, true, true⟩, rest) ∧
    load_ability_set 1 .StructHandle (0x2 :: rest) = .ok (⟨true, true, true, false⟩, rest) ∧
    (b ≠ 0x1 → b ≠ 0x2 → load_ability_set 1 .StructHandle (b :: rest) = .error .unknownAbility) ∧
    load_ability_set 1 .FunctionTypeParameters (0x1 :: rest) = .ok (⟨false, false, true, false⟩, rest) ∧
    load_ability_set 1 .FunctionTypeParameters (0x2 :: rest) = .ok (⟨true, true, true, false⟩, rest) ∧
    load_ability_set 1 .FunctionTypeParameters (0x3 :: rest) = .ok (⟨false, false, true, true⟩, rest) ∧
    load_ability_set 1 .StructTypeParameters (0x1 :: rest) = .ok (⟨false, false, false, false⟩, rest) ∧
    load_ability_set 1 .StructTypeParameters (0x2 :: rest) = .ok (⟨true, true, false, false⟩, rest) ∧
    load_ability_set 1 .StructTypeParameters (0x3 :: rest) = .ok (⟨false, false, false, true⟩, rest) := by
  refine ⟨rfl, rfl, ?_, rfl, rfl, rfl, rfl, rfl, rfl⟩
  intro h1 h2
  have hflag : DeprecatedNominalResourceFlag.from_u8 b = .error .unknownAbility := by
    rcases b with _ | _ | _ | n
    · rfl
    · exact absurd rfl h1
    · exact absurd rfl h2
    · rfl
  simp [load_ability_set, hflag]

/-- C4 (witness): the shim evaluated at concrete bytes: `0x3` at
struct-handle position is `UnknownAbility`, `0x2` is
`{Store, Copy, Drop}`. -/
theorem C4_witness :
    load_ability_set 1 .StructHandle [0x3] = .error .unknownAbility ∧
    load_ability_set 1 .StructHandle [0x2] = .ok (⟨true, true, true, false⟩, []) :=
  ⟨(C4_version1_kind_shim 0x3 []).2.2.1 (by decide) (by decide),
   (C4_version1_kind_shim 0x3 []).2.1⟩

/-! Helper lemmas: parser bind inversions. -/

theorem pbind_ok_inv {α β : Type} {x : Except DErr (α × List Nat)} {f : α → List Nat → Except DErr β} {b : β}
    (h : pbind x f = .ok b) : ∃ a rest, x = .ok (a, rest) ∧ f a rest = .ok b := by
  cases x with
  | error e => simp [pbind] at h
  | ok p =>
    obtain ⟨a, r⟩ := p
    exact ⟨a, r, rfl, h⟩

theorem pbind_error_inv {α β : Type} {x : Except DErr (α × List Nat)} {f : α → List Nat → Except DErr β} {e : DErr}
    (h : pbind x f = .error e) : x = .error e ∨ ∃ a rest, x = .ok (a, rest) ∧ f a rest = .error e := by
  cases x with
  | error e2 =>
    simp only [pbind] at h
    exact Or.inl (by rw [Except.error.inj h])
  | ok p =>
    obtain ⟨a, r⟩ := p
    exact Or.inr ⟨a, r, rfl, h⟩

/-! Helper lemmas: arity positivity (C7). -/

theorem arityPosList_append (l1 l2 : List SignatureToken) :
    arityPosList (l1 ++ l2) = (arityPosList l1 && arityPosList l2) := by
  induction l1 with
  | nil => simp [arityPosList]
  | cons t ts ih => simp [arityPosList, ih, Bool.and_assoc]

theorem apply_arityPos (b : TypeBuilder) (tok : SignatureToken) (tb : TypeBuilder)
    (hb : builderArityPos b = true) (ht : arityPos tok = true)
    (h : TypeBuilder.apply b tok = .ok tb) : builderArityPos tb = true := by
  cases b with
  | saturated s => simp [TypeBuilder.apply] at h
  | vector =>
    simp only [TypeBuilder.apply, Except.ok.injEq] at h
    subst h
    simp [builderArityPos, arityPos, ht]
  | reference =>
    simp only [TypeBuilder.apply, Except.ok.injEq] at h
    subst h
    simp [builderArityPos, arityPos, ht]
  | mutableReference =>
    simp only [TypeBuilder.apply, Except.ok.injEq] at h
    subst h
    simp [builderArityPos, arityPos, ht]
  | structInst sh_idx arity ty_args =>
    simp only [builderArityPos, Bool.and_eq_true, decide_eq_true_eq] at hb
    simp only [TypeBuilder.apply] at h
    split_ifs at h with hlen
    · simp only [Except.ok.injEq] at h
      subst h
      simp only [builderArityPos, arityPos, Bool.and_eq_true, decide_eq_true_eq]
      refine ⟨by simp, ?_⟩
      rw [arityPosList_append]
      simp [hb.2, arityPosList, ht]
    · simp only [Except.ok.injEq] at h
      subst h
      simp only [builderArityPos, Bool.and_eq_true, decide_eq_true_eq]
      refine ⟨hb.1, ?_⟩
      rw [arityPosList_append]
      simp [hb.2, arityPosList, ht]

theorem read_next_arityPos (v : Nat) (input : List Nat) (nb : TypeBuilder) (rest : List Nat)
    (h : read_next v input = .ok (nb, rest)) : builderArityPos nb = true := by
  cases input with
  | nil => simp [read_next] at h
  | cons byte rst =>
    simp only [read_next] at h
    rcases hfu : SerializedType.from_u8 byte with e | sv
    · rw [hfu] at h
      cases h
    · rw [hfu] at h
      dsimp only at h
      split_ifs at h with hgate
      cases sv <;> dsimp only at h
      all_goals try (cases h; rfl)
      · obtain ⟨a, r, _, h2⟩ := pbind_ok_inv h
        cases h2
        rfl
      · obtain ⟨a, r, _, h2⟩ := pbind_ok_inv h
        cases h2
        rfl
      · obtain ⟨a, r, _, h2⟩ := pbind_ok_inv h
        obtain ⟨ar, r2, _, h3⟩ := pbind_ok_inv h2
        split_ifs at h3 with har
        cases h3
        simp [builderArityPos, arityPosList, Nat.pos_of_ne_zero har]

theorem sigLoopAux_arityPos : ∀ (fuel dm v : Nat) (stack : List TypeBuilder) (input : List Nat)
    (t : SignatureToken) (rest : List Nat),
    stackArityPos stack = true →
    sigLoopAux dm v fuel stack input = .ok (t, rest) → arityPos t = true := by
  intro fuel
  induction fuel with
  | zero => intro dm v stack input t rest _ h; simp [sigLoopAux] at h
  | succ fuel ih =>
    intro dm v stack input t rest hs h
    simp only [sigLoopAux] at h
    split_ifs at h with hdepth
    cases stack with
    | nil => simp at h
    | cons b stack' =>
      cases b with
      | saturated tok =>
        cases stack' with
        | nil =>
          simp only [Except.ok.injEq, Prod.mk.injEq] at h
          simp only [stackArityPos, builderArityPos, Bool.and_eq_true] at hs
          rw [← h.1]
          exact hs.1
        | cons b2 stack2 =>
          simp only at h
          rcases happ : TypeBuilder.apply b2 tok with e | tb
          · rw [happ] at h
            cases h
          · rw [happ] at h
            apply ih dm v (tb :: stack2) input t rest _ h
            simp only [stackArityPos, builderArityPos, Bool.and_eq_true] at hs
            simp only [stackArityPos, Bool.and_eq_true]
            obtain ⟨h1, h2, h3⟩ := hs
            exact ⟨apply_arityPos b2 tok tb h2 h1 happ, h3⟩
      | vector =>
        rcases hrn : read_next v input with e | p
        · rw [hrn] at h
          cases h
        · rw [hrn] at h
          obtain ⟨nb, input2⟩ := p
          apply ih dm v _ input2 t rest _ h
          simp only [stackArityPos, Bool.and_eq_true] at hs ⊢
          exact ⟨read_next_arityPos v input nb input2 hrn, by simp [builderArityPos], hs.2⟩
      | reference =>
        rcases hrn : read_next v input with e | p
        · rw [hrn] at h
          cases h
        · rw [hrn] at h
          obtain ⟨nb, input2⟩ := p
          apply ih dm v _ input2 t rest _ h
          simp only [stackArityPos, Bool.and_eq_true] at hs ⊢
          exact ⟨read_next_arityPos v input nb input2 hrn, by simp [builderArityPos], hs.2⟩
      | mutableReference =>
        rcases hrn : read_next v input with e | p
        · rw [hrn] at h
          cases h
        · rw [hrn] at h
          obtain ⟨nb, input2⟩ := p
          apply ih dm v _ input2 t rest _ h
          simp only [stackArityPos, Bool.and_eq_true] at hs ⊢
          exact ⟨read_next_arityPos v input nb input2 hrn, by simp [builderArityPos], hs.2⟩
      | structInst sh ar args =>
        rcases hrn : read_next v input with e | p
        · rw [hrn] at h
          cases h
        · rw [hrn] at h
          obtain ⟨nb, input2⟩ := p
          apply ih dm v _ input2 t rest _ h
          simp only [stackArityPos, Bool.and_eq_true] at hs ⊢
          exact ⟨read_next_arityPos v input nb input2 hrn, hs.1, hs.2⟩

/-- C7: a signature-token stream `0x0B`, struct-handle index, arity 0
fails with `Malformed ("Struct inst with arity 0")` (for any version
and any following bytes); and every successfully decoded token has
arity at least 1 in all of its struct-instantiations. -/
theorem C7_struct_inst_arity (v sh : Nat) (rest : List Nat) (hh : sh ≤ STRUCT_HANDLE_INDEX_MAX) :
    load_signature_token v (0xB :: (ulebEncode sh ++ 0x0 :: rest)) = .error (.malformed ("Struct inst with arity 0")) ∧
    ∀ (input : List Nat) (t : SignatureToken) (r2 : List Nat),
      load_signature_token v input = .ok (t, r2) → arityPos t = true := by
  constructor
  · have hsh64 : sh < 2 ^ 64 := by
      have he : STRUCT_HANDLE_INDEX_MAX = 65535 := rfl
      rw [he] at hh
      omega
    have h1 : load_struct_handle_index (ulebEncode sh ++ (0x0 :: rest)) = .ok (sh, 0x0 :: rest) :=
      read_uleb_internal_encode _ sh _ hsh64 hh
    have h2 : load_type_parameter_count (0x0 :: rest) = .ok (0, rest) := by
      simp [load_type_parameter_count, read_uleb_internal, ulebDecode_single 0 rest (by omega)]
    simp [load_signature_token, load_signature_token_d, read_next, SerializedType.from_u8, h1, h2, pbind]
  · intro input t r2 h
    simp only [load_signature_token, load_signature_token_d] at h
    rcases hrn : read_next v input with e | ⟨b, r⟩
    · rw [hrn] at h
      cases h
    · rw [hrn] at h
      have hb : builderArityPos b = true := read_next_arityPos v input b r hrn
      rcases b with tok | _ | _ | _ | ⟨sh2, ar, args⟩
      · dsimp only at h
        cases h
        exact hb
      · dsimp only at h
        exact sigLoopAux_arityPos _ _ _ _ _ _ _ (by simp [stackArityPos, hb]) h
      · dsimp only at h
        exact sigLoopAux_arityPos _ _ _ _ _ _ _ (by simp [stackArityPos, hb]) h
      · dsimp only at h
        exact sigLoopAux_arityPos _ _ _ _ _ _ _ (by simp [stackArityPos, hb]) h
      · dsimp only at h
        exact sigLoopAux_arityPos _ _ _ _ _ _ _ (by simp [stackArityPos, hb]) h

/-- C7 (witness): the rejection evaluated at handle index 7: the
stream `0x0B 0x07 0x00` is `Malformed`, and the arity-positivity
clause evaluated on the decoded stream `0x0B 0x07 0x01 0x01`
(`S7<bool>`). -/
theorem C7_witness :
    load_signature_token 6 (0xB :: (ulebEncode 7 ++ 0x0 :: [])) = .error (.malformed ("Struct inst with arity 0")) ∧
    arityPos (.structInstantiation 7 [.bool]) = true :=
  ⟨(C7_struct_inst_arity 6 7 [] (by decide)).1,
   (C7_struct_inst_arity 6 7 [] (by decide)).2 [0xB, 0x7, 0x1, 0x1] (.structInstantiation 7 [.bool]) [] (by rfl)⟩

/-! Helper lemmas: version gating (C3). -/

theorem wide_int_not_vec (op : Opcodes) (h : op.is_wide_int = true) : op.is_vec = false := by
  cases op <;> revert h <;> decide

theorem load_bytecode_count_one (b : Nat) (rest : List Nat) :
    load_bytecode_count (1 :: b :: rest) = .ok (1, b :: rest) := by
  simp [load_bytecode_count, read_uleb_internal, ulebDecode_single 1 _ (by omega), BYTECODE_COUNT_MAX]

/-- C3: version gating.  Friend declarations: rejected as `Malformed`
at version 1, accepted at version 2.  The metadata table: rejected
below version 5, accepted at 5.  Every vector-family opcode (including
VEC_LEN `0x41`): rejected below version 4, decoding at 4.  The
U16/U32/U256 signature tokens and the LdU16/LdU32/LdU256 and
CastU16/CastU32/CastU256 opcodes: rejected below version 6, decoding
at 6. -/
theorem C3_version_gating :
    (∀ (bytes : List Nat) (o c : Nat) (common : CommonTablesData),
      build_common_tables ⟨1, bytes⟩ [⟨.FRIEND_DECLS, o, c⟩] common =
        .error (.malformed ("Friend declarations not applicable in bytecode version 1")) ∧
      build_common_tables ⟨2, bytes⟩ [⟨.FRIEND_DECLS, o, c⟩] common = .ok common) ∧
    (∀ (v : Nat) (bytes : List Nat) (o c : Nat) (common : CommonTablesData), v < 5 →
      build_common_tables ⟨v, bytes⟩ [⟨.METADATA, o, c⟩] common =
        .error (.malformed (("metadata declarations not applicable in bytecode version ") ++ toString v))) ∧
    build_common_tables ⟨5, [0, 0]⟩ [⟨.METADATA, 0, 2⟩] {} = .ok { metadata := [⟨[], []⟩] } ∧
    (∀ (v b : Nat) (op : Opcodes) (rest : List Nat), v < 4 → op.is_vec = true →
      Opcodes.from_u8 b = .ok op →
      load_code v (1 :: b :: rest) =
        .error (.malformed ("Vector operations not available before bytecode version 4"))) ∧
    load_code 4 [1, 0x41, 0] = .ok ([.VecLen 0], []) ∧
    load_code 4 [1, 0x40, 0, 0, 0, 0, 0, 0, 0, 0, 0] = .ok ([.VecPack 0 0], []) ∧
    (∀ (v b : Nat) (op : Opcodes) (rest : List Nat), v < 6 → op.is_wide_int = true →
      Opcodes.from_u8 b = .ok op →
      load_code v (1 :: b :: rest) =
        .error (.malformed (("Loading or casting u16, u32, u256 integers not supported in bytecode version ") ++ toString v))) ∧
    load_code 6 [1, 0x48, 5, 0] = .ok ([.LdU16 5], []) ∧
    load_code 6 [1, 0x49, 5, 0, 0, 0] = .ok ([.LdU32 5], []) ∧
    load_code 6 [1, 0x4B] = .ok ([.CastU16], []) ∧
    (∀ (v : Nat) (rest : List Nat), v < 6 →
      load_signature_token v (0xD :: rest) =
        .error (.malformed (("u16, u32, u256 integers not supported in bytecode version ") ++ toString v)) ∧
      load_signature_token v (0xE :: rest) =
        .error (.malformed (("u16, u32, u256 integers not supported in bytecode version ") ++ toString v)) ∧
      load_signature_token v (0xF :: rest) =
        .error (.malformed (("u16, u32, u256 integers not supported in bytecode version ") ++ toString v))) ∧
    (∀ (rest : List Nat),
      load_signature_token 6 (0xD :: rest) = .ok (.u16, rest) ∧
      load_signature_token 6 (0xE :: rest) = .ok (.u32, rest) ∧
      load_signature_token 6 (0xF :: rest) = .ok (.u256, rest)) := by
  refine ⟨?_, ?_, by rfl, ?_, by rfl, by rfl, ?_, by rfl, by rfl, by rfl, ?_, ?_⟩
  · intro bytes o c common
    exact ⟨rfl, rfl⟩
  · intro v bytes o c common hv
    simp only [build_common_tables]
    rw [if_pos (by simp only [VERSION_5]; omega)]
  · intro v b op rest hv hop hb
    simp only [load_code, load_bytecode_count_one b rest, pbind, load_code_n, load_one_instr, hb]
    rw [if_pos ⟨hop, by simp only [VERSION_4]; omega⟩]
  · intro v b op rest hv hop hb
    simp only [load_code, load_bytecode_count_one b rest, pbind, load_code_n, load_one_instr, hb]
    rw [if_neg (by
      intro hco
      rw [wide_int_not_vec op hop] at hco
      simp at hco)]
    rw [if_pos ⟨hop, by simp only [VERSION_6]; omega⟩]
  · intro v rest hv
    refine ⟨?_, ?_, ?_⟩ <;>
      simp [load_signature_token, load_signature_token_d, read_next, SerializedType.from_u8,
        VERSION_6, hv]
  · intro rest
    exact ⟨rfl, rfl, rfl⟩

/-- C3 (witness): the gates evaluated at concrete inputs: friend table
at version 1, metadata table at version 4, `VEC_LEN` at version 3,
`LD_U16` at version 5, and the `U16` token at version 5 are all
rejected; the acceptance clauses are closed equations inside the
theorem itself. -/
theorem C3_witness :
    build_common_tables ⟨1, []⟩ [⟨.FRIEND_DECLS, 0, 0⟩] {} =
      .error (.malformed ("Friend declarations not applicable in bytecode version 1")) ∧
    build_common_tables ⟨4, []⟩ [⟨.METADATA, 0, 2⟩] {} =
      .error (.malformed (("metadata declarations not applicable in bytecode version ") ++ toString 4)) ∧
    load_code 3 [1, 0x41, 0] =
      .error (.malformed ("Vector operations not available before bytecode version 4")) ∧
    load_code 5 [1, 0x48, 5, 0] =
      .error (.malformed (("Loading or casting u16, u32, u256 integers not supported in bytecode version ") ++ toString 5)) ∧
    load_signature_token 5 [0xD] =
      .error (.malformed (("u16, u32, u256 integers not supported in bytecode version ") ++ toString 5)) :=
  ⟨(C3_version_gating.1 [] 0 0 {}).1,
   C3_version_gating.2.1 4 [] 0 2 {} (by omega),
   C3_version_gating.2.2.2.1 3 0x41 .VEC_LEN [0] (by omega) (by decide) (by rfl),
   C3_version_gating.2.2.2.2.2.2.1 5 0x48 .LD_U16 [5, 0] (by omega) (by decide) (by rfl),
   (C3_version_gating.2.2.2.2.2.2.2.2.2.2.1 5 [] (by omega)).1⟩

/-! Helper lemmas: flag bytes (C5). -/

theorem read_uleb_single (max b : Nat) (l : List Nat) (hb : b < 128) (hm : b ≤ max) :
    read_uleb_internal max (b :: l) = .ok (b, l) := by
  simp [read_uleb_internal, ulebDecode_single b l hb, Nat.not_lt.2 hm]

set_option maxRecDepth 8192 in
theorem byte_land_one (n : Nat) (h : n < 256) : n &&& 1 = n % 2 := by
  revert h
  revert n
  decide

set_option maxRecDepth 8192 in
theorem byte_xor_one_of_odd (n : Nat) (h : n < 256) (ho : n % 2 = 1) : n ^^^ 1 = n - 1 := by
  revert ho
  revert h
  revert n
  decide

set_option maxRecDepth 8192 in
theorem byte_xor_two_of_bit (n : Nat) (h : n < 256) (hb : n &&& 2 ≠ 0) : n ^^^ 2 = n - 2 := by
  revert hb
  revert h
  revert n
  decide

set_option maxRecDepth 8192 in
theorem byte_xor_one_eq_zero (n : Nat) (h : n < 256) : n ^^^ 1 = 0 ↔ n = 1 := by
  revert h
  revert n
  decide

theorem byte_sub_two_lt (n : Nat) (h : n < 256) : n - 2 < 256 := by omega

/-- C5: function-definition flag decoding.  Version 1: one flag byte,
`DEPRECATED_PUBLIC_BIT` selects Public/Private, `is_entry` is false,
the remaining byte keeps all bits but the public bit.  Versions 2–4:
the sentinel byte 0x2 gives `(Public, is_entry = true)`; otherwise the
byte must be a valid visibility (else `Malformed`), `is_entry` false;
either way a second flags byte is read.  Version ≥ 5: a visibility
byte (invalid gives `Malformed`), then a flags byte whose ENTRY bit
(0b10) sets `is_entry` and is cleared.  In every version the NATIVE
bit (0b01) of the remaining flags selects `code = none`, and residual
bits left after these extractions give `InvalidFlagBits`
(demonstrated at version 6 through `load_function_def`). -/
theorem C5_function_def_flags :
    (∀ (flags : Nat) (input : List Nat), flags < 256 →
      (flags % 2 = 1 →
        load_vis_entry_flags 1 flags input = .ok ((.Public, false, flags - 1), input)) ∧
      (flags % 2 = 0 →
        load_vis_entry_flags 1 flags input = .ok ((.Private, false, flags), input))) ∧
    (∀ (v flags extra : Nat) (rest : List Nat), 2 ≤ v → v < 5 →
      (flags = 2 →
        load_vis_entry_flags v flags (extra :: rest) = .ok ((.Public, true, extra), rest)) ∧
      (∀ vis, flags ≠ 2 → Visibility.from_u8 flags = some vis →
        load_vis_entry_flags v flags (extra :: rest) = .ok ((vis, false, extra), rest)) ∧
      (flags ≠ 2 → Visibility.from_u8 flags = none →
        load_vis_entry_flags v flags (extra :: rest) = .error (.malformed ("Invalid visibility byte")))) ∧
    (∀ (v flags extra : Nat) (rest : List Nat), 5 ≤ v → extra < 256 →
      (Visibility.from_u8 flags = none →
        load_vis_entry_flags v flags (extra :: rest) = .error (.malformed ("Invalid visibility byte"))) ∧
      (∀ vis, Visibility.from_u8 flags = some vis →
        (extra &&& 2 ≠ 0 →
          load_vis_entry_flags v flags (extra :: rest) = .ok ((vis, true, extra - 2), rest)) ∧
        (extra &&& 2 = 0 →
          load_vis_entry_flags v flags (extra :: rest) = .ok ((vis, false, extra), rest)))) ∧
    (∀ (extra : Nat) (tail : List Nat), extra < 256 →
      (((if extra &&& 2 ≠ 0 then extra - 2 else extra) = 1) →
        load_function_def 6 ([0, 0, extra, 0] ++ tail) =
          .ok (⟨0, .Private, decide (extra &&& 2 ≠ 0), [], none⟩, tail)) ∧
      (((if extra &&& 2 ≠ 0 then extra - 2 else extra) % 2 = 1) →
        ((if extra &&& 2 ≠ 0 then extra - 2 else extra) ≠ 1) →
        load_function_def 6 ([0, 0, extra, 0] ++ tail) = .error .invalidFlagBits) ∧
      (((if extra &&& 2 ≠ 0 then extra - 2 else extra) = 0) →
        load_function_def 6 ([0, 0, extra, 0, 0, 0] ++ tail) =
          .ok (⟨0, .Private, decide (extra &&& 2 ≠ 0), [], some ⟨0, []⟩⟩, tail)) ∧
      (((if extra &&& 2 ≠ 0 then extra - 2 else extra) % 2 = 0) →
        ((if extra &&& 2 ≠ 0 then extra - 2 else extra) ≠ 0) →
        load_function_def 6 ([0, 0, extra, 0, 0, 0] ++ tail) = .error .invalidFlagBits)) := by
  refine ⟨?_, ?_, ?_, ?_⟩
  · intro flags input hf
    constructor
    · intro ho
      have hb : flags &&& FunctionDefinition.DEPRECATED_PUBLIC_BIT ≠ 0 := by
        show flags &&& 1 ≠ 0
        rw [byte_land_one flags hf]
        omega
      simp only [load_vis_entry_flags, if_pos hb]
      have hx : flags ^^^ FunctionDefinition.DEPRECATED_PUBLIC_BIT = flags - 1 :=
        byte_xor_one_of_odd flags hf ho
      rw [hx]
      rfl
    · intro he
      have hb : ¬flags &&& FunctionDefinition.DEPRECATED_PUBLIC_BIT ≠ 0 := by
        show ¬flags &&& 1 ≠ 0
        rw [byte_land_one flags hf]
        omega
      simp only [load_vis_entry_flags, if_neg hb]
      rfl
  · intro v flags extra rest hv2 hv5
    have hne1 : ¬v = VERSION_1 := by
      simp only [VERSION_1]
      omega
    have hlt5 : v < VERSION_5 := by
      simp only [VERSION_5]
      omega
    refine ⟨?_, ?_, ?_⟩
    · intro h2
      simp only [load_vis_entry_flags, if_neg hne1, if_pos hlt5,
        if_pos (show flags = Visibility.DEPRECATED_SCRIPT from h2)]
    · intro vis hne2 hvis
      have : ¬flags = Visibility.DEPRECATED_SCRIPT := hne2
      simp only [load_vis_entry_flags, if_neg hne1, if_pos hlt5, if_neg this, hvis]
    · intro hne2 hvis
      have : ¬flags = Visibility.DEPRECATED_SCRIPT := hne2
      simp only [load_vis_entry_flags, if_neg hne1, if_pos hlt5, if_neg this, hvis]
  · intro v flags extra rest hv5 hex
    have hne1 : ¬v = VERSION_1 := by
      simp only [VERSION_1]
      omega
    have hge5 : ¬v < VERSION_5 := by
      simp only [VERSION_5]
      omega
    refine ⟨?_, ?_⟩
    · intro hvis
      simp only [load_vis_entry_flags, if_neg hne1, if_neg hge5, hvis]
    · intro vis hvis
      constructor
      · intro hent
        have hent' : extra &&& FunctionDefinition.ENTRY ≠ 0 := hent
        simp only [load_vis_entry_flags, if_neg hne1, if_neg hge5, hvis, if_pos hent']
        rw [show extra ^^^ FunctionDefinition.ENTRY = extra - 2 from
          byte_xor_two_of_bit extra hex hent]
      · intro hent
        have hent' : ¬extra &&& FunctionDefinition.ENTRY ≠ 0 := by
          intro hc
          exact hc hent
        simp only [load_vis_entry_flags, if_neg hne1, if_neg hge5, hvis, if_neg hent']
  · intro extra tail hex
    have hvef : ∀ (r : List Nat),
        load_vis_entry_flags 6 0 (extra :: r) =
          .ok ((.Private, decide (extra &&& 2 ≠ 0), if extra &&& 2 ≠ 0 then extra - 2 else extra), r) := by
      intro r
      by_cases hent : extra &&& 2 ≠ 0
      · have hent' : extra &&& FunctionDefinition.ENTRY ≠ 0 := hent
        simp only [load_vis_entry_flags, if_neg (by simp only [VERSION_1]; omega : ¬(6 : Nat) = VERSION_1),
          if_neg (by simp only [VERSION_5]; omega : ¬(6 : Nat) < VERSION_5)]
        simp only [show Visibility.from_u8 0 = some .Private from rfl, if_pos hent']
        rw [show extra ^^^ FunctionDefinition.ENTRY = extra - 2 from byte_xor_two_of_bit extra hex hent]
        simp [hent]
      · have hent' : ¬extra &&& FunctionDefinition.ENTRY ≠ 0 := hent
        simp only [load_vis_entry_flags, if_neg (by simp only [VERSION_1]; omega : ¬(6 : Nat) = VERSION_1),
          if_neg (by simp only [VERSION_5]; omega : ¬(6 : Nat) < VERSION_5)]
        simp only [show Visibility.from_u8 0 = some .Private from rfl, if_neg hent']
        simp [hent]
    have he1lt : (if extra &&& 2 ≠ 0 then extra - 2 else extra) < 256 := by
      split_ifs <;> omega
    set e1 := if extra &&& 2 ≠ 0 then extra - 2 else extra with he1
    have hfd : ∀ (r : List Nat),
        load_function_def 6 (0 :: 0 :: extra :: r) =
          pbind (load_struct_definition_indices r) fun acquires_global_resources rest4 =>
            if e1 &&& FunctionDefinition.NATIVE ≠ 0 then
              if e1 ^^^ FunctionDefinition.NATIVE ≠ 0 then .error .invalidFlagBits
              else .ok (⟨0, .Private, decide (extra &&& 2 ≠ 0), acquires_global_resources, none⟩, rest4)
            else
              pbind (load_code_unit 6 rest4) fun code_unit rest5 =>
                if e1 ≠ 0 then .error .invalidFlagBits
                else .ok (⟨0, .Private, decide (extra &&& 2 ≠ 0), acquires_global_resources, some code_unit⟩, rest5) := by
      intro r
      simp only [load_function_def,
        show load_function_handle_index (0 :: 0 :: extra :: r) = .ok (0, 0 :: extra :: r) from
          read_uleb_single _ 0 _ (by omega) (by omega),
        pbind, hvef r]
    refine ⟨?_, ?_, ?_, ?_⟩
    · intro hone
      have := hfd (0 :: tail)
      rw [show ([0, 0, extra, 0] ++ tail) = 0 :: 0 :: extra :: (0 :: tail) from rfl, this]
      simp only [show load_struct_definition_indices (0 :: tail) = .ok ([], tail) from
        (by simp [load_struct_definition_indices, load_acquires_count,
              read_uleb_single _ 0 _ (by omega) (by omega), pbind, load_struct_definition_indices_n]),
        pbind]
      rw [if_pos (by show e1 &&& 1 ≠ 0; rw [byte_land_one e1 he1lt]; omega)]
      rw [if_neg (by show ¬e1 ^^^ 1 ≠ 0; rw [ne_eq, not_not, byte_xor_one_eq_zero e1 he1lt]; exact hone)]
    · intro hodd hne1
      have := hfd (0 :: tail)
      rw [show ([0, 0, extra, 0] ++ tail) = 0 :: 0 :: extra :: (0 :: tail) from rfl, this]
      simp only [show load_struct_definition_indices (0 :: tail) = .ok ([], tail) from
        (by simp [load_struct_definition_indices, load_acquires_count,
              read_uleb_single _ 0 _ (by omega) (by omega), pbind, load_struct_definition_indices_n]),
        pbind]
      rw [if_pos (by show e1 &&& 1 ≠ 0; rw [byte_land_one e1 he1lt]; omega)]
      rw [if_pos (by show e1 ^^^ 1 ≠ 0; rw [ne_eq, byte_xor_one_eq_zero e1 he1lt]; exact hne1)]
    · intro hzero
      have := hfd (0 :: 0 :: 0 :: tail)
      rw [show ([0, 0, extra, 0, 0, 0] ++ tail) = 0 :: 0 :: extra :: (0 :: 0 :: 0 :: tail) from rfl, this]
      simp only [show load_struct_definition_indices (0 :: 0 :: 0 :: tail) = .ok ([], 0 :: 0 :: tail) from
        (by simp [load_struct_definition_indices, load_acquires_count,
              read_uleb_single _ 0 _ (by omega) (by omega), pbind, load_struct_definition_indices_n]),
        pbind]
      rw [if_neg (by show ¬e1 &&& 1 ≠ 0; rw [byte_land_one e1 he1lt]; omega)]
      simp only [show load_code_unit 6 (0 :: 0 :: tail) = .ok (⟨0, []⟩, tail) from
        (by simp [load_code_unit, load_signature_index,
              read_uleb_single _ 0 _ (by omega) (by omega), pbind, load_code,
              load_bytecode_count, load_code_n]),
        pbind]
      rw [if_neg (by omega)]
    · intro heven hnz
      have := hfd (0 :: 0 :: 0 :: tail)
      rw [show ([0, 0, extra, 0, 0, 0] ++ tail) = 0 :: 0 :: extra :: (0 :: 0 :: 0 :: tail) from rfl, this]
      simp only [show load_struct_definition_indices (0 :: 0 :: 0 :: tail) = .ok ([], 0 :: 0 :: tail) from
        (by simp [load_struct_definition_indices, load_acquires_count,
              read_uleb_single _ 0 _ (by omega) (by omega), pbind, load_struct_definition_indices_n]),
        pbind]
      rw [if_neg (by show ¬e1 &&& 1 ≠ 0; rw [byte_land_one e1 he1lt]; omega)]
      simp only [show load_code_unit 6 (0 :: 0 :: tail) = .ok (⟨0, []⟩, tail) from
        (by simp [load_code_unit, load_signature_index,
              read_uleb_single _ 0 _ (by omega) (by omega), pbind, load_code,
              load_bytecode_count, load_code_n]),
        pbind]
      rw [if_pos hnz]

/-- C5 (witness): the flag decoding evaluated concretely: version 1
byte `0x3` gives Public with remaining flags 2; versions 2–4 sentinel
byte `0x2` gives `(Public, entry)`; version 6 visibility 1 with flags
byte `0x2` gives `(Public, entry, 0)`; and a native function
definition (remaining flags 1) decodes with `code = none`. -/
theorem C5_witness :
    load_vis_entry_flags 1 3 [] = .ok ((.Public, false, 2), []) ∧
    load_vis_entry_flags 3 2 [7] = .ok ((.Public, true, 7), []) ∧
    load_vis_entry_flags 6 1 [2] = .ok ((.Public, true, 0), []) ∧
    load_function_def 6 [0, 0, 1, 0] =
      .ok (⟨0, .Private, decide ((1 : Nat) &&& 2 ≠ 0), [], none⟩, []) := by
  refine ⟨?_, ?_, ?_, ?_⟩
  · have h := (C5_function_def_flags.1 3 [] (by omega)).1 (by decide)
    simpa using h
  · exact (C5_function_def_flags.2.1 3 2 7 [] (by omega) (by omega)).1 rfl
  · have h := ((C5_function_def_flags.2.2.1 6 1 2 [] (by omega) (by omega)).2 .Public (by rfl)).1 (by decide)
    simpa using h
  · have h := (C5_function_def_flags.2.2.2 1 [] (by omega)).1 (by decide)
    simpa using h

/-- C6: script table exclusion.  Any directory containing a table of
kind STRUCT_DEFS, STRUCT_DEF_INST, FUNCTION_DEFS, FIELD_HANDLE,
FIELD_INST or FRIEND_DECLS makes `build_script_tables` fail with
`Malformed ("Bad table in Script")`; building the module tables over a
directory containing all six kinds succeeds (the module side does not
run this check). -/
theorem C6_script_table_exclusion :
    (∀ (tables : List Table),
      (∃ t ∈ tables, t.kind ∈ ([.STRUCT_DEFS, .STRUCT_DEF_INST, .FUNCTION_DEFS, .FIELD_HANDLE, .FIELD_INST, .FRIEND_DECLS] : List TableType)) →
      build_script_tables tables = .error (.malformed ("Bad table in Script"))) ∧
    build_module_tables ⟨6, [0, 1, 0, 0, 0, 0, 1, 0, 0, 0, 0, 0, 0, 0]⟩
      [⟨.STRUCT_DEFS, 0, 2⟩, ⟨.STRUCT_DEF_INST, 2, 2⟩, ⟨.FUNCTION_DEFS, 4, 4⟩,
       ⟨.FIELD_HANDLE, 8, 2⟩, ⟨.FIELD_INST, 10, 2⟩, ⟨.FRIEND_DECLS, 12, 2⟩]
      { version := 6, self_module_handle_idx := 0, common := {} } =
      .ok { version := 6, self_module_handle_idx := 0, common := {},
            struct_defs := [⟨0, .Native⟩],
            struct_def_instantiations := [⟨0, 0⟩],
            function_defs := [⟨0, .Private, false, [], none⟩],
            field_handles := [⟨0, 0⟩],
            field_instantiations := [⟨0, 0⟩],
            friend_decls := [⟨0, 0⟩] } := by
  constructor
  · intro tables
    induction tables with
    | nil =>
      intro hex
      simp at hex
    | cons t rest ih =>
      intro hex
      rcases hex with ⟨u, hu, hku⟩
      rcases List.mem_cons.1 hu with rfl | hu2
      · obtain ⟨k, o, c⟩ := u
        simp only at hku
        cases k
        all_goals first
          | rfl
          | (exact absurd hku (by decide))
      · obtain ⟨k, o, c⟩ := t
        cases k
        all_goals first
          | rfl
          | (exact ih ⟨u, hu2, hku⟩)
  · rfl

/-- C6 (witness): the exclusion applied at a concrete one-table script
directory of kind STRUCT_DEFS. -/
theorem C6_witness :
    build_script_tables [⟨.STRUCT_DEFS, 0, 1⟩] = .error (.malformed ("Bad table in Script")) :=
  C6_script_table_exclusion.1 [⟨.STRUCT_DEFS, 0, 1⟩] ⟨⟨.STRUCT_DEFS, 0, 1⟩, by simp, by decide⟩

/-! Helper lemmas: fuel stability of the builder-stack loop (C2). -/

theorem read_uleb_internal_consume (max : Nat) (input : List Nat) (x : Nat) (rest : List Nat)
    (h : read_uleb_internal max input = .ok (x, rest)) : rest.length < input.length := by
  simp only [read_uleb_internal] at h
  rcases hd : ulebDecode input with _ | ⟨y, r⟩
  · rw [hd] at h
    cases h
  · rw [hd] at h
    dsimp only at h
    split_ifs at h with hm
    simp only [Except.ok.injEq, Prod.mk.injEq] at h
    rw [← h.2]
    exact ulebDecodeAux_consume input 0 0 y r hd

theorem read_next_consume (v : Nat) (input : List Nat) (nb : TypeBuilder) (rest : List Nat)
    (h : read_next v input = .ok (nb, rest)) : rest.length < input.length := by
  cases input with
  | nil => simp [read_next] at h
  | cons byte rst =>
    simp only [read_next] at h
    rcases hfu : SerializedType.from_u8 byte with e | sv
    · rw [hfu] at h
      cases h
    · rw [hfu] at h
      dsimp only at h
      split_ifs at h with hgate
      have hlen : rest.length ≤ rst.length := by
        cases sv <;> dsimp only at h
        all_goals try (cases h; exact le_refl _)
        · obtain ⟨a, r, h1, h2⟩ := pbind_ok_inv h
          cases h2
          exact le_of_lt (read_uleb_internal_consume _ _ _ _ h1)
        · obtain ⟨a, r, h1, h2⟩ := pbind_ok_inv h
          cases h2
          exact le_of_lt (read_uleb_internal_consume _ _ _ _ h1)
        · obtain ⟨a, r, h1, h2⟩ := pbind_ok_inv h
          obtain ⟨ar, r2, h3, h4⟩ := pbind_ok_inv h2
          split_ifs at h4 with har
          cases h4
          have hx1 : rest.length < r.length := read_uleb_internal_consume _ _ _ _ h3
          have hx2 : r.length < rst.length := read_uleb_internal_consume _ _ _ _ h1
          omega
      simp only [List.length_cons]
      omega

theorem sigLoopAux_stable : ∀ (m dm v : Nat) (S : List TypeBuilder) (i : List Nat) (f f' : Nat),
    2 * i.length + S.length ≤ m → 2 * i.length + S.length < f → 2 * i.length + S.length < f' →
    sigLoopAux dm v f S i = sigLoopAux dm v f' S i := by
  intro m
  induction m with
  | zero =>
    intro dm v S i f f' hm hf hf'
    have hS : S = [] := by
      cases S with
      | nil => rfl
      | cons a b => simp at hm
    subst hS
    obtain ⟨f1, rfl⟩ : ∃ f1, f = f1 + 1 := ⟨f - 1, by omega⟩
    obtain ⟨f2, rfl⟩ : ∃ f2, f' = f2 + 1 := ⟨f' - 1, by omega⟩
    simp [sigLoopAux]
  | succ m ih =>
    intro dm v S i f f' hm hf hf'
    obtain ⟨f1, rfl⟩ : ∃ f1, f = f1 + 1 := ⟨f - 1, by omega⟩
    obtain ⟨f2, rfl⟩ : ∃ f2, f' = f2 + 1 := ⟨f' - 1, by omega⟩
    simp only [sigLoopAux]
    split_ifs with hdep
    · rfl
    cases S with
    | nil => rfl
    | cons b S' =>
      cases b with
      | saturated tok =>
        cases S' with
        | nil => rfl
        | cons b2 S2 =>
          dsimp only
          rcases TypeBuilder.apply b2 tok with e | tb
          · rfl
          · dsimp only
            apply ih dm v (tb :: S2) i f1 f2 <;> simp_all <;> omega
      | vector =>
        dsimp only
        rcases hrn : read_next v i with e | ⟨nb, i2⟩
        · rfl
        · dsimp only
          have hc := read_next_consume v i nb i2 hrn
          apply ih dm v (nb :: .vector :: S') i2 f1 f2 <;> simp_all [List.length_cons] <;> omega
      | reference =>
        dsimp only
        rcases hrn : read_next v i with e | ⟨nb, i2⟩
        · rfl
        · dsimp only
          have hc := read_next_consume v i nb i2 hrn
          apply ih dm v (nb :: .reference :: S') i2 f1 f2 <;> simp_all [List.length_cons] <;> omega
      | mutableReference =>
        dsimp only
        rcases hrn : read_next v i with e | ⟨nb, i2⟩
        · rfl
        · dsimp only
          have hc := read_next_consume v i nb i2 hrn
          apply ih dm v (nb :: .mutableReference :: S') i2 f1 f2 <;> simp_all [List.length_cons] <;> omega
      | structInst idx ar args =>
        dsimp only
        rcases hrn : read_next v i with e | ⟨nb, i2⟩
        · rfl
        · dsimp only
          have hc := read_next_consume v i nb i2 hrn
          apply ih dm v (nb :: .structInst idx ar args :: S') i2 f1 f2 <;>
            simp_all [List.length_cons] <;> omega

theorem sigLoopAux_eq_sigRun (dm v f : Nat) (S : List TypeBuilder) (i : List Nat)
    (hf : 2 * i.length + S.length < f) :
    sigLoopAux dm v f S i = sigRun dm v S i :=
  sigLoopAux_stable (2 * i.length + S.length) dm v S i f (2 * i.length + S.length + 1)
    (le_refl _) hf (by omega)

theorem sigRun_step_sat (dm v : Nat) (tok : SignatureToken) (b2 : TypeBuilder) (S2 : List TypeBuilder) (i : List Nat) :
    sigRun dm v (.saturated tok :: b2 :: S2) i =
      if dm < S2.length + 2 then .error (.malformed ("Maximum recursion depth reached"))
      else
        match TypeBuilder.apply b2 tok with
        | .error e => .error e
        | .ok tb => sigRun dm v (tb :: S2) i := by
  set F := 2 * i.length + S2.length + 2 with hF
  have hfe : 2 * i.length + (List.length (.saturated tok :: b2 :: S2 : List TypeBuilder)) + 1 =
      F + 1 := by
    simp only [List.length_cons, hF]
    omega
  rw [sigRun, hfe]
  simp only [sigLoopAux, List.length_cons]
  by_cases hd : dm < S2.length + 2
  · rw [if_pos (by omega : dm < S2.length + 1 + 1), if_pos hd]
  · rw [if_neg (by omega : ¬dm < S2.length + 1 + 1), if_neg hd]
    rcases TypeBuilder.apply b2 tok with e | tb
    · rfl
    · exact sigLoopAux_eq_sigRun dm v F (tb :: S2) i (by simp only [List.length_cons, hF]; omega)

theorem sigRun_step_sat_nil (dm v : Nat) (tok : SignatureToken) (i : List Nat) :
    sigRun dm v [.saturated tok] i =
      if dm < 1 then .error (.malformed ("Maximum recursion depth reached")) else .ok (tok, i) := by
  set F := 2 * i.length with hF
  have hfe : 2 * i.length + (List.length ([.saturated tok] : List TypeBuilder)) + 1 = (F + 1) + 1 := by
    simp only [List.length_cons, List.length_nil, hF]
  rw [sigRun, hfe]
  simp only [sigLoopAux, List.length_cons, List.length_nil]

theorem sigRun_step_read (dm v : Nat) (b : TypeBuilder) (S' : List TypeBuilder) (i : List Nat)
    (hb : b.is_saturated = false) :
    sigRun dm v (b :: S') i =
      if dm < S'.length + 1 then .error (.malformed ("Maximum recursion depth reached"))
      else
        match read_next v i with
        | .error e => .error e
        | .ok (nb, i2) => sigRun dm v (nb :: b :: S') i2 := by
  set F := 2 * i.length + S'.length + 1 with hF
  have hfe : 2 * i.length + (List.length (b :: S')) + 1 = F + 1 := by
    simp only [List.length_cons, hF]
    omega
  rw [sigRun, hfe]
  cases b with
  | saturated tok => simp [TypeBuilder.is_saturated] at hb
  | vector =>
    simp only [sigLoopAux, List.length_cons]
    by_cases hd : dm < S'.length + 1
    · rw [if_pos hd, if_pos hd]
    · rw [if_neg hd, if_neg hd]
      rcases hrn : read_next v i with e | ⟨nb, i2⟩
      · rfl
      · have hc := read_next_consume v i nb i2 hrn
        exact sigLoopAux_eq_sigRun dm v F (nb :: .vector :: S') i2
          (by simp only [List.length_cons, hF]; omega)
  | reference =>
    simp only [sigLoopAux, List.length_cons]
    by_cases hd : dm < S'.length + 1
    · rw [if_pos hd, if_pos hd]
    · rw [if_neg hd, if_neg hd]
      rcases hrn : read_next v i with e | ⟨nb, i2⟩
      · rfl
      · have hc := read_next_consume v i nb i2 hrn
        exact sigLoopAux_eq_sigRun dm v F (nb :: .reference :: S') i2
          (by simp only [List.length_cons, hF]; omega)
  | mutableReference =>
    simp only [sigLoopAux, List.length_cons]
    by_cases hd : dm < S'.length + 1
    · rw [if_pos hd, if_pos hd]
    · rw [if_neg hd, if_neg hd]
      rcases hrn : read_next v i with e | ⟨nb, i2⟩
      · rfl
      · have hc := read_next_consume v i nb i2 hrn
        exact sigLoopAux_eq_sigRun dm v F (nb :: .mutableReference :: S') i2
          (by simp only [List.length_cons, hF]; omega)
  | structInst idx ar args =>
    simp only [sigLoopAux, List.length_cons]
    by_cases hd : dm < S'.length + 1
    · rw [if_pos hd, if_pos hd]
    · rw [if_neg hd, if_neg hd]
      rcases hrn : read_next v i with e | ⟨nb, i2⟩
      · rfl
      · have hc := read_next_consume v i nb i2 hrn
        exact sigLoopAux_eq_sigRun dm v F (nb :: .structInst idx ar args :: S') i2
          (by simp only [List.length_cons, hF]; omega)

theorem read_next_encode (t : SignatureToken) (rest : List Nat) (hwf : wfTok t = true) :
    read_next 6 (encodeTok t ++ rest) =
      match t with
      | .vector u => .ok (.vector, encodeTok u ++ rest)
      | .reference u => .ok (.reference, encodeTok u ++ rest)
      | .mutableReference u => .ok (.mutableReference, encodeTok u ++ rest)
      | .structInstantiation idx args =>
        .ok (.structInst idx args.length [], encodeTokList args ++ rest)
      | atom => .ok (.saturated atom, rest) := by
  cases t with
  | bool => rfl
  | u8 => rfl
  | u16 => rfl
  | u32 => rfl
  | u64 => rfl
  | u128 => rfl
  | u256 => rfl
  | address => rfl
  | signer => rfl
  | vector u =>
    simp only [encodeTok, List.cons_append]
    rfl
  | reference u =>
    simp only [encodeTok, List.cons_append]
    rfl
  | mutableReference u =>
    simp only [encodeTok, List.cons_append]
    rfl
  | struct idx =>
    simp only [wfTok, decide_eq_true_eq] at hwf
    have h64 : idx < 2 ^ 64 := by
      have he : STRUCT_HANDLE_INDEX_MAX = 65535 := rfl
      rw [he] at hwf
      omega
    simp only [encodeTok, List.cons_append]
    simp [read_next, SerializedType.from_u8, pbind, load_struct_handle_index,
      read_uleb_internal_encode STRUCT_HANDLE_INDEX_MAX idx rest h64 hwf]
  | typeParameter idx =>
    simp only [wfTok, decide_eq_true_eq] at hwf
    have h64 : idx < 2 ^ 64 := by
      have he : TYPE_PARAMETER_INDEX_MAX = 65536 := rfl
      rw [he] at hwf
      omega
    simp only [encodeTok, List.cons_append]
    simp [read_next, SerializedType.from_u8, pbind, load_type_parameter_index,
      read_uleb_internal_encode TYPE_PARAMETER_INDEX_MAX idx rest h64 hwf]
  | structInstantiation idx args =>
    simp only [wfTok, Bool.and_eq_true, decide_eq_true_eq] at hwf
    obtain ⟨⟨⟨hidx, hpos⟩, hlen⟩, _⟩ := hwf
    have h64i : idx < 2 ^ 64 := by
      have he : STRUCT_HANDLE_INDEX_MAX = 65535 := rfl
      rw [he] at hidx
      omega
    have h64l : args.length < 2 ^ 64 := by
      have he : TYPE_PARAMETER_COUNT_MAX = 255 := rfl
      rw [he] at hlen
      omega
    simp only [encodeTok, List.cons_append, List.append_assoc]
    simp [read_next, SerializedType.from_u8, pbind, load_struct_handle_index,
      load_type_parameter_count,
      read_uleb_internal_encode STRUCT_HANDLE_INDEX_MAX idx _ h64i hidx,
      read_uleb_internal_encode TYPE_PARAMETER_COUNT_MAX args.length _ h64l hlen,
      List.ne_nil_of_length_pos hpos]

theorem tokenDepth_pos (t : SignatureToken) : 1 ≤ tokenDepth t := by
  cases t <;> simp [tokenDepth]

theorem wfTokList_mem : ∀ (l : List SignatureToken), wfTokList l = true → ∀ a ∈ l, wfTok a = true := by
  intro l
  induction l with
  | nil => intro _ a ha; simp at ha
  | cons x xs ih =>
    intro h a ha
    simp only [wfTokList, Bool.and_eq_true] at h
    rcases List.mem_cons.1 ha with rfl | ha2
    · exact h.1
    · exact ih h.2 a ha2

theorem tokenDepthList_le : ∀ (l : List SignatureToken), ∀ a ∈ l, tokenDepth a ≤ tokenDepthList l := by
  intro l
  induction l with
  | nil => intro a ha; simp at ha
  | cons x xs ih =>
    intro a ha
    simp only [tokenDepthList]
    rcases List.mem_cons.1 ha with rfl | ha2
    · exact Nat.le_max_left _ _
    · exact le_trans (ih a ha2) (Nat.le_max_right _ _)

theorem tokenDepthList_exists : ∀ (l : List SignatureToken), l ≠ [] →
    ∃ a ∈ l, tokenDepthList l ≤ tokenDepth a := by
  intro l
  induction l with
  | nil => intro h; exact absurd rfl h
  | cons x xs ih =>
    intro _
    cases xs with
    | nil =>
      refine ⟨x, by simp, ?_⟩
      show Nat.max (tokenDepth x) (tokenDepthList []) ≤ tokenDepth x
      have h0 : tokenDepthList [] = 0 := rfl
      rw [h0]
      simp
    | cons y ys =>
      obtain ⟨a, ha, hle⟩ := ih (by simp)
      by_cases hc : tokenDepth x ≤ tokenDepthList (y :: ys)
      · refine ⟨a, List.mem_cons_of_mem x ha, ?_⟩
        show Nat.max (tokenDepth x) (tokenDepthList (y :: ys)) ≤ tokenDepth a
        exact Nat.max_le.mpr ⟨le_trans hc hle, hle⟩
      · refine ⟨x, by simp, ?_⟩
        show Nat.max (tokenDepth x) (tokenDepthList (y :: ys)) ≤ tokenDepth x
        exact Nat.max_le.mpr ⟨le_refl _, le_of_lt (Nat.lt_of_not_le hc)⟩

theorem sigRun_feed_all : ∀ (n : Nat),
    (∀ (t : SignatureToken) (dm : Nat) (b : TypeBuilder) (S' : List TypeBuilder) (rest : List Nat),
      sizeOf t ≤ n → wfTok t = true → TypeBuilder.is_saturated b = false →
      tokenDepth t + S'.length + 1 ≤ dm →
      sigRun dm 6 (b :: S') (encodeTok t ++ rest) = sigRun dm 6 (.saturated t :: b :: S') rest) ∧
    (∀ (args acc : List SignatureToken) (idx dm : Nat) (Sb : List TypeBuilder) (rest : List Nat),
      (∀ a ∈ args, sizeOf a ≤ n) → wfTokList args = true → args ≠ [] →
      (∀ a ∈ args, tokenDepth a + Sb.length + 1 ≤ dm) →
      sigRun dm 6 (.structInst idx (acc.length + args.length) acc :: Sb) (encodeTokList args ++ rest) =
        sigRun dm 6 (.saturated (.structInstantiation idx (acc ++ args)) :: Sb) rest) := by
  intro n
  induction n with
  | zero =>
    constructor
    · intro t dm b S' rest hsz _ _ _
      exact absurd hsz (by cases t <;> simp)
    · intro args acc idx dm Sb rest hsz _ hne _
      cases args with
      | nil => exact absurd rfl hne
      | cons a more => exact absurd (hsz a (by simp)) (by cases a <;> simp)
  | succ n ih =>
    have Hfeed : ∀ (t : SignatureToken) (dm : Nat) (b : TypeBuilder) (S' : List TypeBuilder) (rest : List Nat),
        sizeOf t ≤ n + 1 → wfTok t = true → TypeBuilder.is_saturated b = false →
        tokenDepth t + S'.length + 1 ≤ dm →
        sigRun dm 6 (b :: S') (encodeTok t ++ rest) = sigRun dm 6 (.saturated t :: b :: S') rest := by
      intro t dm b S' rest hsz hwf hb hdep
      have hdep1 : ¬dm < S'.length + 1 := by
        have := tokenDepth_pos t
        omega
      cases t
      all_goals rw [sigRun_step_read dm 6 b S' _ hb, if_neg hdep1, read_next_encode _ rest hwf]
      · rename_i u
        dsimp only
        have hszu : sizeOf u ≤ n := by
          have : sizeOf (SignatureToken.vector u) = 1 + sizeOf u := by simp
          omega
        have hwfu : wfTok u = true := by simpa [wfTok] using hwf
        have hdepu : tokenDepth u + (b :: S').length + 1 ≤ dm := by
          have hd : tokenDepth (SignatureToken.vector u) = 1 + tokenDepth u := by simp [tokenDepth]
          simp only [List.length_cons]
          omega
        rw [ih.1 u dm .vector (b :: S') rest hszu hwfu rfl hdepu]
        rw [sigRun_step_sat dm 6 u .vector (b :: S') rest]
        rw [if_neg (by
          simp only [List.length_cons]
          have hd : tokenDepth (SignatureToken.vector u) = 1 + tokenDepth u := by simp [tokenDepth]
          have := tokenDepth_pos u
          omega)]
        rfl
      · rename_i u
        dsimp only
        have hszu : sizeOf u ≤ n := by
          have : sizeOf (SignatureToken.reference u) = 1 + sizeOf u := by simp
          omega
        have hwfu : wfTok u = true := by simpa [wfTok] using hwf
        have hdepu : tokenDepth u + (b :: S').length + 1 ≤ dm := by
          have hd : tokenDepth (SignatureToken.reference u) = 1 + tokenDepth u := by simp [tokenDepth]
          simp only [List.length_cons]
          omega
        rw [ih.1 u dm .reference (b :: S') rest hszu hwfu rfl hdepu]
        rw [sigRun_step_sat dm 6 u .reference (b :: S') rest]
        rw [if_neg (by
          simp only [List.length_cons]
          have hd : tokenDepth (SignatureToken.reference u) = 1 + tokenDepth u := by simp [tokenDepth]
          have := tokenDepth_pos u
          omega)]
        rfl
      · rename_i u
        dsimp only
        have hszu : sizeOf u ≤ n := by
          have : sizeOf (SignatureToken.mutableReference u) = 1 + sizeOf u := by simp
          omega
        have hwfu : wfTok u = true := by simpa [wfTok] using hwf
        have hdepu : tokenDepth u + (b :: S').length + 1 ≤ dm := by
          have hd : tokenDepth (SignatureToken.mutableReference u) = 1 + tokenDepth u := by
            simp [tokenDepth]
          simp only [List.length_cons]
          omega
        rw [ih.1 u dm .mutableReference (b :: S') rest hszu hwfu rfl hdepu]
        rw [sigRun_step_sat dm 6 u .mutableReference (b :: S') rest]
        rw [if_neg (by
          simp only [List.length_cons]
          have hd : tokenDepth (SignatureToken.mutableReference u) = 1 + tokenDepth u := by
            simp [tokenDepth]
          have := tokenDepth_pos u
          omega)]
        rfl
      · rename_i idx args
        dsimp only
        have hw := hwf
        simp only [wfTok, Bool.and_eq_true, decide_eq_true_eq] at hw
        obtain ⟨⟨⟨hidx, hpos⟩, hlen⟩, hwl⟩ := hw
        have hne : args ≠ [] := List.ne_nil_of_length_pos hpos
        have hszs : ∀ a ∈ args, sizeOf a ≤ n := by
          intro a ha
          have h1 := List.sizeOf_lt_of_mem ha
          have h2 : sizeOf (SignatureToken.structInstantiation idx args) = 1 + sizeOf idx + sizeOf args := by
            simp
          omega
        have hdeps : ∀ a ∈ args, tokenDepth a + (b :: S').length + 1 ≤ dm := by
          intro a ha
          have h1 := tokenDepthList_le args a ha
          have h2 : tokenDepth (SignatureToken.structInstantiation idx args) = 1 + tokenDepthList args := by
            simp [tokenDepth]
          simp only [List.length_cons]
          omega
        have hmain := ih.2 args [] idx dm (b :: S') rest hszs hwl hne hdeps
        simp only [List.length_nil, Nat.zero_add, List.nil_append] at hmain
        exact hmain
    refine ⟨Hfeed, ?_⟩
    intro args
    induction args with
    | nil =>
      intro acc idx dm Sb rest _ _ hne _
      exact absurd rfl hne
    | cons a more ihargs =>
      intro acc idx dm Sb rest hsz hwfl hne hdep
      have hwfam : wfTok a = true ∧ wfTokList more = true := by
        simpa [wfTokList, Bool.and_eq_true] using hwfl
      have hdepa := hdep a (by simp)
      have henc : encodeTokList (a :: more) ++ rest = encodeTok a ++ (encodeTokList more ++ rest) := by
        simp [encodeTokList, List.append_assoc]
      rw [henc]
      rw [Hfeed a dm (.structInst idx (acc.length + (a :: more).length) acc) Sb
        (encodeTokList more ++ rest) (hsz a (by simp)) hwfam.1 rfl hdepa]
      rw [sigRun_step_sat dm 6 a (.structInst idx (acc.length + (a :: more).length) acc) Sb
        (encodeTokList more ++ rest)]
      rw [if_neg (by
        have := tokenDepth_pos a
        omega)]
      cases more with
      | nil =>
        have happ : TypeBuilder.apply (.structInst idx (acc.length + ([a] : List SignatureToken).length) acc) a =
            .ok (.saturated (.structInstantiation idx (acc ++ [a]))) := by
          simp only [TypeBuilder.apply, List.length_cons, List.length_nil, List.length_append]
          rw [if_pos (by omega)]
        rw [happ]
        dsimp only
        have hencnil : encodeTokList ([] : List SignatureToken) ++ rest = rest := by
          simp [encodeTokList]
        rw [hencnil]
      | cons a2 more2 =>
        have happ : TypeBuilder.apply
            (.structInst idx (acc.length + (a :: a2 :: more2 : List SignatureToken).length) acc) a =
            .ok (.structInst idx (acc.length + (a :: a2 :: more2 : List SignatureToken).length) (acc ++ [a])) := by
          simp only [TypeBuilder.apply, List.length_cons, List.length_append, List.length_nil]
          rw [if_neg (by omega)]
        rw [happ]
        dsimp only
        have harity : acc.length + (a :: a2 :: more2 : List SignatureToken).length =
            (acc ++ [a]).length + (a2 :: more2 : List SignatureToken).length := by
          simp only [List.length_cons, List.length_append, List.length_nil]
          omega
        rw [harity]
        rw [ihargs (acc ++ [a]) idx dm Sb rest (fun x hx => hsz x (by simp [hx]))
          hwfam.2 (by simp) (fun x hx => hdep x (by simp [hx]))]
        have hassoc : (acc ++ [a]) ++ (a2 :: more2) = acc ++ (a :: a2 :: more2) := by
          simp
        rw [hassoc]

theorem sigRun_fail_all : ∀ (n : Nat),
    (∀ (t : SignatureToken) (dm : Nat) (b : TypeBuilder) (S' : List TypeBuilder) (rest : List Nat),
      sizeOf t ≤ n → wfTok t = true → TypeBuilder.is_saturated b = false →
      1 ≤ dm → dm < tokenDepth t + S'.length + 1 →
      sigRun dm 6 (b :: S') (encodeTok t ++ rest) = .error (.malformed ("Maximum recursion depth reached"))) ∧
    (∀ (args acc : List SignatureToken) (idx dm : Nat) (Sb : List TypeBuilder) (rest : List Nat),
      (∀ a ∈ args, sizeOf a ≤ n) → wfTokList args = true → args ≠ [] → 1 ≤ dm →
      (∃ a ∈ args, dm < tokenDepth a + Sb.length + 1) →
      sigRun dm 6 (.structInst idx (acc.length + args.length) acc :: Sb) (encodeTokList args ++ rest) =
        .error (.malformed ("Maximum recursion depth reached"))) := by
  intro n
  induction n with
  | zero =>
    constructor
    · intro t dm b S' rest hsz _ _ _ _
      exact absurd hsz (by cases t <;> simp)
    · intro args acc idx dm Sb rest hsz _ hne _ _
      cases args with
      | nil => exact absurd rfl hne
      | cons a more => exact absurd (hsz a (by simp)) (by cases a <;> simp)
  | succ n ih =>
    have Hfail : ∀ (t : SignatureToken) (dm : Nat) (b : TypeBuilder) (S' : List TypeBuilder) (rest : List Nat),
        sizeOf t ≤ n + 1 → wfTok t = true → TypeBuilder.is_saturated b = false →
        1 ≤ dm → dm < tokenDepth t + S'.length + 1 →
        sigRun dm 6 (b :: S') (encodeTok t ++ rest) = .error (.malformed ("Maximum recursion depth reached")) := by
      intro t dm b S' rest hsz hwf hb hdm hdep
      by_cases hd1 : dm < S'.length + 1
      · rw [sigRun_step_read dm 6 b S' _ hb, if_pos hd1]
      · cases t
        all_goals rw [sigRun_step_read dm 6 b S' _ hb, if_neg hd1, read_next_encode _ rest hwf]
        all_goals try (dsimp only; rw [sigRun_step_sat]; rw [if_pos (by
          simp only [tokenDepth] at hdep
          omega)])
        · rename_i u
          dsimp only
          have hszu : sizeOf u ≤ n := by
            have : sizeOf (SignatureToken.vector u) = 1 + sizeOf u := by simp
            omega
          have hwfu : wfTok u = true := by simpa [wfTok] using hwf
          refine ih.1 u dm .vector (b :: S') rest hszu hwfu rfl hdm ?_
          have hd : tokenDepth (SignatureToken.vector u) = 1 + tokenDepth u := by simp [tokenDepth]
          simp only [List.length_cons]
          omega
        · rename_i u
          dsimp only
          have hszu : sizeOf u ≤ n := by
            have : sizeOf (SignatureToken.reference u) = 1 + sizeOf u := by simp
            omega
          have hwfu : wfTok u = true := by simpa [wfTok] using hwf
          refine ih.1 u dm .reference (b :: S') rest hszu hwfu rfl hdm ?_
          have hd : tokenDepth (SignatureToken.reference u) = 1 + tokenDepth u := by simp [tokenDepth]
          simp only [List.length_cons]
          omega
        · rename_i u
          dsimp only
          have hszu : sizeOf u ≤ n := by
            have : sizeOf (SignatureToken.mutableReference u) = 1 + sizeOf u := by simp
            omega
          have hwfu : wfTok u = true := by simpa [wfTok] using hwf
          refine ih.1 u dm .mutableReference (b :: S') rest hszu hwfu rfl hdm ?_
          have hd : tokenDepth (SignatureToken.mutableReference u) = 1 + tokenDepth u := by
            simp [tokenDepth]
          simp only [List.length_cons]
          omega
        · rename_i idx args
          dsimp only
          have hw := hwf
          simp only [wfTok, Bool.and_eq_true, decide_eq_true_eq] at hw
          obtain ⟨⟨⟨hidx, hpos⟩, hlen⟩, hwl⟩ := hw
          have hne : args ≠ [] := List.ne_nil_of_length_pos hpos
          have hszs : ∀ a ∈ args, sizeOf a ≤ n := by
            intro a ha
            have h1 := List.sizeOf_lt_of_mem ha
            have h2 : sizeOf (SignatureToken.structInstantiation idx args) = 1 + sizeOf idx + sizeOf args := by
              simp
            omega
          have hex : ∃ a ∈ args, dm < tokenDepth a + (b :: S').length + 1 := by
            obtain ⟨a, ha, hle⟩ := tokenDepthList_exists args hne
            refine ⟨a, ha, ?_⟩
            have h2 : tokenDepth (SignatureToken.structInstantiation idx args) = 1 + tokenDepthList args := by
              simp [tokenDepth]
            simp only [List.length_cons]
            omega
          have hmain := ih.2 args [] idx dm (b :: S') rest hszs hwl hne hdm hex
          simp only [List.length_nil, Nat.zero_add] at hmain
          exact hmain
    refine ⟨Hfail, ?_⟩
    intro args
    induction args with
    | nil =>
      intro acc idx dm Sb rest _ _ hne _ _
      exact absurd rfl hne
    | cons a more ihargs =>
      intro acc idx dm Sb rest hsz hwfl hne hdm hex
      have hwfam : wfTok a = true ∧ wfTokList more = true := by
        simpa [wfTokList, Bool.and_eq_true] using hwfl
      have henc : encodeTokList (a :: more) ++ rest = encodeTok a ++ (encodeTokList more ++ rest) := by
        simp [encodeTokList, List.append_assoc]
      rw [henc]
      by_cases ha : dm < tokenDepth a + Sb.length + 1
      · exact Hfail a dm (.structInst idx (acc.length + (a :: more).length) acc) Sb
          (encodeTokList more ++ rest) (hsz a (by simp)) hwfam.1 rfl hdm ha
      · rw [(sigRun_feed_all (sizeOf a)).1 a dm
          (.structInst idx (acc.length + (a :: more).length) acc) Sb
          (encodeTokList more ++ rest) (le_refl _) hwfam.1 rfl (by omega)]
        rw [sigRun_step_sat dm 6 a (.structInst idx (acc.length + (a :: more).length) acc) Sb
          (encodeTokList more ++ rest)]
        rw [if_neg (by
          have := tokenDepth_pos a
          omega)]
        cases more with
        | nil =>
          exfalso
          obtain ⟨x, hx, hxd⟩ := hex
          rcases List.mem_cons.1 hx with rfl | hx2
          · exact ha hxd
          · simp at hx2
        | cons a2 more2 =>
          have happ : TypeBuilder.apply
              (.structInst idx (acc.length + (a :: a2 :: more2 : List SignatureToken).length) acc) a =
              .ok (.structInst idx (acc.length + (a :: a2 :: more2 : List SignatureToken).length) (acc ++ [a])) := by
            simp only [TypeBuilder.apply, List.length_cons, List.length_append, List.length_nil]
            rw [if_neg (by omega)]
          rw [happ]
          dsimp only
          have harity : acc.length + (a :: a2 :: more2 : List SignatureToken).length =
              (acc ++ [a]).length + (a2 :: more2 : List SignatureToken).length := by
            simp only [List.length_cons, List.length_append, List.length_nil]
            omega
          rw [harity]
          refine ihargs (acc ++ [a]) idx dm Sb rest (fun x hx => hsz x (by simp [hx]))
            hwfam.2 (by simp) hdm ?_
          obtain ⟨x, hx, hxd⟩ := hex
          rcases List.mem_cons.1 hx with rfl | hx2
          · exact absurd hxd ha
          · exact ⟨x, hx2, hxd⟩

/-- **C2.** The signature-token decoder enforces the nesting-depth guard:
for every positive configured maximum `dm` and every well-formed token
`t`, decoding the wire encoding of `t` succeeds and returns exactly
`t` (with the trailing bytes untouched) whenever the nesting depth of
`t` is at most `dm`, and fails with
`Malformed ("Maximum recursion depth reached")` whenever the nesting
depth of `t` exceeds `dm`. -/
theorem C2_depth_guard (dm : Nat) (t : SignatureToken) (rest : List Nat)
    (hdm : 1 ≤ dm) (hwf : wfTok t = true) :
    (tokenDepth t ≤ dm →
      load_signature_token_d dm 6 (encodeTok t ++ rest) = .ok (t, rest)) ∧
    (dm < tokenDepth t →
      load_signature_token_d dm 6 (encodeTok t ++ rest) =
        .error (.malformed ("Maximum recursion depth reached"))) := by
  unfold load_signature_token_d
  rw [read_next_encode t rest hwf]
  cases t with
  | bool =>
    exact ⟨fun _ => rfl, fun h2 => by simp [tokenDepth] at h2; omega⟩
  | u8 =>
    exact ⟨fun _ => rfl, fun h2 => by simp [tokenDepth] at h2; omega⟩
  | u16 =>
    exact ⟨fun _ => rfl, fun h2 => by simp [tokenDepth] at h2; omega⟩
  | u32 =>
    exact ⟨fun _ => rfl, fun h2 => by simp [tokenDepth] at h2; omega⟩
  | u64 =>
    exact ⟨fun _ => rfl, fun h2 => by simp [tokenDepth] at h2; omega⟩
  | u128 =>
    exact ⟨fun _ => rfl, fun h2 => by simp [tokenDepth] at h2; omega⟩
  | u256 =>
    exact ⟨fun _ => rfl, fun h2 => by simp [tokenDepth] at h2; omega⟩
  | address =>
    exact ⟨fun _ => rfl, fun h2 => by simp [tokenDepth] at h2; omega⟩
  | signer =>
    exact ⟨fun _ => rfl, fun h2 => by simp [tokenDepth] at h2; omega⟩
  | struct idx =>
    exact ⟨fun _ => rfl, fun h2 => by simp [tokenDepth] at h2; omega⟩
  | typeParameter idx =>
    exact ⟨fun _ => rfl, fun h2 => by simp [tokenDepth] at h2; omega⟩
  | vector u =>
    dsimp only
    have hwfu : wfTok u = true := by simpa [wfTok] using hwf
    have hdv : tokenDepth (SignatureToken.vector u) = 1 + tokenDepth u := by
      simp [tokenDepth]
    rw [sigLoopAux_eq_sigRun dm 6 (2 * (encodeTok u ++ rest).length + 2) [.vector]
      (encodeTok u ++ rest) (by simp only [List.length_cons, List.length_nil]; omega)]
    constructor
    · intro h1
      rw [(sigRun_feed_all (sizeOf u)).1 u dm .vector [] rest (le_refl _) hwfu rfl
        (by have := tokenDepth_pos u; simp only [List.length_nil]; omega)]
      rw [sigRun_step_sat dm 6 u .vector [] rest]
      rw [if_neg (by
        have := tokenDepth_pos u
        simp only [List.length_nil]
        omega)]
      have happ : TypeBuilder.apply TypeBuilder.vector u =
          .ok (.saturated (.vector u)) := rfl
      rw [happ]
      dsimp only
      rw [sigRun_step_sat_nil dm 6 (.vector u) rest, if_neg (by omega)]
    · intro h2
      exact (sigRun_fail_all (sizeOf u)).1 u dm .vector [] rest (le_refl _) hwfu rfl hdm
        (by simp only [List.length_nil]; omega)
  | reference u =>
    dsimp only
    have hwfu : wfTok u = true := by simpa [wfTok] using hwf
    have hdv : tokenDepth (SignatureToken.reference u) = 1 + tokenDepth u := by
      simp [tokenDepth]
    rw [sigLoopAux_eq_sigRun dm 6 (2 * (encodeTok u ++ rest).length + 2) [.reference]
      (encodeTok u ++ rest) (by simp only [List.length_cons, List.length_nil]; omega)]
    constructor
    · intro h1
      rw [(sigRun_feed_all (sizeOf u)).1 u dm .reference [] rest (le_refl _) hwfu rfl
        (by have := tokenDepth_pos u; simp only [List.length_nil]; omega)]
      rw [sigRun_step_sat dm 6 u .reference [] rest]
      rw [if_neg (by
        have := tokenDepth_pos u
        simp only [List.length_nil]
        omega)]
      have happ : TypeBuilder.apply TypeBuilder.reference u =
          .ok (.saturated (.reference u)) := rfl
      rw [happ]
      dsimp only
      rw [sigRun_step_sat_nil dm 6 (.reference u) rest, if_neg (by omega)]
    · intro h2
      exact (sigRun_fail_all (sizeOf u)).1 u dm .reference [] rest (le_refl _) hwfu rfl hdm
        (by simp only [List.length_nil]; omega)
  | mutableReference u =>
    dsimp only
    have hwfu : wfTok u = true := by simpa [wfTok] using hwf
    have hdv : tokenDepth (SignatureToken.mutableReference u) = 1 + tokenDepth u := by
      simp [tokenDepth]
    rw [sigLoopAux_eq_sigRun dm 6 (2 * (encodeTok u ++ rest).length + 2) [.mutableReference]
      (encodeTok u ++ rest) (by simp only [List.length_cons, List.length_nil]; omega)]
    constructor
    · intro h1
      rw [(sigRun_feed_all (sizeOf u)).1 u dm .mutableReference [] rest (le_refl _) hwfu rfl
        (by have := tokenDepth_pos u; simp only [List.length_nil]; omega)]
      rw [sigRun_step_sat dm 6 u .mutableReference [] rest]
      rw [if_neg (by
        have := tokenDepth_pos u
        simp only [List.length_nil]
        omega)]
      have happ : TypeBuilder.apply TypeBuilder.mutableReference u =
          .ok (.saturated (.mutableReference u)) := rfl
      rw [happ]
      dsimp only
      rw [sigRun_step_sat_nil dm 6 (.mutableReference u) rest, if_neg (by omega)]
    · intro h2
      exact (sigRun_fail_all (sizeOf u)).1 u dm .mutableReference [] rest (le_refl _) hwfu rfl
        hdm (by simp only [List.length_nil]; omega)
  | structInstantiation idx args =>
    dsimp only
    have hw := hwf
    simp only [wfTok, Bool.and_eq_true, decide_eq_true_eq] at hw
    obtain ⟨⟨⟨hidx, hpos⟩, hlen⟩, hwl⟩ := hw
    have hne : args ≠ [] := List.ne_nil_of_length_pos hpos
    have hdv : tokenDepth (SignatureToken.structInstantiation idx args) =
        1 + tokenDepthList args := by
      simp [tokenDepth]
    have hszs : ∀ a ∈ args, sizeOf a ≤ sizeOf args :=
      fun a ha => le_of_lt (List.sizeOf_lt_of_mem ha)
    rw [sigLoopAux_eq_sigRun dm 6 (2 * (encodeTokList args ++ rest).length + 2)
      [.structInst idx args.length []] (encodeTokList args ++ rest)
      (by simp only [List.length_cons, List.length_nil]; omega)]
    constructor
    · intro h1
      have hdeps : ∀ a ∈ args, tokenDepth a + ([] : List TypeBuilder).length + 1 ≤ dm := by
        intro a ha
        have := tokenDepthList_le args a ha
        simp only [List.length_nil]
        omega
      have hmain := (sigRun_feed_all (sizeOf args)).2 args [] idx dm [] rest hszs hwl hne hdeps
      simp only [List.length_nil, Nat.zero_add, List.nil_append] at hmain
      rw [hmain]
      rw [sigRun_step_sat_nil dm 6 (.structInstantiation idx args) rest, if_neg (by omega)]
    · intro h2
      have hex : ∃ a ∈ args, dm < tokenDepth a + ([] : List TypeBuilder).length + 1 := by
        obtain ⟨a, ha, hle⟩ := tokenDepthList_exists args hne
        exact ⟨a, ha, by simp only [List.length_nil]; omega⟩
      have hmain := (sigRun_fail_all (sizeOf args)).2 args [] idx dm [] rest hszs hwl hne hdm hex
      simp only [List.length_nil, Nat.zero_add] at hmain
      exact hmain

/-- Witness for C2: with depth maximum 2, `vector<bool>` (depth 2)
decodes to itself while `vector<vector<bool>>` (depth 3) is rejected
with the recursion-depth error. -/
theorem C2_witness :
    1 ≤ 2 ∧ wfTok (.vector .bool) = true ∧ tokenDepth (.vector .bool) ≤ 2 ∧
    load_signature_token_d 2 6 (encodeTok (.vector .bool) ++ []) =
      .ok (.vector .bool, []) ∧
    wfTok (.vector (.vector .bool)) = true ∧ 2 < tokenDepth (.vector (.vector .bool)) ∧
    load_signature_token_d 2 6 (encodeTok (.vector (.vector .bool)) ++ []) =
      .error (.malformed ("Maximum recursion depth reached")) :=
  ⟨by decide, rfl, by decide,
    (C2_depth_guard 2 (.vector .bool) [] (by decide) rfl).1 (by decide),
    rfl, by decide,
    (C2_depth_guard 2 (.vector (.vector .bool)) [] (by decide) rfl).2 (by decide)⟩

theorem error_noIV {α : Type} (e : DErr) (he : e ≠ .invariantViolation) :
    noIV (Except.error e : Except DErr α) :=
  fun h => he (Except.error.inj h)

theorem ok_noIV {α : Type} (a : α) : noIV (Except.ok a : Except DErr α) :=
  fun h => Except.noConfusion h

theorem pbind_noIV {α β : Type} (x : Except DErr (α × List Nat)) (f : α → List Nat → Except DErr β)
    (hx : noIV x) (hf : ∀ a r, x = .ok (a, r) → noIV (f a r)) : noIV (pbind x f) := by
  cases x with
  | error e =>
    intro hc
    have he : e = .invariantViolation := Except.error.inj hc
    exact hx (by rw [he])
  | ok p =>
    obtain ⟨a, r⟩ := p
    exact hf a r rfl

theorem read_uleb_internal_noIV (m : Nat) (i : List Nat) : noIV (read_uleb_internal m i) := by
  unfold read_uleb_internal
  cases h : ulebDecode i with
  | none => exact error_noIV _ (by intro hc; cases hc)
  | some p =>
    obtain ⟨x, r⟩ := p
    dsimp only
    split_ifs
    · exact error_noIV _ (by intro hc; cases hc)
    · exact ok_noIV _

theorem read_exact_some_mono (n : Nat) (i bs r : List Nat) (h : read_exact n i = some (bs, r)) :
    r.length ≤ i.length := by
  unfold read_exact at h
  split_ifs at h
  cases h
  simp only [List.length_drop]
  omega

theorem read_u16_internal_noIV (i : List Nat) : noIV (read_u16_internal i) := by
  unfold read_u16_internal
  cases h : read_exact 2 i with
  | none => exact error_noIV _ (by intro hc; cases hc)
  | some p =>
    obtain ⟨bs, r⟩ := p
    exact ok_noIV _

theorem read_u32_internal_noIV (i : List Nat) : noIV (read_u32_internal i) := by
  unfold read_u32_internal
  cases h : read_exact 4 i with
  | none => exact error_noIV _ (by intro hc; cases hc)
  | some p =>
    obtain ⟨bs, r⟩ := p
    exact ok_noIV _

theorem read_u64_internal_noIV (i : List Nat) : noIV (read_u64_internal i) := by
  unfold read_u64_internal
  cases h : read_exact 8 i with
  | none => exact error_noIV _ (by intro hc; cases hc)
  | some p =>
    obtain ⟨bs, r⟩ := p
    exact ok_noIV _

theorem read_u128_internal_noIV (i : List Nat) : noIV (read_u128_internal i) := by
  unfold read_u128_internal
  cases h : read_exact 16 i with
  | none => exact error_noIV _ (by intro hc; cases hc)
  | some p =>
    obtain ⟨bs, r⟩ := p
    exact ok_noIV _

theorem read_u256_internal_noIV (i : List Nat) : noIV (read_u256_internal i) := by
  unfold read_u256_internal
  cases h : read_exact 32 i with
  | none => exact error_noIV _ (by intro hc; cases hc)
  | some p =>
    obtain ⟨bs, r⟩ := p
    exact ok_noIV _

theorem read_u16_internal_mono (i : List Nat) (v : Nat) (r : List Nat)
    (h : read_u16_internal i = .ok (v, r)) : r.length ≤ i.length := by
  unfold read_u16_internal at h
  cases hx : read_exact 2 i with
  | none => rw [hx] at h; cases h
  | some p =>
    obtain ⟨bs, rr⟩ := p
    rw [hx] at h
    cases h
    exact read_exact_some_mono 2 i bs _ hx

theorem read_u32_internal_mono (i : List Nat) (v : Nat) (r : List Nat)
    (h : read_u32_internal i = .ok (v, r)) : r.length ≤ i.length := by
  unfold read_u32_internal at h
  cases hx : read_exact 4 i with
  | none => rw [hx] at h; cases h
  | some p =>
    obtain ⟨bs, rr⟩ := p
    rw [hx] at h
    cases h
    exact read_exact_some_mono 4 i bs _ hx

theorem read_u64_internal_mono (i : List Nat) (v : Nat) (r : List Nat)
    (h : read_u64_internal i = .ok (v, r)) : r.length ≤ i.length := by
  unfold read_u64_internal at h
  cases hx : read_exact 8 i with
  | none => rw [hx] at h; cases h
  | some p =>
    obtain ⟨bs, rr⟩ := p
    rw [hx] at h
    cases h
    exact read_exact_some_mono 8 i bs _ hx

theorem read_u128_internal_mono (i : List Nat) (v : Nat) (r : List Nat)
    (h : read_u128_internal i = .ok (v, r)) : r.length ≤ i.length := by
  unfold read_u128_internal at h
  cases hx : read_exact 16 i with
  | none => rw [hx] at h; cases h
  | some p =>
    obtain ⟨bs, rr⟩ := p
    rw [hx] at h
    cases h
    exact read_exact_some_mono 16 i bs _ hx

theorem read_u256_internal_mono (i : List Nat) (v : Nat) (r : List Nat)
    (h : read_u256_internal i = .ok (v, r)) : r.length ≤ i.length := by
  unfold read_u256_internal at h
  cases hx : read_exact 32 i with
  | none => rw [hx] at h; cases h
  | some p =>
    obtain ⟨bs, rr⟩ := p
    rw [hx] at h
    cases h
    exact read_exact_some_mono 32 i bs _ hx

theorem serialized_type_from_u8_noIV (b : Nat) : noIV (SerializedType.from_u8 b) := by
  unfold SerializedType.from_u8
  split
  all_goals first
    | exact ok_noIV _
    | exact error_noIV _ (by intro hc; cases hc)

theorem table_type_from_u8_noIV (b : Nat) : noIV (TableType.from_u8 b) := by
  unfold TableType.from_u8
  split
  all_goals first
    | exact ok_noIV _
    | exact error_noIV _ (by intro hc; cases hc)

theorem opcodes_from_u8_noIV (b : Nat) : noIV (Opcodes.from_u8 b) := by
  by_cases hb : b < 0x4E
  · interval_cases b <;> intro hc <;> cases hc
  · obtain ⟨n, rfl⟩ : ∃ n, b = n + 0x4E := ⟨b - 0x4E, by omega⟩
    intro hc
    cases hc

theorem dnrf_from_u8_noIV (b : Nat) : noIV (DeprecatedNominalResourceFlag.from_u8 b) := by
  unfold DeprecatedNominalResourceFlag.from_u8
  split
  all_goals first
    | exact ok_noIV _
    | exact error_noIV _ (by intro hc; cases hc)

theorem dk_from_u8_noIV (b : Nat) : noIV (DeprecatedKind.from_u8 b) := by
  unfold DeprecatedKind.from_u8
  split
  all_goals first
    | exact ok_noIV _
    | exact error_noIV _ (by intro hc; cases hc)

theorem snsf_from_u8_noIV (b : Nat) : noIV (SerializedNativeStructFlag.from_u8 b) := by
  unfold SerializedNativeStructFlag.from_u8
  split
  all_goals first
    | exact ok_noIV _
    | exact error_noIV _ (by intro hc; cases hc)

theorem read_next_noIV (v : Nat) (i : List Nat) : noIV (read_next v i) := by
  unfold read_next
  cases i with
  | nil => exact error_noIV _ (by intro hc; cases hc)
  | cons byte rest =>
    dsimp only
    cases hf : SerializedType.from_u8 byte with
    | error e =>
      refine error_noIV _ ?_
      intro hc
      subst hc
      exact serialized_type_from_u8_noIV byte hf
    | ok s =>
      dsimp only
      split_ifs
      · exact error_noIV _ (by intro hc; cases hc)
      · cases s
        all_goals first
          | exact ok_noIV _
          | exact pbind_noIV _ _ (read_uleb_internal_noIV _ _) (fun a r _ => ok_noIV _)
          | exact pbind_noIV _ _ (read_uleb_internal_noIV _ _) (fun a r _ =>
              pbind_noIV _ _ (read_uleb_internal_noIV _ _) (fun a2 r2 _ => by
                split_ifs
                · exact error_noIV _ (by intro hcc; cases hcc)
                · exact ok_noIV _))

theorem apply_unsat_ok (b : TypeBuilder) (t : SignatureToken) (hb : b.is_saturated = false) :
    ∃ tb, TypeBuilder.apply b t = .ok tb := by
  cases b with
  | saturated tok => simp [TypeBuilder.is_saturated] at hb
  | vector => exact ⟨_, rfl⟩
  | reference => exact ⟨_, rfl⟩
  | mutableReference => exact ⟨_, rfl⟩
  | structInst idx arity args =>
    dsimp only [TypeBuilder.apply]
    split_ifs
    · exact ⟨_, rfl⟩
    · exact ⟨_, rfl⟩

theorem sigLoopAux_noIV_mono (dm v : Nat) : ∀ (fuel : Nat) (S : List TypeBuilder) (i : List Nat),
    S ≠ [] → (∀ b ∈ S.tail, TypeBuilder.is_saturated b = false) →
    2 * i.length + S.length ≤ fuel →
    noIV (sigLoopAux dm v fuel S i) ∧
    (∀ tok rest, sigLoopAux dm v fuel S i = .ok (tok, rest) → rest.length ≤ i.length) := by
  intro fuel
  induction fuel with
  | zero =>
    intro S i hne _ hfu
    cases S with
    | nil => exact absurd rfl hne
    | cons b S' => simp at hfu
  | succ fuel ih =>
    intro S i hne htail hfu
    by_cases hdm : dm < S.length
    · constructor
      · simp only [sigLoopAux]
        rw [if_pos hdm]
        exact error_noIV _ (by intro hc; cases hc)
      · intro tok rest h
        simp only [sigLoopAux] at h
        rw [if_pos hdm] at h
        cases h
    · cases S with
      | nil => exact absurd rfl hne
      | cons b S' =>
        have key : ∀ (b0 : TypeBuilder), TypeBuilder.is_saturated b0 = false →
            noIV (sigLoopAux dm v (fuel + 1) (b0 :: S') i) ∧
            (∀ tok rest, sigLoopAux dm v (fuel + 1) (b0 :: S') i = .ok (tok, rest) →
              rest.length ≤ i.length) := by
          intro b0 hb0
          have hstep : ∀ nb i2, read_next v i = .ok (nb, i2) →
              noIV (sigLoopAux dm v fuel (nb :: b0 :: S') i2) ∧
              (∀ tok rest, sigLoopAux dm v fuel (nb :: b0 :: S') i2 = .ok (tok, rest) →
                rest.length ≤ i2.length) := by
            intro nb i2 hr
            refine ih (nb :: b0 :: S') i2 (by simp) ?_ ?_
            · intro b2 hb2
              rcases List.mem_cons.1 hb2 with rfl | hb3
              · exact hb0
              · exact htail b2 hb3
            · have := read_next_consume v i nb i2 hr
              simp only [List.length_cons] at hfu ⊢
              omega
          simp only [sigLoopAux]
          rw [if_neg (by simp only [List.length_cons] at hdm ⊢; omega)]
          cases b0
          · simp [TypeBuilder.is_saturated] at hb0
          all_goals (
            dsimp only
            cases hr : read_next v i with
            | error e =>
              refine ⟨error_noIV _ ?_, fun tok rest h => by cases h⟩
              intro hc
              subst hc
              exact read_next_noIV v i hr
            | ok p =>
              obtain ⟨nb, i2⟩ := p
              dsimp only
              have hk := hstep nb i2 hr
              exact ⟨hk.1, fun tok rest h =>
                le_trans (hk.2 tok rest h) (le_of_lt (read_next_consume v i nb i2 hr))⟩)
        by_cases hb : b.is_saturated = true
        · cases b with
          | saturated tok =>
            simp only [sigLoopAux]
            rw [if_neg hdm]
            cases S' with
            | nil =>
              dsimp only
              exact ⟨ok_noIV _, fun tok2 rest h => by cases h; exact le_refl _⟩
            | cons t S2 =>
              dsimp only
              have ht : t.is_saturated = false := htail t (by simp)
              obtain ⟨tb, htb⟩ := apply_unsat_ok t tok ht
              rw [htb]
              dsimp only
              refine ih (tb :: S2) i (by simp) ?_ ?_
              · intro b2 hb2
                exact htail b2 (List.mem_cons_of_mem t hb2)
              · simp only [List.length_cons] at hfu ⊢
                omega
          | vector => simp [TypeBuilder.is_saturated] at hb
          | reference => simp [TypeBuilder.is_saturated] at hb
          | mutableReference => simp [TypeBuilder.is_saturated] at hb
          | structInst a1 a2 a3 => simp [TypeBuilder.is_saturated] at hb
        · exact key b (eq_false_of_ne_true hb)

theorem load_signature_token_d_noIV (dm v : Nat) (i : List Nat) : noIV (load_signature_token_d dm v i) := by
  unfold load_signature_token_d
  cases hr : read_next v i with
  | error e =>
    dsimp only
    refine error_noIV _ ?_
    intro hc
    subst hc
    exact read_next_noIV v i hr
  | ok p =>
    obtain ⟨b, rest⟩ := p
    cases b
    · exact ok_noIV _
    · exact (sigLoopAux_noIV_mono dm v (2 * rest.length + 2) [.vector] rest (by simp)
        (by intro b2 hb2; simp at hb2)
        (by simp only [List.length_cons, List.length_nil]; omega)).1
    · exact (sigLoopAux_noIV_mono dm v (2 * rest.length + 2) [.reference] rest (by simp)
        (by intro b2 hb2; simp at hb2)
        (by simp only [List.length_cons, List.length_nil]; omega)).1
    · exact (sigLoopAux_noIV_mono dm v (2 * rest.length + 2) [.mutableReference] rest (by simp)
        (by intro b2 hb2; simp at hb2)
        (by simp only [List.length_cons, List.length_nil]; omega)).1
    · rename_i idx ar args
      exact (sigLoopAux_noIV_mono dm v (2 * rest.length + 2) [.structInst idx ar args] rest (by simp)
        (by intro b2 hb2; simp at hb2)
        (by simp only [List.length_cons, List.length_nil]; omega)).1

theorem load_signature_token_d_consume (dm v : Nat) (i : List Nat) (t : SignatureToken) (r : List Nat)
    (h : load_signature_token_d dm v i = .ok (t, r)) : r.length < i.length := by
  unfold load_signature_token_d at h
  cases hr : read_next v i with
  | error e => rw [hr] at h; cases h
  | ok p =>
    obtain ⟨b, rest⟩ := p
    rw [hr] at h
    have hlen := read_next_consume v i b rest hr
    cases b
    · dsimp only at h
      cases h
      exact hlen
    · dsimp only at h
      have hm := (sigLoopAux_noIV_mono dm v (2 * rest.length + 2) [.vector] rest (by simp)
        (by intro b2 hb2; simp at hb2)
        (by simp only [List.length_cons, List.length_nil]; omega)).2 t r h
      omega
    · dsimp only at h
      have hm := (sigLoopAux_noIV_mono dm v (2 * rest.length + 2) [.reference] rest (by simp)
        (by intro b2 hb2; simp at hb2)
        (by simp only [List.length_cons, List.length_nil]; omega)).2 t r h
      omega
    · dsimp only at h
      have hm := (sigLoopAux_noIV_mono dm v (2 * rest.length + 2) [.mutableReference] rest (by simp)
        (by intro b2 hb2; simp at hb2)
        (by simp only [List.length_cons, List.length_nil]; omega)).2 t r h
      omega
    · rename_i idx ar args
      dsimp only at h
      have hm := (sigLoopAux_noIV_mono dm v (2 * rest.length + 2) [.structInst idx ar args] rest (by simp)
        (by intro b2 hb2; simp at hb2)
        (by simp only [List.length_cons, List.length_nil]; omega)).2 t r h
      omega

theorem load_signature_token_noIV (v : Nat) (i : List Nat) : noIV (load_signature_token v i) :=
  load_signature_token_d_noIV SIGNATURE_TOKEN_DEPTH_MAX v i

theorem load_signature_token_consume (v : Nat) (i : List Nat) (t : SignatureToken) (r : List Nat)
    (h : load_signature_token v i = .ok (t, r)) : r.length < i.length :=
  load_signature_token_d_consume SIGNATURE_TOKEN_DEPTH_MAX v i t r h

theorem load_ability_set_noIV (v : Nat) (pos : AbilitySetPosition) (i : List Nat) :
    noIV (load_ability_set v pos i) := by
  unfold load_ability_set
  split_ifs
  · cases i with
    | nil => exact error_noIV _ (by intro hc; cases hc)
    | cons byte rest =>
      dsimp only
      cases pos with
      | StructHandle =>
        cases hf : DeprecatedNominalResourceFlag.from_u8 byte with
        | error e =>
          refine error_noIV _ ?_
          intro hc
          subst hc
          exact dnrf_from_u8_noIV byte hf
        | ok k =>
          cases k
          · exact ok_noIV _
          · exact ok_noIV _
      | FunctionTypeParameters =>
        cases hf : DeprecatedKind.from_u8 byte with
        | error e =>
          refine error_noIV _ ?_
          intro hc
          subst hc
          exact dk_from_u8_noIV byte hf
        | ok k => exact ok_noIV _
      | StructTypeParameters =>
        cases hf : DeprecatedKind.from_u8 byte with
        | error e =>
          refine error_noIV _ ?_
          intro hc
          subst hc
          exact dk_from_u8_noIV byte hf
        | ok k => exact ok_noIV _
  · refine pbind_noIV _ _ (read_uleb_internal_noIV _ _) (fun u r _ => ?_)
    cases AbilitySet.from_u8 u with
    | none => exact error_noIV _ (by intro hc; cases hc)
    | some ab => exact ok_noIV _

theorem load_ability_set_consume (v : Nat) (pos : AbilitySetPosition) (i : List Nat)
    (a : AbilitySet) (r : List Nat)
    (h : load_ability_set v pos i = .ok (a, r)) : r.length < i.length := by
  unfold load_ability_set at h
  split_ifs at h
  · cases i with
    | nil => cases h
    | cons byte rest =>
      dsimp only at h
      cases pos
      · rcases hf : DeprecatedKind.from_u8 byte with e | k
        · rw [hf] at h
          cases h
        · rw [hf] at h
          dsimp only at h
          cases h
          simp
      · rcases hf : DeprecatedKind.from_u8 byte with e | k
        · rw [hf] at h
          cases h
        · rw [hf] at h
          dsimp only at h
          cases h
          simp
      · rcases hf : DeprecatedNominalResourceFlag.from_u8 byte with e | k
        · rw [hf] at h
          cases h
        · rw [hf] at h
          cases k
          · dsimp only at h
            cases h
            simp
          · dsimp only at h
            cases h
            simp
  · obtain ⟨u, r1, hu, h2⟩ := pbind_ok_inv h
    have hlt := read_uleb_internal_consume 0xF i u r1 hu
    rcases hab : AbilitySet.from_u8 u with _ | ab
    · rw [hab] at h2
      cases h2
    · rw [hab] at h2
      cases h2
      exact hlt

theorem load_ability_sets_n_noIV (v : Nat) (pos : AbilitySetPosition) : ∀ (n : Nat) (i : List Nat),
    noIV (load_ability_sets_n v pos n i) := by
  intro n
  induction n with
  | zero => intro i; exact ok_noIV _
  | succ n ih =>
    intro i
    refine pbind_noIV _ _ (load_ability_set_noIV v pos i) (fun k r _ => ?_)
    exact pbind_noIV _ _ (ih r) (fun ks r2 _ => ok_noIV _)

theorem load_ability_sets_n_mono (v : Nat) (pos : AbilitySetPosition) : ∀ (n : Nat) (i : List Nat)
    (xs : List AbilitySet) (r : List Nat),
    load_ability_sets_n v pos n i = .ok (xs, r) → r.length ≤ i.length := by
  intro n
  induction n with
  | zero =>
    intro i xs r h
    cases h
    exact le_refl _
  | succ n ih =>
    intro i xs r h
    obtain ⟨k, r1, hk, h2⟩ := pbind_ok_inv h
    obtain ⟨ks, r2, hks, h3⟩ := pbind_ok_inv h2
    cases h3
    have h4 := load_ability_set_consume v pos i k r1 hk
    have h5 := ih r1 ks _ hks
    omega

theorem load_ability_sets_noIV (v : Nat) (pos : AbilitySetPosition) (i : List Nat) :
    noIV (load_ability_sets v pos i) := by
  refine pbind_noIV _ _ (read_uleb_internal_noIV _ _) (fun len r _ => ?_)
  exact load_ability_sets_n_noIV v pos len r

theorem load_ability_sets_consume (v : Nat) (pos : AbilitySetPosition) (i : List Nat)
    (xs : List AbilitySet) (r : List Nat)
    (h : load_ability_sets v pos i = .ok (xs, r)) : r.length < i.length := by
  obtain ⟨len, r1, hlen, h2⟩ := pbind_ok_inv h
  have k1 := read_uleb_internal_consume TYPE_PARAMETER_COUNT_MAX i len r1 hlen
  have k2 := load_ability_sets_n_mono v pos len r1 xs r h2
  omega

theorem load_struct_type_parameter_noIV (v : Nat) (i : List Nat) :
    noIV (load_struct_type_parameter v i) := by
  refine pbind_noIV _ _ (load_ability_set_noIV v .StructTypeParameters i) (fun c r _ => ?_)
  split_ifs
  · exact ok_noIV _
  · exact pbind_noIV _ _ (read_uleb_internal_noIV _ _) (fun b r2 _ => ok_noIV _)

theorem load_struct_type_parameter_consume (v : Nat) (i : List Nat)
    (p : StructTypeParameter) (r : List Nat)
    (h : load_struct_type_parameter v i = .ok (p, r)) : r.length < i.length := by
  obtain ⟨c, r1, hc, h2⟩ := pbind_ok_inv h
  have k1 := load_ability_set_consume v .StructTypeParameters i c r1 hc
  split_ifs at h2
  · cases h2
    exact k1
  · obtain ⟨b, r2, hb, h3⟩ := pbind_ok_inv h2
    cases h3
    have k2 := read_uleb_internal_consume 1 r1 b _ hb
    omega

theorem load_struct_type_parameters_n_noIV (v : Nat) : ∀ (n : Nat) (i : List Nat),
    noIV (load_struct_type_parameters_n v n i) := by
  intro n
  induction n with
  | zero => intro i; exact ok_noIV _
  | succ n ih =>
    intro i
    refine pbind_noIV _ _ (load_struct_type_parameter_noIV v i) (fun p r _ => ?_)
    exact pbind_noIV _ _ (ih r) (fun ps r2 _ => ok_noIV _)

theorem load_struct_type_parameters_n_mono (v : Nat) : ∀ (n : Nat) (i : List Nat)
    (xs : List StructTypeParameter) (r : List Nat),
    load_struct_type_parameters_n v n i = .ok (xs, r) → r.length ≤ i.length := by
  intro n
  induction n with
  | zero =>
    intro i xs r h
    cases h
    exact le_refl _
  | succ n ih =>
    intro i xs r h
    obtain ⟨p, r1, hp, h2⟩ := pbind_ok_inv h
    obtain ⟨ps, r2, hps, h3⟩ := pbind_ok_inv h2
    cases h3
    have h4 := load_struct_type_parameter_consume v i p r1 hp
    have h5 := ih r1 ps _ hps
    omega

theorem load_struct_type_parameters_noIV (v : Nat) (i : List Nat) :
    noIV (load_struct_type_parameters v i) := by
  refine pbind_noIV _ _ (read_uleb_internal_noIV _ _) (fun len r _ => ?_)
  exact load_struct_type_parameters_n_noIV v len r

theorem load_struct_type_parameters_consume (v : Nat) (i : List Nat)
    (xs : List StructTypeParameter) (r : List Nat)
    (h : load_struct_type_parameters v i = .ok (xs, r)) : r.length < i.length := by
  obtain ⟨len, r1, hlen, h2⟩ := pbind_ok_inv h
  have k1 := read_uleb_internal_consume TYPE_PARAMETER_COUNT_MAX i len r1 hlen
  have k2 := load_struct_type_parameters_n_mono v len r1 xs r h2
  omega

theorem load_byte_blob_noIV (sl : List Nat → Except DErr (Nat × List Nat))
    (hsl : ∀ j, noIV (sl j)) (i : List Nat) : noIV (load_byte_blob sl i) := by
  refine pbind_noIV _ _ (hsl i) (fun size r _ => ?_)
  dsimp only
  split_ifs
  · exact error_noIV _ (by intro hc; cases hc)
  · exact ok_noIV _

theorem load_byte_blob_consume (sl : List Nat → Except DErr (Nat × List Nat))
    (hsl : ∀ j n r, sl j = .ok (n, r) → r.length < j.length)
    (i : List Nat) (d : List Nat) (r : List Nat)
    (h : load_byte_blob sl i = .ok (d, r)) : r.length < i.length := by
  obtain ⟨size, r1, hs, h2⟩ := pbind_ok_inv h
  have h3 := hsl i size r1 hs
  dsimp only at h2
  split_ifs at h2
  cases h2
  simp only [List.length_drop]
  omega

theorem load_constant_noIV (v : Nat) (i : List Nat) : noIV (load_constant v i) := by
  refine pbind_noIV _ _ (load_signature_token_noIV v i) (fun t r _ => ?_)
  refine pbind_noIV _ _ (load_byte_blob_noIV _ (fun j => read_uleb_internal_noIV _ j) r)
    (fun d r2 _ => ?_)
  exact ok_noIV _

theorem load_constant_consume (v : Nat) (i : List Nat) (c : Constant) (r : List Nat)
    (h : load_constant v i = .ok (c, r)) : r.length < i.length := by
  obtain ⟨t, r1, ht, h2⟩ := pbind_ok_inv h
  obtain ⟨d, r2, hd, h3⟩ := pbind_ok_inv h2
  cases h3
  have k1 := load_signature_token_consume v i t r1 ht
  have k2 := load_byte_blob_consume _ (fun j n rr hh => read_uleb_internal_consume _ j n rr hh)
    r1 d _ hd
  omega

theorem load_metadata_entry_noIV (i : List Nat) : noIV (load_metadata_entry i) := by
  refine pbind_noIV _ _ (load_byte_blob_noIV _ (fun j => read_uleb_internal_noIV _ j) i)
    (fun k r _ => ?_)
  refine pbind_noIV _ _ (load_byte_blob_noIV _ (fun j => read_uleb_internal_noIV _ j) r)
    (fun val r2 _ => ?_)
  exact ok_noIV _

theorem load_metadata_entry_consume (i : List Nat) (m : Metadata) (r : List Nat)
    (h : load_metadata_entry i = .ok (m, r)) : r.length < i.length := by
  obtain ⟨k, r1, hk, h2⟩ := pbind_ok_inv h
  obtain ⟨val, r2, hv, h3⟩ := pbind_ok_inv h2
  cases h3
  have k1 := load_byte_blob_consume _ (fun j n rr hh => read_uleb_internal_consume _ j n rr hh)
    i k r1 hk
  have k2 := load_byte_blob_consume _ (fun j n rr hh => read_uleb_internal_consume _ j n rr hh)
    r1 val _ hv
  omega

theorem load_signature_tokens_n_noIV (v : Nat) : ∀ (n : Nat) (i : List Nat),
    noIV (load_signature_tokens_n v n i) := by
  intro n
  induction n with
  | zero => intro i; exact ok_noIV _
  | succ n ih =>
    intro i
    refine pbind_noIV _ _ (load_signature_token_noIV v i) (fun t r _ => ?_)
    exact pbind_noIV _ _ (ih r) (fun ts r2 _ => ok_noIV _)

theorem load_signature_tokens_n_mono (v : Nat) : ∀ (n : Nat) (i : List Nat)
    (xs : List SignatureToken) (r : List Nat),
    load_signature_tokens_n v n i = .ok (xs, r) → r.length ≤ i.length := by
  intro n
  induction n with
  | zero =>
    intro i xs r h
    cases h
    exact le_refl _
  | succ n ih =>
    intro i xs r h
    obtain ⟨t, r1, ht, h2⟩ := pbind_ok_inv h
    obtain ⟨ts, r2, hts, h3⟩ := pbind_ok_inv h2
    cases h3
    have h4 := load_signature_token_consume v i t r1 ht
    have h5 := ih r1 ts _ hts
    omega

theorem load_signature_tokens_noIV (v : Nat) (i : List Nat) : noIV (load_signature_tokens v i) := by
  refine pbind_noIV _ _ (read_uleb_internal_noIV _ _) (fun len r _ => ?_)
  exact load_signature_tokens_n_noIV v len r

theorem load_signature_tokens_consume (v : Nat) (i : List Nat)
    (xs : List SignatureToken) (r : List Nat)
    (h : load_signature_tokens v i = .ok (xs, r)) : r.length < i.length := by
  obtain ⟨len, r1, hlen, h2⟩ := pbind_ok_inv h
  have k1 := read_uleb_internal_consume SIGNATURE_SIZE_MAX i len r1 hlen
  have k2 := load_signature_tokens_n_mono v len r1 xs r h2
  omega

theorem load_field_def_noIV (v : Nat) (i : List Nat) : noIV (load_field_def v i) := by
  refine pbind_noIV _ _ (read_uleb_internal_noIV _ _) (fun name r _ => ?_)
  refine pbind_noIV _ _ (load_signature_token_noIV v r) (fun t r2 _ => ?_)
  exact ok_noIV _

theorem load_field_def_consume (v : Nat) (i : List Nat) (f : FieldDefinition) (r : List Nat)
    (h : load_field_def v i = .ok (f, r)) : r.length < i.length := by
  obtain ⟨name, r1, hn, h2⟩ := pbind_ok_inv h
  obtain ⟨t, r2, ht, h3⟩ := pbind_ok_inv h2
  cases h3
  have k1 := read_uleb_internal_consume IDENTIFIER_INDEX_MAX i name r1 hn
  have k2 := load_signature_token_consume v r1 t _ ht
  omega

theorem load_field_defs_n_noIV (v : Nat) : ∀ (n : Nat) (i : List Nat),
    noIV (load_field_defs_n v n i) := by
  intro n
  induction n with
  | zero => intro i; exact ok_noIV _
  | succ n ih =>
    intro i
    refine pbind_noIV _ _ (load_field_def_noIV v i) (fun f r _ => ?_)
    exact pbind_noIV _ _ (ih r) (fun fs r2 _ => ok_noIV _)

theorem load_field_defs_n_mono (v : Nat) : ∀ (n : Nat) (i : List Nat)
    (xs : List FieldDefinition) (r : List Nat),
    load_field_defs_n v n i = .ok (xs, r) → r.length ≤ i.length := by
  intro n
  induction n with
  | zero =>
    intro i xs r h
    cases h
    exact le_refl _
  | succ n ih =>
    intro i xs r h
    obtain ⟨f, r1, hf, h2⟩ := pbind_ok_inv h
    obtain ⟨fs, r2, hfs, h3⟩ := pbind_ok_inv h2
    cases h3
    have h4 := load_field_def_consume v i f r1 hf
    have h5 := ih r1 fs _ hfs
    omega

theorem load_field_defs_noIV (v : Nat) (i : List Nat) : noIV (load_field_defs v i) := by
  refine pbind_noIV _ _ (read_uleb_internal_noIV _ _) (fun len r _ => ?_)
  exact load_field_defs_n_noIV v len r

theorem load_field_defs_consume (v : Nat) (i : List Nat)
    (xs : List FieldDefinition) (r : List Nat)
    (h : load_field_defs v i = .ok (xs, r)) : r.length < i.length := by
  obtain ⟨len, r1, hlen, h2⟩ := pbind_ok_inv h
  have k1 := read_uleb_internal_consume FIELD_COUNT_MAX i len r1 hlen
  have k2 := load_field_defs_n_mono v len r1 xs r h2
  omega

theorem load_vis_entry_flags_noIV (v flags : Nat) (i : List Nat) :
    noIV (load_vis_entry_flags v flags i) := by
  unfold load_vis_entry_flags
  split_ifs
  all_goals first
    | exact ok_noIV _
    | (cases i with
        | nil => exact error_noIV _ (by intro hc; cases hc)
        | cons y rest => exact ok_noIV _)
    | (cases hv : Visibility.from_u8 flags with
        | none => exact error_noIV _ (by intro hc; cases hc)
        | some vis =>
          cases i with
          | nil => exact error_noIV _ (by intro hc; cases hc)
          | cons y rest =>
            dsimp only
            split_ifs
            · exact ok_noIV _
            · exact ok_noIV _)
    | (cases hv : Visibility.from_u8 flags with
        | none => exact error_noIV _ (by intro hc; cases hc)
        | some vis =>
          cases i with
          | nil => exact error_noIV _ (by intro hc; cases hc)
          | cons y rest => exact ok_noIV _)

theorem load_vis_entry_flags_mono (v flags : Nat) (i : List Nat)
    (x : Visibility × Bool × Nat) (r : List Nat)
    (h : load_vis_entry_flags v flags i = .ok (x, r)) : r.length ≤ i.length := by
  unfold load_vis_entry_flags at h
  by_cases h1 : v = VERSION_1
  · rw [if_pos h1] at h
    split_ifs at h
    · cases h
      exact le_refl _
    · cases h
      exact le_refl _
  · rw [if_neg h1] at h
    by_cases h2 : v < VERSION_5
    · rw [if_pos h2] at h
      split_ifs at h
      · cases i with
        | nil => cases h
        | cons y rest =>
          dsimp only at h
          cases h
          simp
      · rcases hv : Visibility.from_u8 flags with _ | vis
        · rw [hv] at h
          cases h
        · rw [hv] at h
          dsimp only at h
          cases i with
          | nil => cases h
          | cons y rest =>
            dsimp only at h
            cases h
            simp
    · rw [if_neg h2] at h
      rcases hv : Visibility.from_u8 flags with _ | vis
      · rw [hv] at h
        cases h
      · rw [hv] at h
        dsimp only at h
        cases i with
        | nil => cases h
        | cons y rest =>
          dsimp only at h
          split_ifs at h
          · cases h
            simp
          · cases h
            simp

theorem load_struct_definition_indices_n_noIV : ∀ (n : Nat) (i : List Nat),
    noIV (load_struct_definition_indices_n n i) := by
  intro n
  induction n with
  | zero => intro i; exact ok_noIV _
  | succ n ih =>
    intro i
    refine pbind_noIV _ _ (read_uleb_internal_noIV _ _) (fun idx r _ => ?_)
    exact pbind_noIV _ _ (ih r) (fun idxs r2 _ => ok_noIV _)

theorem load_struct_definition_indices_n_mono : ∀ (n : Nat) (i : List Nat)
    (xs : List Nat) (r : List Nat),
    load_struct_definition_indices_n n i = .ok (xs, r) → r.length ≤ i.length := by
  intro n
  induction n with
  | zero =>
    intro i xs r h
    cases h
    exact le_refl _
  | succ n ih =>
    intro i xs r h
    obtain ⟨idx, r1, hi, h2⟩ := pbind_ok_inv h
    obtain ⟨idxs, r2, hxs, h3⟩ := pbind_ok_inv h2
    cases h3
    have h4 := read_uleb_internal_consume STRUCT_DEF_INDEX_MAX i idx r1 hi
    have h5 := ih r1 idxs _ hxs
    omega

theorem load_struct_definition_indices_noIV (i : List Nat) :
    noIV (load_struct_definition_indices i) := by
  refine pbind_noIV _ _ (read_uleb_internal_noIV _ _) (fun len r _ => ?_)
  exact load_struct_definition_indices_n_noIV len r

theorem load_struct_definition_indices_consume (i : List Nat) (xs : List Nat) (r : List Nat)
    (h : load_struct_definition_indices i = .ok (xs, r)) : r.length < i.length := by
  obtain ⟨len, r1, hlen, h2⟩ := pbind_ok_inv h
  have k1 := read_uleb_internal_consume ACQUIRES_COUNT_MAX i len r1 hlen
  have k2 := load_struct_definition_indices_n_mono len r1 xs r h2
  omega

theorem load_instr_operands_noIV (op : Opcodes) (i : List Nat) :
    noIV (load_instr_operands op i) := by
  cases op
  all_goals first
    | exact ok_noIV _
    | exact pbind_noIV _ _ (read_uleb_internal_noIV _ _) (fun a r _ => ok_noIV _)
    | exact pbind_noIV _ _ (read_u16_internal_noIV _) (fun a r _ => ok_noIV _)
    | exact pbind_noIV _ _ (read_u32_internal_noIV _) (fun a r _ => ok_noIV _)
    | exact pbind_noIV _ _ (read_u64_internal_noIV _) (fun a r _ => ok_noIV _)
    | exact pbind_noIV _ _ (read_u128_internal_noIV _) (fun a r _ => ok_noIV _)
    | exact pbind_noIV _ _ (read_u256_internal_noIV _) (fun a r _ => ok_noIV _)
    | exact pbind_noIV _ _ (read_uleb_internal_noIV _ _) (fun a r _ =>
        pbind_noIV _ _ (read_u64_internal_noIV _) (fun a2 r2 _ => ok_noIV _))
    | (cases i with
        | nil => exact error_noIV _ (by intro hc; cases hc)
        | cons b rest => exact ok_noIV _)

theorem load_instr_operands_mono (op : Opcodes) (i : List Nat) (b : Bytecode) (r : List Nat)
    (h : load_instr_operands op i = .ok (b, r)) : r.length ≤ i.length := by
  cases op
  all_goals first
    | (cases h; exact le_refl _)
    | (obtain ⟨a, r1, ha, h2⟩ := pbind_ok_inv h
       cases h2
       exact le_of_lt (read_uleb_internal_consume _ i a _ ha))
    | (obtain ⟨a, r1, ha, h2⟩ := pbind_ok_inv h
       cases h2
       exact read_u16_internal_mono i a _ ha)
    | (obtain ⟨a, r1, ha, h2⟩ := pbind_ok_inv h
       cases h2
       exact read_u32_internal_mono i a _ ha)
    | (obtain ⟨a, r1, ha, h2⟩ := pbind_ok_inv h
       cases h2
       exact read_u64_internal_mono i a _ ha)
    | (obtain ⟨a, r1, ha, h2⟩ := pbind_ok_inv h
       cases h2
       exact read_u128_internal_mono i a _ ha)
    | (obtain ⟨a, r1, ha, h2⟩ := pbind_ok_inv h
       cases h2
       exact read_u256_internal_mono i a _ ha)
    | (obtain ⟨a, r1, ha, h2⟩ := pbind_ok_inv h
       obtain ⟨a2, r2, ha2, h3⟩ := pbind_ok_inv h2
       cases h3
       have k1 := read_uleb_internal_consume _ i a r1 ha
       have k2 := read_u64_internal_mono r1 a2 _ ha2
       omega)
    | (cases i with
        | nil => cases h
        | cons y rest =>
          cases h
          simp)

theorem load_one_instr_noIV (v : Nat) (i : List Nat) : noIV (load_one_instr v i) := by
  unfold load_one_instr
  cases i with
  | nil => exact error_noIV _ (by intro hc; cases hc)
  | cons byte rest =>
    dsimp only
    cases ho : Opcodes.from_u8 byte with
    | error e =>
      refine error_noIV _ ?_
      intro hc
      subst hc
      exact opcodes_from_u8_noIV byte ho
    | ok op =>
      dsimp only
      split_ifs
      · exact error_noIV _ (by intro hc; cases hc)
      · exact error_noIV _ (by intro hc; cases hc)
      · exact load_instr_operands_noIV op rest

theorem load_one_instr_consume (v : Nat) (i : List Nat) (b : Bytecode) (r : List Nat)
    (h : load_one_instr v i = .ok (b, r)) : r.length < i.length := by
  unfold load_one_instr at h
  cases i with
  | nil => cases h
  | cons byte rest =>
    dsimp only at h
    rcases ho : Opcodes.from_u8 byte with e | op
    · rw [ho] at h
      cases h
    · rw [ho] at h
      dsimp only at h
      split_ifs at h
      have := load_instr_operands_mono op rest b r h
      simp only [List.length_cons]
      omega

theorem load_code_n_noIV (v : Nat) : ∀ (n : Nat) (i : List Nat), noIV (load_code_n v n i) := by
  intro n
  induction n with
  | zero => intro i; exact ok_noIV _
  | succ n ih =>
    intro i
    refine pbind_noIV _ _ (load_one_instr_noIV v i) (fun ins r _ => ?_)
    exact pbind_noIV _ _ (ih r) (fun xs r2 _ => ok_noIV _)

theorem load_code_n_mono (v : Nat) : ∀ (n : Nat) (i : List Nat)
    (xs : List Bytecode) (r : List Nat),
    load_code_n v n i = .ok (xs, r) → r.length ≤ i.length := by
  intro n
  induction n with
  | zero =>
    intro i xs r h
    cases h
    exact le_refl _
  | succ n ih =>
    intro i xs r h
    obtain ⟨ins, r1, hi, h2⟩ := pbind_ok_inv h
    obtain ⟨xs2, r2, hx, h3⟩ := pbind_ok_inv h2
    cases h3
    have h4 := load_one_instr_consume v i ins r1 hi
    have h5 := ih r1 xs2 _ hx
    omega

theorem load_code_noIV (v : Nat) (i : List Nat) : noIV (load_code v i) := by
  refine pbind_noIV _ _ (read_uleb_internal_noIV _ _) (fun n r _ => ?_)
  exact load_code_n_noIV v n r

theorem load_code_consume (v : Nat) (i : List Nat) (xs : List Bytecode) (r : List Nat)
    (h : load_code v i = .ok (xs, r)) : r.length < i.length := by
  obtain ⟨n, r1, hn, h2⟩ := pbind_ok_inv h
  have k1 := read_uleb_internal_consume BYTECODE_COUNT_MAX i n r1 hn
  have k2 := load_code_n_mono v n r1 xs r h2
  omega

theorem load_code_unit_noIV (v : Nat) (i : List Nat) : noIV (load_code_unit v i) := by
  refine pbind_noIV _ _ (read_uleb_internal_noIV _ _) (fun locals r _ => ?_)
  refine pbind_noIV _ _ (load_code_noIV v r) (fun code r2 _ => ?_)
  exact ok_noIV _

theorem load_code_unit_consume (v : Nat) (i : List Nat) (cu : CodeUnit) (r : List Nat)
    (h : load_code_unit v i = .ok (cu, r)) : r.length < i.length := by
  obtain ⟨locals, r1, hl, h2⟩ := pbind_ok_inv h
  obtain ⟨code, r2, hc, h3⟩ := pbind_ok_inv h2
  cases h3
  have k1 := read_uleb_internal_consume SIGNATURE_INDEX_MAX i locals r1 hl
  have k2 := load_code_consume v r1 code _ hc
  omega

theorem load_function_def_noIV (v : Nat) (i : List Nat) : noIV (load_function_def v i) := by
  refine pbind_noIV _ _ (read_uleb_internal_noIV _ _) (fun fi r _ => ?_)
  cases r with
  | nil => exact error_noIV _ (by intro hc; cases hc)
  | cons flags rest2 =>
    dsimp only
    refine pbind_noIV _ _ (load_vis_entry_flags_noIV v flags rest2) (fun vef r3 _ => ?_)
    obtain ⟨vis, ie, ef⟩ := vef
    dsimp only
    refine pbind_noIV _ _ (load_struct_definition_indices_noIV r3) (fun acq r4 _ => ?_)
    split_ifs
    · exact error_noIV _ (by intro hc; cases hc)
    · exact ok_noIV _
    · exact pbind_noIV _ _ (load_code_unit_noIV v r4)
        (fun cu r5 _ => error_noIV _ (by intro hc; cases hc))
    · exact pbind_noIV _ _ (load_code_unit_noIV v r4) (fun cu r5 _ => ok_noIV _)

theorem load_function_def_consume (v : Nat) (i : List Nat) (d : FunctionDefinition) (r : List Nat)
    (h : load_function_def v i = .ok (d, r)) : r.length < i.length := by
  obtain ⟨fi, r1, hfi, h2⟩ := pbind_ok_inv h
  have k1 := read_uleb_internal_consume FUNCTION_HANDLE_INDEX_MAX i fi r1 hfi
  cases r1 with
  | nil => cases h2
  | cons flags rest2 =>
    dsimp only at h2
    obtain ⟨vef, r3, hv, h3⟩ := pbind_ok_inv h2
    obtain ⟨vis, ie, ef⟩ := vef
    have k2 := load_vis_entry_flags_mono v flags rest2 (vis, ie, ef) r3 hv
    dsimp only at h3
    obtain ⟨acq, r4, hacq, h4⟩ := pbind_ok_inv h3
    have k3 := load_struct_definition_indices_consume r3 acq r4 hacq
    simp only [List.length_cons] at k1
    split_ifs at h4
    · cases h4
      omega
    · obtain ⟨cu, r5, hcu, h5⟩ := pbind_ok_inv h4
      cases h5
    · obtain ⟨cu, r5, hcu, h5⟩ := pbind_ok_inv h4
      cases h5
      have k4 := load_code_unit_consume v r4 cu _ hcu
      omega

theorem load_module_handles_f_noIV : ∀ (fuel : Nat) (i : List Nat), i.length < fuel →
    noIV (load_module_handles_f fuel i) := by
  intro fuel
  induction fuel with
  | zero => intro i h; omega
  | succ fuel ih =>
    intro i h
    cases i with
    | nil => exact ok_noIV _
    | cons b rest =>
      refine pbind_noIV _ _ (read_uleb_internal_noIV _ _) (fun a r1 h1 => ?_)
      refine pbind_noIV _ _ (read_uleb_internal_noIV _ _) (fun a2 r2 h2 => ?_)
      have k1 := read_uleb_internal_consume ADDRESS_INDEX_MAX (b :: rest) a r1 h1
      have k2 := read_uleb_internal_consume IDENTIFIER_INDEX_MAX r1 a2 r2 h2
      cases hrec : load_module_handles_f fuel r2 with
      | error e =>
        refine error_noIV _ ?_
        intro hc
        subst hc
        exact (ih r2 (by simp only [List.length_cons] at h k1; omega)) hrec
      | ok xs => exact ok_noIV _

theorem load_struct_handles_f_noIV (v : Nat) : ∀ (fuel : Nat) (i : List Nat), i.length < fuel →
    noIV (load_struct_handles_f v fuel i) := by
  intro fuel
  induction fuel with
  | zero => intro i h; omega
  | succ fuel ih =>
    intro i h
    cases i with
    | nil => exact ok_noIV _
    | cons b rest =>
      refine pbind_noIV _ _ (read_uleb_internal_noIV _ _) (fun a r1 h1 => ?_)
      refine pbind_noIV _ _ (read_uleb_internal_noIV _ _) (fun a2 r2 h2 => ?_)
      refine pbind_noIV _ _ (load_ability_set_noIV v .StructHandle r2) (fun ab r3 h3 => ?_)
      refine pbind_noIV _ _ (load_struct_type_parameters_noIV v r3) (fun tp r4 h4 => ?_)
      have k1 := read_uleb_internal_consume MODULE_HANDLE_INDEX_MAX (b :: rest) a r1 h1
      have k2 := read_uleb_internal_consume IDENTIFIER_INDEX_MAX r1 a2 r2 h2
      have k3 := load_ability_set_consume v .StructHandle r2 ab r3 h3
      have k4 := load_struct_type_parameters_consume v r3 tp r4 h4
      cases hrec : load_struct_handles_f v fuel r4 with
      | error e =>
        refine error_noIV _ ?_
        intro hc
        subst hc
        exact (ih r4 (by simp only [List.length_cons] at h k1; omega)) hrec
      | ok xs => exact ok_noIV _

theorem load_function_handles_f_noIV (v : Nat) : ∀ (fuel : Nat) (i : List Nat), i.length < fuel →
    noIV (load_function_handles_f v fuel i) := by
  intro fuel
  induction fuel with
  | zero => intro i h; omega
  | succ fuel ih =>
    intro i h
    cases i with
    | nil => exact ok_noIV _
    | cons b rest =>
      refine pbind_noIV _ _ (read_uleb_internal_noIV _ _) (fun a r1 h1 => ?_)
      refine pbind_noIV _ _ (read_uleb_internal_noIV _ _) (fun a2 r2 h2 => ?_)
      refine pbind_noIV _ _ (read_uleb_internal_noIV _ _) (fun a3 r3 h3 => ?_)
      refine pbind_noIV _ _ (read_uleb_internal_noIV _ _) (fun a4 r4 h4 => ?_)
      refine pbind_noIV _ _ (load_ability_sets_noIV v .FunctionTypeParameters r4) (fun tp r5 h5 => ?_)
      have k1 := read_uleb_internal_consume MODULE_HANDLE_INDEX_MAX (b :: rest) a r1 h1
      have k2 := read_uleb_internal_consume IDENTIFIER_INDEX_MAX r1 a2 r2 h2
      have k3 := read_uleb_internal_consume SIGNATURE_INDEX_MAX r2 a3 r3 h3
      have k4 := read_uleb_internal_consume SIGNATURE_INDEX_MAX r3 a4 r4 h4
      have k5 := load_ability_sets_consume v .FunctionTypeParameters r4 tp r5 h5
      cases hrec : load_function_handles_f v fuel r5 with
      | error e =>
        refine error_noIV _ ?_
        intro hc
        subst hc
        exact (ih r5 (by simp only [List.length_cons] at h k1; omega)) hrec
      | ok xs => exact ok_noIV _

theorem load_struct_instantiations_f_noIV : ∀ (fuel : Nat) (i : List Nat), i.length < fuel →
    noIV (load_struct_instantiations_f fuel i) := by
  intro fuel
  induction fuel with
  | zero => intro i h; omega
  | succ fuel ih =>
    intro i h
    cases i with
    | nil => exact ok_noIV _
    | cons b rest =>
      refine pbind_noIV _ _ (read_uleb_internal_noIV _ _) (fun a r1 h1 => ?_)
      refine pbind_noIV _ _ (read_uleb_internal_noIV _ _) (fun a2 r2 h2 => ?_)
      have k1 := read_uleb_internal_consume STRUCT_DEF_INDEX_MAX (b :: rest) a r1 h1
      have k2 := read_uleb_internal_consume SIGNATURE_INDEX_MAX r1 a2 r2 h2
      cases hrec : load_struct_instantiations_f fuel r2 with
      | error e =>
        refine error_noIV _ ?_
        intro hc
        subst hc
        exact (ih r2 (by simp only [List.length_cons] at h k1; omega)) hrec
      | ok xs => exact ok_noIV _

theorem load_function_instantiations_f_noIV : ∀ (fuel : Nat) (i : List Nat), i.length < fuel →
    noIV (load_function_instantiations_f fuel i) := by
  intro fuel
  induction fuel with
  | zero => intro i h; omega
  | succ fuel ih =>
    intro i h
    cases i with
    | nil => exact ok_noIV _
    | cons b rest =>
      refine pbind_noIV _ _ (read_uleb_internal_noIV _ _) (fun a r1 h1 => ?_)
      refine pbind_noIV _ _ (read_uleb_internal_noIV _ _) (fun a2 r2 h2 => ?_)
      have k1 := read_uleb_internal_consume FUNCTION_HANDLE_INDEX_MAX (b :: rest) a r1 h1
      have k2 := read_uleb_internal_consume SIGNATURE_INDEX_MAX r1 a2 r2 h2
      cases hrec : load_function_instantiations_f fuel r2 with
      | error e =>
        refine error_noIV _ ?_
        intro hc
        subst hc
        exact (ih r2 (by simp only [List.length_cons] at h k1; omega)) hrec
      | ok xs => exact ok_noIV _

theorem load_field_handles_f_noIV : ∀ (fuel : Nat) (i : List Nat), i.length < fuel →
    noIV (load_field_handles_f fuel i) := by
  intro fuel
  induction fuel with
  | zero => intro i h; omega
  | succ fuel ih =>
    intro i h
    cases i with
    | nil => exact ok_noIV _
    | cons b rest =>
      refine pbind_noIV _ _ (read_uleb_internal_noIV _ _) (fun a r1 h1 => ?_)
      refine pbind_noIV _ _ (read_uleb_internal_noIV _ _) (fun a2 r2 h2 => ?_)
      have k1 := read_uleb_internal_consume STRUCT_DEF_INDEX_MAX (b :: rest) a r1 h1
      have k2 := read_uleb_internal_consume FIELD_OFFSET_MAX r1 a2 r2 h2
      cases hrec : load_field_handles_f fuel r2 with
      | error e =>
        refine error_noIV _ ?_
        intro hc
        subst hc
        exact (ih r2 (by simp only [List.length_cons] at h k1; omega)) hrec
      | ok xs => exact ok_noIV _

theorem load_field_instantiations_f_noIV : ∀ (fuel : Nat) (i : List Nat), i.length < fuel →
    noIV (load_field_instantiations_f fuel i) := by
  intro fuel
  induction fuel with
  | zero => intro i h; omega
  | succ fuel ih =>
    intro i h
    cases i with
    | nil => exact ok_noIV _
    | cons b rest =>
      refine pbind_noIV _ _ (read_uleb_internal_noIV _ _) (fun a r1 h1 => ?_)
      refine pbind_noIV _ _ (read_uleb_internal_noIV _ _) (fun a2 r2 h2 => ?_)
      have k1 := read_uleb_internal_consume FIELD_HANDLE_INDEX_MAX (b :: rest) a r1 h1
      have k2 := read_uleb_internal_consume SIGNATURE_INDEX_MAX r1 a2 r2 h2
      cases hrec : load_field_instantiations_f fuel r2 with
      | error e =>
        refine error_noIV _ ?_
        intro hc
        subst hc
        exact (ih r2 (by simp only [List.length_cons] at h k1; omega)) hrec
      | ok xs => exact ok_noIV _

theorem load_identifiers_f_noIV : ∀ (fuel : Nat) (i : List Nat), i.length < fuel →
    noIV (load_identifiers_f fuel i) := by
  intro fuel
  induction fuel with
  | zero => intro i h; omega
  | succ fuel ih =>
    intro i h
    cases i with
    | nil => exact ok_noIV _
    | cons b rest =>
      refine pbind_noIV _ _ (read_uleb_internal_noIV _ _) (fun size r1 h1 => ?_)
      have k1 := read_uleb_internal_consume IDENTIFIER_SIZE_MAX (b :: rest) size r1 h1
      dsimp only
      split_ifs
      · exact error_noIV _ (by intro hc; cases hc)
      · cases hrec : load_identifiers_f fuel (r1.drop size) with
        | error e =>
          refine error_noIV _ ?_
          intro hc
          subst hc
          refine (ih (r1.drop size) ?_) hrec
          simp only [List.length_drop]
          simp only [List.length_cons] at h k1
          omega
        | ok xs => exact ok_noIV _
      · exact error_noIV _ (by intro hc; cases hc)

theorem load_constant_pool_f_noIV (v : Nat) : ∀ (fuel : Nat) (i : List Nat), i.length < fuel →
    noIV (load_constant_pool_f v fuel i) := by
  intro fuel
  induction fuel with
  | zero => intro i h; omega
  | succ fuel ih =>
    intro i h
    cases i with
    | nil => exact ok_noIV _
    | cons b rest =>
      refine pbind_noIV _ _ (load_constant_noIV v (b :: rest)) (fun c r1 h1 => ?_)
      have k1 := load_constant_consume v (b :: rest) c r1 h1
      cases hrec : load_constant_pool_f v fuel r1 with
      | error e =>
        refine error_noIV _ ?_
        intro hc
        subst hc
        exact (ih r1 (by simp only [List.length_cons] at h k1; omega)) hrec
      | ok xs => exact ok_noIV _

theorem load_metadata_f_noIV : ∀ (fuel : Nat) (i : List Nat), i.length < fuel →
    noIV (load_metadata_f fuel i) := by
  intro fuel
  induction fuel with
  | zero => intro i h; omega
  | succ fuel ih =>
    intro i h
    cases i with
    | nil => exact ok_noIV _
    | cons b rest =>
      refine pbind_noIV _ _ (load_metadata_entry_noIV (b :: rest)) (fun m r1 h1 => ?_)
      have k1 := load_metadata_entry_consume (b :: rest) m r1 h1
      cases hrec : load_metadata_f fuel r1 with
      | error e =>
        refine error_noIV _ ?_
        intro hc
        subst hc
        exact (ih r1 (by simp only [List.length_cons] at h k1; omega)) hrec
      | ok xs => exact ok_noIV _

theorem load_signatures_f_noIV (v : Nat) : ∀ (fuel : Nat) (i : List Nat), i.length < fuel →
    noIV (load_signatures_f v fuel i) := by
  intro fuel
  induction fuel with
  | zero => intro i h; omega
  | succ fuel ih =>
    intro i h
    cases i with
    | nil => exact ok_noIV _
    | cons b rest =>
      refine pbind_noIV _ _ (load_signature_tokens_noIV v (b :: rest)) (fun sg r1 h1 => ?_)
      have k1 := load_signature_tokens_consume v (b :: rest) sg r1 h1
      cases hrec : load_signatures_f v fuel r1 with
      | error e =>
        refine error_noIV _ ?_
        intro hc
        subst hc
        exact (ih r1 (by simp only [List.length_cons] at h k1; omega)) hrec
      | ok xs => exact ok_noIV _

theorem load_struct_defs_f_noIV (v : Nat) : ∀ (fuel : Nat) (i : List Nat), i.length < fuel →
    noIV (load_struct_defs_f v fuel i) := by
  intro fuel
  induction fuel with
  | zero => intro i h; omega
  | succ fuel ih =>
    intro i h
    cases i with
    | nil => exact ok_noIV _
    | cons b rest =>
      refine pbind_noIV _ _ (read_uleb_internal_noIV _ _) (fun sh r1 h1 => ?_)
      have k1 := read_uleb_internal_consume STRUCT_HANDLE_INDEX_MAX (b :: rest) sh r1 h1
      cases r1 with
      | nil => exact error_noIV _ (by intro hc; cases hc)
      | cons byte rest2 =>
        dsimp only
        cases hf : SerializedNativeStructFlag.from_u8 byte with
        | error e =>
          refine error_noIV _ ?_
          intro hc
          subst hc
          exact snsf_from_u8_noIV byte hf
        | ok flag =>
          cases flag with
          | NATIVE =>
            cases hrec : load_struct_defs_f v fuel rest2 with
            | error e =>
              refine error_noIV _ ?_
              intro hc
              subst hc
              refine (ih rest2 ?_) hrec
              simp only [List.length_cons] at h k1
              omega
            | ok xs => exact ok_noIV _
          | DECLARED =>
            refine pbind_noIV _ _ (load_field_defs_noIV v rest2) (fun fs r3 h3 => ?_)
            have k3 := load_field_defs_consume v rest2 fs r3 h3
            cases hrec : load_struct_defs_f v fuel r3 with
            | error e =>
              refine error_noIV _ ?_
              intro hc
              subst hc
              refine (ih r3 ?_) hrec
              simp only [List.length_cons] at h k1
              omega
            | ok xs => exact ok_noIV _

theorem load_function_defs_f_noIV (v : Nat) : ∀ (fuel : Nat) (i : List Nat), i.length < fuel →
    noIV (load_function_defs_f v fuel i) := by
  intro fuel
  induction fuel with
  | zero => intro i h; omega
  | succ fuel ih =>
    intro i h
    cases i with
    | nil => exact ok_noIV _
    | cons b rest =>
      refine pbind_noIV _ _ (load_function_def_noIV v (b :: rest)) (fun d r1 h1 => ?_)
      have k1 := load_function_def_consume v (b :: rest) d r1 h1
      cases hrec : load_function_defs_f v fuel r1 with
      | error e =>
        refine error_noIV _ ?_
        intro hc
        subst hc
        exact (ih r1 (by simp only [List.length_cons] at h k1; omega)) hrec
      | ok xs => exact ok_noIV _

theorem load_address_identifiers_n_noIV (binary : VersionedBinary) : ∀ (n : Nat) (start : Nat),
    noIV (load_address_identifiers_n binary n start) := by
  intro n
  induction n with
  | zero => intro start; exact ok_noIV _
  | succ n ih =>
    intro start
    unfold load_address_identifiers_n
    dsimp only
    split_ifs
    · exact error_noIV _ (by intro hc; cases hc)
    · cases hrec : load_address_identifiers_n binary n (start + ADDRESS_LENGTH) with
      | error e =>
        refine error_noIV _ ?_
        intro hc
        subst hc
        exact (ih (start + ADDRESS_LENGTH)) hrec
      | ok xs => exact ok_noIV _

theorem load_module_handles_noIV (binary : VersionedBinary) (table : Table) :
    noIV (load_module_handles binary table) :=
  load_module_handles_f_noIV _ _ (Nat.lt_succ_self _)

theorem load_struct_handles_noIV (binary : VersionedBinary) (table : Table) :
    noIV (load_struct_handles binary table) :=
  load_struct_handles_f_noIV binary.version _ _ (Nat.lt_succ_self _)

theorem load_function_handles_noIV (binary : VersionedBinary) (table : Table) :
    noIV (load_function_handles binary table) :=
  load_function_handles_f_noIV binary.version _ _ (Nat.lt_succ_self _)

theorem load_struct_instantiations_noIV (binary : VersionedBinary) (table : Table) :
    noIV (load_struct_instantiations binary table) :=
  load_struct_instantiations_f_noIV _ _ (Nat.lt_succ_self _)

theorem load_function_instantiations_noIV (binary : VersionedBinary) (table : Table) :
    noIV (load_function_instantiations binary table) :=
  load_function_instantiations_f_noIV _ _ (Nat.lt_succ_self _)

theorem load_identifiers_noIV (binary : VersionedBinary) (table : Table) :
    noIV (load_identifiers binary table) :=
  load_identifiers_f_noIV _ _ (Nat.lt_succ_self _)

theorem load_address_identifiers_noIV (binary : VersionedBinary) (table : Table) :
    noIV (load_address_identifiers binary table) := by
  unfold load_address_identifiers
  split_ifs
  · exact error_noIV _ (by intro hc; cases hc)
  · exact load_address_identifiers_n_noIV binary _ _

theorem load_constant_pool_noIV (binary : VersionedBinary) (table : Table) :
    noIV (load_constant_pool binary table) :=
  load_constant_pool_f_noIV binary.version _ _ (Nat.lt_succ_self _)

theorem load_metadata_noIV (binary : VersionedBinary) (table : Table) :
    noIV (load_metadata binary table) :=
  load_metadata_f_noIV _ _ (Nat.lt_succ_self _)

theorem load_signatures_noIV (binary : VersionedBinary) (table : Table) :
    noIV (load_signatures binary table) :=
  load_signatures_f_noIV binary.version _ _ (Nat.lt_succ_self _)

theorem load_struct_defs_noIV (binary : VersionedBinary) (table : Table) :
    noIV (load_struct_defs binary table) :=
  load_struct_defs_f_noIV binary.version _ _ (Nat.lt_succ_self _)

theorem load_function_defs_noIV (binary : VersionedBinary) (table : Table) :
    noIV (load_function_defs binary table) :=
  load_function_defs_f_noIV binary.version _ _ (Nat.lt_succ_self _)

theorem load_field_handles_noIV (binary : VersionedBinary) (table : Table) :
    noIV (load_field_handles binary table) :=
  load_field_handles_f_noIV _ _ (Nat.lt_succ_self _)

theorem load_field_instantiations_noIV (binary : VersionedBinary) (table : Table) :
    noIV (load_field_instantiations binary table) :=
  load_field_instantiations_f_noIV _ _ (Nat.lt_succ_self _)

theorem build_common_tables_noIV (binary : VersionedBinary) : ∀ (ts : List Table) (common : CommonTablesData),
    noIV (build_common_tables binary ts common) := by
  intro ts
  induction ts with
  | nil => intro common; exact ok_noIV _
  | cons t rest ih =>
    intro common
    obtain ⟨k, off, cnt⟩ := t
    cases k
    all_goals simp only [build_common_tables]
    · cases hl : load_module_handles binary ⟨.MODULE_HANDLES, off, cnt⟩ with
      | error e =>
        refine error_noIV _ ?_
        intro hc
        subst hc
        exact load_module_handles_noIV binary _ hl
      | ok xs => exact ih _
    · cases hl : load_struct_handles binary ⟨.STRUCT_HANDLES, off, cnt⟩ with
      | error e =>
        refine error_noIV _ ?_
        intro hc
        subst hc
        exact load_struct_handles_noIV binary _ hl
      | ok xs => exact ih _
    · cases hl : load_function_handles binary ⟨.FUNCTION_HANDLES, off, cnt⟩ with
      | error e =>
        refine error_noIV _ ?_
        intro hc
        subst hc
        exact load_function_handles_noIV binary _ hl
      | ok xs => exact ih _
    · cases hl : load_function_instantiations binary ⟨.FUNCTION_INST, off, cnt⟩ with
      | error e =>
        refine error_noIV _ ?_
        intro hc
        subst hc
        exact load_function_instantiations_noIV binary _ hl
      | ok xs => exact ih _
    · cases hl : load_signatures binary ⟨.SIGNATURES, off, cnt⟩ with
      | error e =>
        refine error_noIV _ ?_
        intro hc
        subst hc
        exact load_signatures_noIV binary _ hl
      | ok xs => exact ih _
    · cases hl : load_constant_pool binary ⟨.CONSTANT_POOL, off, cnt⟩ with
      | error e =>
        refine error_noIV _ ?_
        intro hc
        subst hc
        exact load_constant_pool_noIV binary _ hl
      | ok xs => exact ih _
    · cases hl : load_identifiers binary ⟨.IDENTIFIERS, off, cnt⟩ with
      | error e =>
        refine error_noIV _ ?_
        intro hc
        subst hc
        exact load_identifiers_noIV binary _ hl
      | ok xs => exact ih _
    · cases hl : load_address_identifiers binary ⟨.ADDRESS_IDENTIFIERS, off, cnt⟩ with
      | error e =>
        refine error_noIV _ ?_
        intro hc
        subst hc
        exact load_address_identifiers_noIV binary _ hl
      | ok xs => exact ih _
    · exact ih _
    · exact ih _
    · exact ih _
    · exact ih _
    · exact ih _
    · split_ifs
      · exact error_noIV _ (by intro hc; cases hc)
      · exact ih _
    · split_ifs
      · exact error_noIV _ (by intro hc; cases hc)
      · cases hl : load_metadata binary ⟨.METADATA, off, cnt⟩ with
        | error e =>
          refine error_noIV _ ?_
          intro hc
          subst hc
          exact load_metadata_noIV binary _ hl
        | ok xs => exact ih _

theorem build_module_tables_noIV (binary : VersionedBinary) : ∀ (ts : List Table) (m : CompiledModule),
    noIV (build_module_tables binary ts m) := by
  intro ts
  induction ts with
  | nil => intro m; exact ok_noIV _
  | cons t rest ih =>
    intro m
    obtain ⟨k, off, cnt⟩ := t
    cases k
    all_goals simp only [build_module_tables]
    · exact ih _
    · exact ih _
    · exact ih _
    · exact ih _
    · exact ih _
    · exact ih _
    · exact ih _
    · exact ih _
    · cases hl : load_struct_defs binary ⟨.STRUCT_DEFS, off, cnt⟩ with
      | error e =>
        refine error_noIV _ ?_
        intro hc
        subst hc
        exact load_struct_defs_noIV binary _ hl
      | ok xs => exact ih _
    · cases hl : load_struct_instantiations binary ⟨.STRUCT_DEF_INST, off, cnt⟩ with
      | error e =>
        refine error_noIV _ ?_
        intro hc
        subst hc
        exact load_struct_instantiations_noIV binary _ hl
      | ok xs => exact ih _
    · cases hl : load_function_defs binary ⟨.FUNCTION_DEFS, off, cnt⟩ with
      | error e =>
        refine error_noIV _ ?_
        intro hc
        subst hc
        exact load_function_defs_noIV binary _ hl
      | ok xs => exact ih _
    · cases hl : load_field_handles binary ⟨.FIELD_HANDLE, off, cnt⟩ with
      | error e =>
        refine error_noIV _ ?_
        intro hc
        subst hc
        exact load_field_handles_noIV binary _ hl
      | ok xs => exact ih _
    · cases hl : load_field_instantiations binary ⟨.FIELD_INST, off, cnt⟩ with
      | error e =>
        refine error_noIV _ ?_
        intro hc
        subst hc
        exact load_field_instantiations_noIV binary _ hl
      | ok xs => exact ih _
    · cases hl : load_module_handles binary ⟨.FRIEND_DECLS, off, cnt⟩ with
      | error e =>
        refine error_noIV _ ?_
        intro hc
        subst hc
        exact load_module_handles_noIV binary _ hl
      | ok xs => exact ih _
    · exact ih _

theorem build_script_tables_noIV : ∀ (ts : List Table), noIV (build_script_tables ts) := by
  intro ts
  induction ts with
  | nil => exact ok_noIV _
  | cons t rest ih =>
    obtain ⟨k, off, cnt⟩ := t
    cases k
    all_goals simp only [build_script_tables]
    all_goals first
      | exact ih
      | exact error_noIV _ (by intro hc; cases hc)

theorem build_compiled_module_noIV (m : CompiledModule) (binary : VersionedBinary) (ts : List Table) :
    noIV (build_compiled_module m binary ts) := by
  unfold build_compiled_module
  cases hc : build_common_tables binary ts m.common with
  | error e =>
    refine error_noIV _ ?_
    intro hcc
    subst hcc
    exact build_common_tables_noIV binary ts m.common hc
  | ok common => exact build_module_tables_noIV binary ts _

theorem build_compiled_script_noIV (s : CompiledScript) (binary : VersionedBinary) (ts : List Table) :
    noIV (build_compiled_script s binary ts) := by
  unfold build_compiled_script
  cases hc : build_common_tables binary ts s.common with
  | error e =>
    refine error_noIV _ ?_
    intro hcc
    subst hcc
    exact build_common_tables_noIV binary ts s.common hc
  | ok common =>
    cases hs : build_script_tables ts with
    | error e =>
      refine error_noIV _ ?_
      intro hcc
      subst hcc
      exact build_script_tables_noIV ts hs
    | ok u => exact ok_noIV _

theorem versioned_cursor_new_noIV (mv : Nat) (binary : List Nat) :
    noIV (versioned_cursor_new mv binary) := by
  unfold versioned_cursor_new
  split_ifs
  · exact error_noIV _ (by intro hc; cases hc)
  · cases ulebDecode (binary.drop 4) with
    | none => exact error_noIV _ (by intro hc; cases hc)
    | some p =>
      obtain ⟨ver, rest⟩ := p
      dsimp only
      split_ifs
      · exact error_noIV _ (by intro hc; cases hc)
      · exact ok_noIV _

theorem read_table_noIV (i : List Nat) : noIV (read_table i) := by
  unfold read_table
  cases i with
  | nil => exact error_noIV _ (by intro hc; cases hc)
  | cons kind rest =>
    dsimp only
    refine pbind_noIV _ _ (read_uleb_internal_noIV _ _) (fun off r1 _ => ?_)
    refine pbind_noIV _ _ (read_uleb_internal_noIV _ _) (fun cnt r2 _ => ?_)
    cases hf : TableType.from_u8 kind with
    | error e =>
      refine error_noIV _ ?_
      intro hc
      subst hc
      exact table_type_from_u8_noIV kind hf
    | ok k => exact ok_noIV _

theorem read_tables_noIV : ∀ (n : Nat) (i : List Nat), noIV (read_tables n i) := by
  intro n
  induction n with
  | zero => intro i; exact ok_noIV _
  | succ n ih =>
    intro i
    refine pbind_noIV _ _ (read_table_noIV i) (fun t r _ => ?_)
    exact pbind_noIV _ _ (ih r) (fun ts r2 _ => ok_noIV _)

theorem check_tables_loop_noIV : ∀ (ts : List Table) (c : Nat) (k : List TableType) (len : Nat),
    noIV (check_tables_loop ts c k len) := by
  intro ts
  induction ts with
  | nil => intro c k len; exact ok_noIV _
  | cons t rest ih =>
    intro c k len
    unfold check_tables_loop
    split_ifs
    any_goals exact error_noIV _ (by intro hc; cases hc)
    exact ih _ _ _

theorem check_tables_noIV (ts : List Table) (len : Nat) : noIV (check_tables ts len) :=
  check_tables_loop_noIV (sort_tables ts) 0 [] len

theorem read_table_contents_noIV (v n : Nat) (i : List Nat) :
    noIV (read_table_contents v n i) := by
  unfold read_table_contents
  split_ifs
  · exact ok_noIV _
  · exact error_noIV _ (by intro hc; cases hc)

/-- **C9.** Bounded rejection: for every byte sequence and every
`max_version`, deserializing it as a module and as a script returns
either a compiled unit or one of the deserializer's intentional typed
errors — the `invariantViolation` sentinel standing for panics and
loop-fuel exhaustion is never produced, so every loop translation had
sufficient fuel and no `unreachable!` arm is reachable. -/
theorem C9_bounded_rejection (binary : List Nat) (max_version : Nat) :
    deserialize_compiled_module binary max_version ≠ .error .invariantViolation ∧
    deserialize_compiled_script binary max_version ≠ .error .invariantViolation := by
  constructor
  · show noIV (deserialize_compiled_module binary max_version)
    unfold deserialize_compiled_module
    refine pbind_noIV _ _ (versioned_cursor_new_noIV max_version binary) (fun ver r _ => ?_)
    refine pbind_noIV _ _ (read_uleb_internal_noIV _ _) (fun tc r2 _ => ?_)
    refine pbind_noIV _ _ (read_tables_noIV tc r2) (fun tables r3 _ => ?_)
    cases hct : check_tables tables binary.length with
    | error e =>
      refine error_noIV _ ?_
      intro hc
      subst hc
      exact check_tables_noIV tables binary.length hct
    | ok content_len =>
      refine pbind_noIV _ _ (read_table_contents_noIV ver content_len r3) (fun tcont r4 _ => ?_)
      refine pbind_noIV _ _ (read_uleb_internal_noIV _ _) (fun smh r5 _ => ?_)
      exact build_compiled_module_noIV _ _ _
  · show noIV (deserialize_compiled_script binary max_version)
    unfold deserialize_compiled_script
    refine pbind_noIV _ _ (versioned_cursor_new_noIV max_version binary) (fun ver r _ => ?_)
    refine pbind_noIV _ _ (read_uleb_internal_noIV _ _) (fun tc r2 _ => ?_)
    refine pbind_noIV _ _ (read_tables_noIV tc r2) (fun tables r3 _ => ?_)
    cases hct : check_tables tables binary.length with
    | error e =>
      refine error_noIV _ ?_
      intro hc
      subst hc
      exact check_tables_noIV tables binary.length hct
    | ok content_len =>
      refine pbind_noIV _ _ (read_table_contents_noIV ver content_len r3) (fun tcont r4 _ => ?_)
      refine pbind_noIV _ _ (load_ability_sets_noIV ver .FunctionTypeParameters r4) (fun tps r5 _ => ?_)
      refine pbind_noIV _ _ (read_uleb_internal_noIV _ _) (fun params r6 _ => ?_)
      refine pbind_noIV _ _ (load_code_unit_noIV ver r6) (fun code r7 _ => ?_)
      exact build_compiled_script_noIV _ _ _

theorem table_type_from_to (k : TableType) : TableType.from_u8 k.to_u8 = .ok k := by
  cases k <;> rfl

theorem read_table_encode (t : Table) (rest : List Nat)
    (hbo : t.offset ≤ TABLE_OFFSET_MAX) (hbc : t.count ≤ TABLE_SIZE_MAX) :
    read_table (encodeTableEntry t ++ rest) = .ok (t, rest) := by
  obtain ⟨k, off, cnt⟩ := t
  have hoff64 : off < 2 ^ 64 := by
    have h1 : off ≤ 4294967295 := hbo
    have h2 : (4294967295 : Nat) < 2 ^ 64 := by norm_num
    omega
  have hcnt64 : cnt < 2 ^ 64 := by
    have h1 : cnt ≤ 4294967295 := hbc
    have h2 : (4294967295 : Nat) < 2 ^ 64 := by norm_num
    omega
  unfold read_table encodeTableEntry
  simp only [List.cons_append, List.append_assoc]
  simp only [load_table_offset]
  rw [read_uleb_internal_encode TABLE_OFFSET_MAX off (ulebEncode cnt ++ rest) hoff64 hbo]
  simp only [pbind, load_table_size]
  rw [read_uleb_internal_encode TABLE_SIZE_MAX cnt rest hcnt64 hbc]
  simp only [pbind]
  rw [table_type_from_to k]

theorem read_tables_encode : ∀ (tables : List Table) (rest : List Nat),
    (∀ t ∈ tables, tableInBounds t) →
    read_tables tables.length (encodeDirectory tables ++ rest) = .ok (tables, rest) := by
  intro tables
  induction tables with
  | nil =>
    intro rest _
    simp [encodeDirectory, read_tables]
  | cons t ts ih =>
    intro rest hb
    have henc : encodeDirectory (t :: ts) ++ rest = encodeTableEntry t ++ (encodeDirectory ts ++ rest) := by
      simp [encodeDirectory, List.append_assoc]
    rw [List.length_cons, henc]
    simp only [read_tables]
    rw [read_table_encode t _ (hb t (by simp)).1 (hb t (by simp)).2]
    simp only [pbind]
    rw [ih rest (fun x hx => hb x (by simp [hx]))]

theorem check_tables_loop_pairwise : ∀ (ts : List Table) (c : Nat) (k : List TableType) (len n : Nat),
    check_tables_loop ts c k len = .ok n →
    (∀ t ∈ ts, c ≤ t.offset) ∧ List.Pairwise (fun a b => a.offset < b.offset) ts := by
  intro ts
  induction ts with
  | nil =>
    intro c k len n _
    exact ⟨fun t ht => absurd ht (by simp), List.Pairwise.nil⟩
  | cons t rest ih =>
    intro c k len n h
    unfold check_tables_loop at h
    split_ifs at h with h1 h2 h3 h4 h5
    have hoff : t.offset = c := not_ne_iff.mp h1
    have hcnt : 0 < t.count := Nat.pos_of_ne_zero h2
    obtain ⟨hall, hpw⟩ := ih (c + t.count) (t.kind :: k) len n h
    constructor
    · intro x hx
      rcases List.mem_cons.1 hx with rfl | hx2
      · omega
      · have := hall x hx2
        omega
    · refine List.Pairwise.cons ?_ hpw
      intro x hx
      have := hall x hx
      omega

theorem sorted_perm_eq : ∀ (l1 l2 : List Table),
    l1.Perm l2 →
    List.Pairwise (fun a b => a.offset < b.offset) l1 →
    List.Pairwise (fun a b => a.offset ≤ b.offset) l2 →
    l1 = l2 := by
  intro l1
  induction l1 with
  | nil =>
    intro l2 hp _ _
    exact (hp.symm.eq_nil).symm
  | cons a l1' ih =>
    intro l2 hp hpw1 hpw2
    cases l2 with
    | nil => exact absurd hp.eq_nil (by simp)
    | cons b l2' =>
      have hab : a = b := by
        by_contra hne
        have hbmem : b ∈ a :: l1' := hp.mem_iff.mpr (by simp)
        have hamem : a ∈ b :: l2' := hp.mem_iff.mp (by simp)
        rcases List.mem_cons.1 hbmem with heq | hb2
        · exact hne heq.symm
        · rcases List.mem_cons.1 hamem with heq | ha2
          · exact hne heq
          · have k1 := (List.pairwise_cons.1 hpw1).1 b hb2
            have k2 := (List.pairwise_cons.1 hpw2).1 a ha2
            omega
      subst hab
      have hp' : l1'.Perm l2' := hp.cons_inv
      rw [ih l2' hp' (List.pairwise_cons.1 hpw1).2 (List.pairwise_cons.1 hpw2).2]

theorem sort_tables_sorted (l : List Table) :
    List.Pairwise (fun a b => a.offset ≤ b.offset) (sort_tables l) := by
  haveI : IsTotal Table (fun t1 t2 => t1.offset ≤ t2.offset) := ⟨fun a b => Nat.le_total a.offset b.offset⟩
  haveI : IsTrans Table (fun t1 t2 => t1.offset ≤ t2.offset) := ⟨fun a b c hab hbc => le_trans hab hbc⟩
  exact List.sorted_insertionSort _ l

theorem sort_tables_perm (l : List Table) : (sort_tables l).Perm l :=
  List.perm_insertionSort _ l

theorem sort_tables_eq_of_perm (tables tables2 : List Table) (hperm : tables.Perm tables2)
    (len n : Nat) (hok : check_tables tables len = .ok n) :
    sort_tables tables = sort_tables tables2 := by
  have hpw1 := (check_tables_loop_pairwise (sort_tables tables) 0 [] len n hok).2
  have hs2 := sort_tables_sorted tables2
  have hp : (sort_tables tables).Perm (sort_tables tables2) :=
    (sort_tables_perm tables).trans (hperm.trans (sort_tables_perm tables2).symm)
  exact sorted_perm_eq _ _ hp hpw1 hs2

theorem encodeDirectory_length_perm (tables tables2 : List Table) (hperm : tables.Perm tables2) :
    (encodeDirectory tables).length = (encodeDirectory tables2).length := by
  unfold encodeDirectory
  rw [List.length_flatMap, List.length_flatMap]
  exact List.Perm.sum_eq (hperm.map _)

theorem versioned_cursor_new_mk (mv version : Nat) (x : List Nat)
    (hv1 : 1 ≤ version) (hv2 : version ≤ mv) (hv3 : version ≤ VERSION_MAX) :
    versioned_cursor_new mv (MOVE_MAGIC ++ (ulebEncode version ++ x)) = .ok (version, x) := by
  have h4 : (MOVE_MAGIC ++ (ulebEncode version ++ x)).take 4 = MOVE_MAGIC := by
    rw [show (4 : Nat) = MOVE_MAGIC.length from rfl]
    exact List.take_left _ _
  have hd : (MOVE_MAGIC ++ (ulebEncode version ++ x)).drop 4 = ulebEncode version ++ x := by
    rw [show (4 : Nat) = MOVE_MAGIC.length from rfl]
    exact List.drop_left _ _
  have hv64 : version < 2 ^ 64 := by
    have h1 : version ≤ 6 := hv3
    have h2 : (6 : Nat) < 2 ^ 64 := by norm_num
    omega
  unfold versioned_cursor_new
  rw [if_neg (by rw [h4]; exact fun hc => hc rfl)]
  rw [hd, ulebDecode_encode version x hv64]
  dsimp only
  rw [if_neg (by
    have h2 : version ≤ mv := hv2
    have h3 : version ≤ VERSION_MAX := hv3
    have hmin : version ≤ Nat.min mv VERSION_MAX := le_min h2 h3
    intro hc
    rcases hc with hc0 | hlt
    · omega
    · omega)]

theorem deserialize_mk_ok (version mv : Nat) (tables : List Table) (tail : List Nat) (cl : Nat)
    (hv1 : 1 ≤ version) (hv2 : version ≤ mv) (hv3 : version ≤ VERSION_MAX)
    (hcnt : tables.length ≤ TABLE_COUNT_MAX)
    (hb : ∀ t ∈ tables, tableInBounds t)
    (hct : check_tables tables (mkModuleInput version tables tail).length = .ok cl) :
    deserialize_compiled_module (mkModuleInput version tables tail) mv =
      pbind (read_table_contents version cl tail) fun table_contents rest4 =>
      pbind (load_module_handle_index rest4) fun smh _r5 =>
      build_compiled_module { version := version, self_module_handle_idx := smh, common := {} }
        table_contents (sort_tables tables) := by
  have hcnt64 : tables.length < 2 ^ 64 := by
    have h1 : tables.length ≤ 255 := hcnt
    have h2 : (255 : Nat) < 2 ^ 64 := by norm_num
    omega
  have hmk : mkModuleInput version tables tail =
      MOVE_MAGIC ++ (ulebEncode version ++ (ulebEncode tables.length ++ (encodeDirectory tables ++ tail))) := by
    simp [mkModuleInput, List.append_assoc]
  rw [hmk] at hct ⊢
  unfold deserialize_compiled_module
  rw [versioned_cursor_new_mk mv version _ hv1 hv2 hv3]
  simp only [pbind, load_table_count]
  rw [read_uleb_internal_encode TABLE_COUNT_MAX tables.length (encodeDirectory tables ++ tail) hcnt64 hcnt]
  simp only [pbind]
  rw [read_tables_encode tables tail hb]
  simp only [pbind]
  rw [hct]

theorem deserialize_mk_err (version mv : Nat) (tables : List Table) (tail : List Nat) (e : DErr)
    (hv1 : 1 ≤ version) (hv2 : version ≤ mv) (hv3 : version ≤ VERSION_MAX)
    (hcnt : tables.length ≤ TABLE_COUNT_MAX)
    (hb : ∀ t ∈ tables, tableInBounds t)
    (hct : check_tables tables (mkModuleInput version tables tail).length = .error e) :
    deserialize_compiled_module (mkModuleInput version tables tail) mv = .error e := by
  have hcnt64 : tables.length < 2 ^ 64 := by
    have h1 : tables.length ≤ 255 := hcnt
    have h2 : (255 : Nat) < 2 ^ 64 := by norm_num
    omega
  have hmk : mkModuleInput version tables tail =
      MOVE_MAGIC ++ (ulebEncode version ++ (ulebEncode tables.length ++ (encodeDirectory tables ++ tail))) := by
    simp [mkModuleInput, List.append_assoc]
  rw [hmk] at hct ⊢
  unfold deserialize_compiled_module
  rw [versioned_cursor_new_mk mv version _ hv1 hv2 hv3]
  simp only [pbind, load_table_count]
  rw [read_uleb_internal_encode TABLE_COUNT_MAX tables.length (encodeDirectory tables ++ tail) hcnt64 hcnt]
  simp only [pbind]
  rw [read_tables_encode tables tail hb]
  simp only [pbind]
  rw [hct]

theorem deserialize_script_mk_ok (version mv : Nat) (tables : List Table) (tail : List Nat) (cl : Nat)
    (hv1 : 1 ≤ version) (hv2 : version ≤ mv) (hv3 : version ≤ VERSION_MAX)
    (hcnt : tables.length ≤ TABLE_COUNT_MAX)
    (hb : ∀ t ∈ tables, tableInBounds t)
    (hct : check_tables tables (mkModuleInput version tables tail).length = .ok cl) :
    deserialize_compiled_script (mkModuleInput version tables tail) mv =
      pbind (read_table_contents version cl tail) fun table_contents rest4 =>
      pbind (load_ability_sets version .FunctionTypeParameters rest4) fun type_parameters rest5 =>
      pbind (load_signature_index rest5) fun parameters rest6 =>
      pbind (load_code_unit version rest6) fun code _rest7 =>
      build_compiled_script ⟨version, type_parameters, parameters, code, {}⟩
        table_contents (sort_tables tables) := by
  have hcnt64 : tables.length < 2 ^ 64 := by
    have h1 : tables.length ≤ 255 := hcnt
    have h2 : (255 : Nat) < 2 ^ 64 := by norm_num
    omega
  have hmk : mkModuleInput version tables tail =
      MOVE_MAGIC ++ (ulebEncode version ++ (ulebEncode tables.length ++ (encodeDirectory tables ++ tail))) := by
    simp [mkModuleInput, List.append_assoc]
  rw [hmk] at hct ⊢
  unfold deserialize_compiled_script
  rw [versioned_cursor_new_mk mv version _ hv1 hv2 hv3]
  simp only [pbind, load_table_count]
  rw [read_uleb_internal_encode TABLE_COUNT_MAX tables.length (encodeDirectory tables ++ tail) hcnt64 hcnt]
  simp only [pbind]
  rw [read_tables_encode tables tail hb]
  simp only [pbind]
  rw [hct]

theorem deserialize_script_mk_err (version mv : Nat) (tables : List Table) (tail : List Nat) (e : DErr)
    (hv1 : 1 ≤ version) (hv2 : version ≤ mv) (hv3 : version ≤ VERSION_MAX)
    (hcnt : tables.length ≤ TABLE_COUNT_MAX)
    (hb : ∀ t ∈ tables, tableInBounds t)
    (hct : check_tables tables (mkModuleInput version tables tail).length = .error e) :
    deserialize_compiled_script (mkModuleInput version tables tail) mv = .error e := by
  have hcnt64 : tables.length < 2 ^ 64 := by
    have h1 : tables.length ≤ 255 := hcnt
    have h2 : (255 : Nat) < 2 ^ 64 := by norm_num
    omega
  have hmk : mkModuleInput version tables tail =
      MOVE_MAGIC ++ (ulebEncode version ++ (ulebEncode tables.length ++ (encodeDirectory tables ++ tail))) := by
    simp [mkModuleInput, List.append_assoc]
  rw [hmk] at hct ⊢
  unfold deserialize_compiled_script
  rw [versioned_cursor_new_mk mv version _ hv1 hv2 hv3]
  simp only [pbind, load_table_count]
  rw [read_uleb_internal_encode TABLE_COUNT_MAX tables.length (encodeDirectory tables ++ tail) hcnt64 hcnt]
  simp only [pbind]
  rw [read_tables_encode tables tail hb]
  simp only [pbind]
  rw [hct]

/-- **C10.** Directory-order invariance: the decoder sorts the table
directory by offset before validating (`check_tables`) and building
tables, so for every binary input (magic, in-range version, bounded
directory, contents) that deserializes successfully — as a module or
as a script — permuting the directory entries, each entry's kind,
offset and size unchanged, yields an input that deserializes
successfully to the same compiled unit. -/
theorem C10_directory_permutation (version mv : Nat) (tables tables2 : List Table)
    (tail : List Nat)
    (hperm : tables.Perm tables2)
    (hv1 : 1 ≤ version) (hv2 : version ≤ mv) (hv3 : version ≤ VERSION_MAX)
    (hcnt : tables.length ≤ TABLE_COUNT_MAX)
    (hb : ∀ t ∈ tables, tableInBounds t) :
    (∀ m : CompiledModule,
      deserialize_compiled_module (mkModuleInput version tables tail) mv = .ok m →
      deserialize_compiled_module (mkModuleInput version tables2 tail) mv = .ok m) ∧
    (∀ s : CompiledScript,
      deserialize_compiled_script (mkModuleInput version tables tail) mv = .ok s →
      deserialize_compiled_script (mkModuleInput version tables2 tail) mv = .ok s) := by
  have hcnt2 : tables2.length ≤ TABLE_COUNT_MAX := by
    rw [← hperm.length_eq]
    exact hcnt
  have hb2 : ∀ t ∈ tables2, tableInBounds t := fun t ht => hb t (hperm.mem_iff.mpr ht)
  have hlen : (mkModuleInput version tables2 tail).length = (mkModuleInput version tables tail).length := by
    simp only [mkModuleInput, List.length_append]
    rw [encodeDirectory_length_perm tables tables2 hperm, hperm.length_eq]
  constructor
  · intro m h
    cases hct : check_tables tables (mkModuleInput version tables tail).length with
    | error e =>
      rw [deserialize_mk_err version mv tables tail e hv1 hv2 hv3 hcnt hb hct] at h
      cases h
    | ok cl =>
      have hsort : sort_tables tables = sort_tables tables2 :=
        sort_tables_eq_of_perm tables tables2 hperm _ cl hct
      have hct2 : check_tables tables2 (mkModuleInput version tables2 tail).length = .ok cl := by
        show check_tables_loop (sort_tables tables2) 0 [] _ = .ok cl
        rw [← hsort, hlen]
        exact hct
      rw [deserialize_mk_ok version mv tables tail cl hv1 hv2 hv3 hcnt hb hct] at h
      rw [deserialize_mk_ok version mv tables2 tail cl hv1 hv2 hv3 hcnt2 hb2 hct2]
      rw [← hsort]
      exact h
  · intro sc h
    cases hct : check_tables tables (mkModuleInput version tables tail).length with
    | error e =>
      rw [deserialize_script_mk_err version mv tables tail e hv1 hv2 hv3 hcnt hb hct] at h
      cases h
    | ok cl =>
      have hsort : sort_tables tables = sort_tables tables2 :=
        sort_tables_eq_of_perm tables tables2 hperm _ cl hct
      have hct2 : check_tables tables2 (mkModuleInput version tables2 tail).length = .ok cl := by
        show check_tables_loop (sort_tables tables2) 0 [] _ = .ok cl
        rw [← hsort, hlen]
        exact hct
      rw [deserialize_script_mk_ok version mv tables tail cl hv1 hv2 hv3 hcnt hb hct] at h
      rw [deserialize_script_mk_ok version mv tables2 tail cl hv1 hv2 hv3 hcnt2 hb2 hct2]
      rw [← hsort]
      exact h

/-- Witness for C10: a module with a `MODULE_HANDLES` table and a
`FIELD_HANDLE` table, and a script with a `MODULE_HANDLES` table and a
`SIGNATURES` table, each decode identically with their two directory
entries listed in either order. -/
theorem C10_witness :
    ([⟨.FIELD_HANDLE, 2, 2⟩, ⟨.MODULE_HANDLES, 0, 2⟩] : List Table).Perm
      [⟨.MODULE_HANDLES, 0, 2⟩, ⟨.FIELD_HANDLE, 2, 2⟩] ∧
    (∀ t ∈ ([⟨.FIELD_HANDLE, 2, 2⟩, ⟨.MODULE_HANDLES, 0, 2⟩] : List Table), tableInBounds t) ∧
    ([⟨.SIGNATURES, 2, 2⟩, ⟨.MODULE_HANDLES, 0, 2⟩] : List Table).Perm
      [⟨.MODULE_HANDLES, 0, 2⟩, ⟨.SIGNATURES, 2, 2⟩] ∧
    (∀ t ∈ ([⟨.SIGNATURES, 2, 2⟩, ⟨.MODULE_HANDLES, 0, 2⟩] : List Table), tableInBounds t) ∧
    (∃ m : CompiledModule,
      deserialize_compiled_module
        (mkModuleInput 6 [⟨.FIELD_HANDLE, 2, 2⟩, ⟨.MODULE_HANDLES, 0, 2⟩] [0, 0, 0, 0, 0]) 6 = .ok m ∧
      deserialize_compiled_module
        (mkModuleInput 6 [⟨.MODULE_HANDLES, 0, 2⟩, ⟨.FIELD_HANDLE, 2, 2⟩] [0, 0, 0, 0, 0]) 6 = .ok m) ∧
    ∃ s : CompiledScript,
      deserialize_compiled_script
        (mkModuleInput 6 [⟨.SIGNATURES, 2, 2⟩, ⟨.MODULE_HANDLES, 0, 2⟩] [0, 0, 0, 0, 0, 0, 0, 0]) 6 = .ok s ∧
      deserialize_compiled_script
        (mkModuleInput 6 [⟨.MODULE_HANDLES, 0, 2⟩, ⟨.SIGNATURES, 2, 2⟩] [0, 0, 0, 0, 0, 0, 0, 0]) 6 = .ok s := by
  have hbnd : ∀ t ∈ ([⟨.FIELD_HANDLE, 2, 2⟩, ⟨.MODULE_HANDLES, 0, 2⟩] : List Table), tableInBounds t := by
    intro t ht
    rcases List.mem_cons.1 ht with rfl | ht2
    · exact ⟨by norm_num [TABLE_OFFSET_MAX, U32_MAX], by norm_num [TABLE_SIZE_MAX, U32_MAX]⟩
    · rcases List.mem_cons.1 ht2 with rfl | ht3
      · exact ⟨by norm_num [TABLE_OFFSET_MAX, U32_MAX], by norm_num [TABLE_SIZE_MAX, U32_MAX]⟩
      · simp at ht3
  have hbnds : ∀ t ∈ ([⟨.SIGNATURES, 2, 2⟩, ⟨.MODULE_HANDLES, 0, 2⟩] : List Table), tableInBounds t := by
    intro t ht
    rcases List.mem_cons.1 ht with rfl | ht2
    · exact ⟨by norm_num [TABLE_OFFSET_MAX, U32_MAX], by norm_num [TABLE_SIZE_MAX, U32_MAX]⟩
    · rcases List.mem_cons.1 ht2 with rfl | ht3
      · exact ⟨by norm_num [TABLE_OFFSET_MAX, U32_MAX], by norm_num [TABLE_SIZE_MAX, U32_MAX]⟩
      · simp at ht3
  refine ⟨List.Perm.swap _ _ _, hbnd, List.Perm.swap _ _ _, hbnds, ⟨_, rfl, ?_⟩, ⟨_, rfl, ?_⟩⟩
  · exact (C10_directory_permutation 6 6 _ _ [0, 0, 0, 0, 0] (List.Perm.swap _ _ _)
      (by decide) (by decide) (by decide) (by decide) hbnd).1 _ rfl
  · exact (C10_directory_permutation 6 6 _ _ [0, 0, 0, 0, 0, 0, 0, 0] (List.Perm.swap _ _ _)
      (by decide) (by decide) (by decide) (by decide) hbnds).2 _ rfl
